import Mathlib

/-!
# goasted: rules, registry and the three concrete checks

A shallow embedding of `rules/rule.go`, `rules/gokit_rule.go`,
`rules/testify_rule.go`, `rules/sql_context_rule.go` and of the registry set-up
in `main.go`.

Go strings are Lean `String`s; the functions of Go's `strings` package that the
rules use are written over the character list of the string.  The syntax tree
is the slice of `go/ast` the rules look at: identifiers, basic literals, import
specs, selector expressions and call expressions are separate constructors,
every other node kind is an `Other` node carrying its start position and its
children in the order `ast.Walk` visits them.
-/

namespace Goasted

/-! ## The `strings` functions used by the rules -/

/-- Go `strings.HasPrefix(s, pre)`. -/
def HasPrefix (s pre : String) : Bool :=
  pre.data.isPrefixOf s.data

/-- Go `strings.HasSuffix(s, suf)`. -/
def HasSuffix (s suf : String) : Bool :=
  suf.data.isSuffixOf s.data

/-- Go `strings.Trim(s, cutset)`: `s` without the leading and the trailing
characters that occur in `cutset`. -/
def Trim (s cutset : String) : String :=
  ⟨((s.data.dropWhile fun c => cutset.data.contains c).reverse.dropWhile
      fun c => cutset.data.contains c).reverse⟩

/-- Worker of `Split`: `skip` counts the characters of a separator that has just
been matched and is still to be consumed, `cur` is the current piece, reversed. -/
def splitGo (sep : List Char) : List Char → Nat → List Char → List String
  | [], _, cur => [⟨cur.reverse⟩]
  | _ :: cs, skip + 1, cur => splitGo sep cs skip cur
  | c :: cs, 0, cur =>
    if sep.isPrefixOf (c :: cs) then
      ⟨cur.reverse⟩ :: splitGo sep cs (sep.length - 1) []
    else
      splitGo sep cs 0 (c :: cur)

/-- Go `strings.Split(s, sep)`: the pieces of `s` between the occurrences of
`sep`; with an empty `sep` the string is cut after every character. -/
def Split (s sep : String) : List String :=
  if sep.data.isEmpty then s.data.map fun c => ⟨[c]⟩ else splitGo sep.data s.data 0 []

/-! ## Syntax trees (`go/ast`) and positions (`go/token`) -/

/-- Go `token.Position`, the part the rules read. -/
structure Position where
  Line : Nat
  Column : Nat
deriving DecidableEq, Repr

/-- Go `*ast.Ident`. -/
structure Ident where
  NamePos : Nat
  Name : String
deriving DecidableEq, Repr

/-- Go `*ast.BasicLit`; `Value` is the literal as written, quotes included. -/
structure BasicLit where
  ValuePos : Nat
  Value : String
deriving DecidableEq, Repr

/-- Go `*ast.ImportSpec`; `Name` is the local name when one is written, `Path`
the path literal (both are pointers in Go and may be nil). -/
structure ImportSpec where
  Name : Option Ident
  Path : Option BasicLit
deriving DecidableEq, Repr

/-- Go `ast.Node`. -/
inductive Node where
  | Ident (id : Ident)
  | BasicLit (lit : BasicLit)
  | ImportSpec (spec : ImportSpec)
  | SelectorExpr (X : Node) (Sel : Ident)
  | CallExpr (Fun : Node) (Args : List Node)
  | Other (pos : Nat) (children : List Node)
deriving Repr

/-- Go `(*ast.ImportSpec).Pos`: the position of the local name when there is
one, of the path otherwise. -/
def ImportSpec.Pos (s : ImportSpec) : Nat :=
  match s.Name with
  | some n => n.NamePos
  | none =>
    match s.Path with
    | some p => p.ValuePos
    | none => 0

/-- Go `Node.Pos`: the position of the first character of the node. -/
def Node.Pos : Node → Nat
  | .Ident id => id.NamePos
  | .BasicLit lit => lit.ValuePos
  | .ImportSpec spec => spec.Pos
  | .SelectorExpr X _ => Node.Pos X
  | .CallExpr Fun _ => Node.Pos Fun
  | .Other pos _ => pos

/-- One visit of `ast.Inspect`: call `f` on the node; when it answers true,
walk the children with `body` and finish with the call `f(nil)`. -/
def visit {σ : Type} (f : Option Node → σ → σ × Bool) (n : Node) (body : σ → σ) (s : σ) : σ :=
  let r := f (some n) s
  if r.2 then (f none (body r.1)).1 else r.1

mutual
/-- Go `ast.Inspect(n, f)` for a closure `f` that updates captured state `σ`:
depth-first, children in the order of `ast.Walk`. -/
def Inspect {σ : Type} (f : Option Node → σ → σ × Bool) : Node → σ → σ
  | .Ident i, s => visit f (.Ident i) (fun s1 => s1) s
  | .BasicLit lit, s => visit f (.BasicLit lit) (fun s1 => s1) s
  | .ImportSpec spec, s =>
    visit f (.ImportSpec spec)
      (fun s1 =>
        let s2 := match spec.Name with
          | some n => visit f (.Ident n) (fun s => s) s1
          | none => s1
        match spec.Path with
        | some p => visit f (.BasicLit p) (fun s => s) s2
        | none => s2) s
  | .SelectorExpr X Sel, s =>
    visit f (.SelectorExpr X Sel) (fun s1 => visit f (.Ident Sel) (fun s => s) (Inspect f X s1)) s
  | .CallExpr Fun Args, s =>
    visit f (.CallExpr Fun Args) (fun s1 => InspectList f Args (Inspect f Fun s1)) s
  | .Other pos children, s =>
    visit f (.Other pos children) (fun s1 => InspectList f children s1) s
/-- Go `walkList`: the nodes of a list, in order. -/
def InspectList {σ : Type} (f : Option Node → σ → σ × Bool) : List Node → σ → σ
  | [], s => s
  | n :: ns, s => InspectList f ns (Inspect f n s)
end

/-- Go `*ast.File`: the package clause position, the package name, the
top-level declarations, and `Imports`, the import specs of the file as the
parser collects them. -/
structure File where
  Package : Nat
  Name : Ident
  Decls : List Node
  Imports : List ImportSpec

/-- The file as the root node handed to `ast.Inspect`: `ast.Walk` visits the
package name and then the declarations (`Imports` is not walked again). -/
def File.toNode (f : File) : Node :=
  .Other f.Package (.Ident f.Name :: f.Decls)

/-! ## Resolved types (`go/types`) -/

/-- Go `*types.TypeName` of a named type: the path of the declaring package
(nil for universe types) and the declared name. -/
structure TypeName where
  Pkg : Option String
  Name : String
deriving DecidableEq, Repr

/-- Go `types.Type`, the shapes `typeIsDbOrTx` tells apart. -/
inductive GoType where
  | Pointer (elem : GoType)
  | Named (obj : Option TypeName)
  | Unnamed (text : String)
deriving DecidableEq, Repr

/-- Go `Type.String()`: a named type is written with the path of its package
and a dot before its name, and with the name alone when it has no package or
the path of its package is empty. -/
def GoType.String : GoType → String
  | .Pointer elem => "*" ++ GoType.String elem
  | .Named (some obj) =>
    match obj.Pkg with
    | some p => if p == "" then obj.Name else p ++ "." ++ obj.Name
    | none => obj.Name
  | .Named none => ""
  | .Unnamed text => text

/-- Go `*types.Info`, through `TypeOf`: the resolved type of an expression, or
nil when the table has none. -/
structure Info where
  TypeOf : Node → Option GoType

/-! ## `rules/rule.go` -/

/-- Go `rules.Context`. -/
structure Context where
  FileSet : Nat → Position
  File : File
  Filename : String
  TypeInfo : Option Info

/-- Go `rules.Violation`. -/
structure Violation where
  File : String
  Line : Nat
  Column : Nat
  Rule : String
  Message : String
deriving DecidableEq, Repr

/-- Go interface `rules.Rule`: a value with its three methods. -/
structure Rule where
  Name : String
  Description : String
  Check : Context → List Violation

/-- Go `rules.Registry`, a slice of rules. -/
abbrev Registry := List Rule

/-- Go `NewRegistry`. -/
def NewRegistry : Registry := []

/-- Go `(*Registry).Register`. -/
def Registry.Register (r : Registry) (rule : Rule) : Registry :=
  r ++ [rule]

/-- Go `(*Registry).GetRules`. -/
def Registry.GetRules (r : Registry) : List Rule := r

/-- Go `(*Registry).GetRule`: the loop returns at the first rule whose name is
`name`; `none` is Go's nil. -/
def Registry.GetRule : Registry → String → Option Rule
  | [], _ => none
  | rule :: rest, name => if rule.Name == name then some rule else Registry.GetRule rest name

/-- Go `(*Registry).Filter`: the loop over `names`, registering each rule found. -/
def Registry.Filter (r : Registry) (names : List String) : Registry :=
  names.foldl
    (fun filtered name =>
      match r.GetRule name with
      | some rule => filtered.Register rule
      | none => filtered)
    NewRegistry

/-! ## `rules/gokit_rule.go` -/

/-- Go `GokitRule.Name`. -/
def GokitRule.Name : String := "gokit-usage"

/-- Go `GokitRule.Description`. -/
def GokitRule.Description : String := "Detects usage of github.com/go-kit/kit in code"

/-- The closure `GokitRule.Check` hands to `ast.Inspect`; the state is the
captured slice `violations`. -/
def GokitRule.inspector (ctx : Context) : Option Node → List Violation → List Violation × Bool
  | none, violations => (violations, false)
  | some (.ImportSpec importSpec), violations =>
    match importSpec.Path with
    | none => (violations, true)
    | some lit =>
      let importPath := Trim lit.Value "\""
      if !HasPrefix importPath "github.com/go-kit/kit" then (violations, true)
      else
        let pos := ctx.FileSet importSpec.Pos
        (violations ++ [{
          File := ctx.Filename,
          Line := pos.Line,
          Column := pos.Column,
          Rule := GokitRule.Name,
          Message := "File imports go-kit package: " ++ importPath }], true)
  | some _, violations => (violations, true)

/-- Go `GokitRule.Check`. -/
def GokitRule.Check (ctx : Context) : List Violation :=
  Inspect (GokitRule.inspector ctx) ctx.File.toNode []

/-- The rule value `GokitRule{}` behind the `Rule` interface. -/
def GokitRule : Rule := ⟨GokitRule.Name, GokitRule.Description, GokitRule.Check⟩

/-! ## `rules/testify_rule.go` -/

/-- Go `TestifyRule.Name`. -/
def TestifyRule.Name : String := "testify-usage"

/-- Go `TestifyRule.Description`. -/
def TestifyRule.Description : String :=
  "Detects usage of github.com/stretchr/testify in test files"

/-- The closure `importInspector`; the state is the sequence of violations sent
on `violationChan`. -/
def TestifyRule.importInspector (ctx : Context) :
    Option Node → List Violation → List Violation × Bool
  | none, sent => (sent, false)
  | some (.ImportSpec importSpec), sent =>
    match importSpec.Path with
    | none => (sent, true)
    | some lit =>
      let importPath := Trim lit.Value "\""
      if !HasPrefix importPath "github.com/stretchr/testify" then (sent, true)
      else
        let pos := ctx.FileSet importSpec.Pos
        (sent ++ [{
          File := ctx.Filename,
          Line := pos.Line,
          Column := pos.Column,
          Rule := TestifyRule.Name,
          Message := "Test file imports testify package: " ++ importPath }], true)
  | some _, sent => (sent, true)

/-- The map `testifyPkgs` of `selectorInspector`, as a membership test. -/
def testifyPkgs (name : String) : Bool :=
  name == "assert" || name == "require" || name == "suite" || name == "mock"

/-- One turn of the loop over `ctx.File.Imports` in `selectorInspector`, for the
member access `ident.Sel` at position `selPos`. -/
def TestifyRule.confirmImport (ctx : Context) (ident Sel : Ident) (selPos : Nat)
    (violations : List Violation) (imp : ImportSpec) : List Violation :=
  match imp.Path with
  | none => violations
  | some lit =>
    let importPath := Trim lit.Value "\""
    if !HasPrefix importPath "github.com/stretchr/testify" then violations
    else
      let pkgName :=
        match imp.Name with
        | some n => n.Name
        | none =>
          let parts := Split importPath "/"
          match parts.getLast? with
          | some last => last
          | none => ""
      if pkgName != ident.Name then violations
      else
        let pos := ctx.FileSet selPos
        violations ++ [{
          File := ctx.Filename,
          Line := pos.Line,
          Column := pos.Column,
          Rule := TestifyRule.Name,
          Message := "Test code calls testify method: " ++ ident.Name ++ "." ++ Sel.Name }]

/-- The closure `selectorInspector`; the state is the captured slice
`violations`. -/
def TestifyRule.selectorInspector (ctx : Context) :
    Option Node → List Violation → List Violation × Bool
  | none, violations => (violations, false)
  | some (.SelectorExpr (.Ident ident) Sel), violations =>
    if !testifyPkgs ident.Name then (violations, true)
    else
      (ctx.File.Imports.foldl
        (TestifyRule.confirmImport ctx ident Sel (Node.Pos (.SelectorExpr (.Ident ident) Sel)))
        violations, true)
  | some _, violations => (violations, true)

/-- The usage phase of `TestifyRule.Check`: the walk with `selectorInspector`. -/
def TestifyRule.usagePhase (ctx : Context) : List Violation :=
  Inspect (TestifyRule.selectorInspector ctx) ctx.File.toNode []

/-- The import phase of `TestifyRule.Check`: what the walk with
`importInspector` sends on `violationChan` before closing it. -/
def TestifyRule.importPhase (ctx : Context) : List Violation :=
  Inspect (TestifyRule.importInspector ctx) ctx.File.toNode []

/-- Go `TestifyRule.Check`.  The channel is unbuffered and is read only after
the usage walk has returned, so the violations received from it follow the
usage violations, in the order they were sent. -/
def TestifyRule.Check (ctx : Context) : List Violation :=
  if !HasSuffix ctx.Filename "_test.go" then []
  else TestifyRule.usagePhase ctx ++ TestifyRule.importPhase ctx

/-- The rule value `TestifyRule{}` behind the `Rule` interface. -/
def TestifyRule : Rule := ⟨TestifyRule.Name, TestifyRule.Description, TestifyRule.Check⟩

/-! ## `rules/sql_context_rule.go` -/

/-- Go `SqlContextRule.Name`. -/
def SqlContextRule.Name : String := "sql-context-required"

/-- Go `SqlContextRule.Description`. -/
def SqlContextRule.Description : String :=
  "Detects calls to database/sql methods that should use context-aware versions"

/-- Go map `dbMethodsWithContextOverload`. -/
def dbMethodsWithContextOverload : List (String × String) :=
  [("Exec", "ExecContext"), ("Query", "QueryContext"), ("QueryRow", "QueryRowContext"),
   ("Prepare", "PrepareContext"), ("Begin", "BeginTx"), ("Ping", "PingContext")]

/-- Go map `txMethodsWithContextOverload`. -/
def txMethodsWithContextOverload : List (String × String) :=
  [("Exec", "ExecContext"), ("Query", "QueryContext"), ("QueryRow", "QueryRowContext"),
   ("Prepare", "PrepareContext")]

/-- Go `getReceiverName`. -/
def getReceiverName : Node → String
  | .Ident x => x.Name
  | .SelectorExpr _ Sel => Sel.Name
  | .CallExpr (.Ident funcIdent) _ => funcIdent.Name ++ "()"
  | .CallExpr (.SelectorExpr _ Sel) _ => Sel.Name ++ "()"
  | _ => "receiver"

/-- Go `typeIsDbOrTx`. -/
def typeIsDbOrTx : GoType → Bool
  | .Pointer (.Named (some obj)) =>
    match obj.Pkg with
    | none => false
    | some path => if path != "database/sql" then false else obj.Name == "DB" || obj.Name == "Tx"
  | _ => false

/-- The closure `SqlContextRule.Check` hands to `ast.Inspect`. -/
def SqlContextRule.inspector (ctx : Context) : Option Node → List Violation → List Violation × Bool
  | none, violations => (violations, false)
  | some (.CallExpr (.SelectorExpr X Sel) Args), violations =>
    let methodName := Sel.Name
    let found :=
      match dbMethodsWithContextOverload.lookup methodName with
      | some contextMethod => some contextMethod
      | none => txMethodsWithContextOverload.lookup methodName
    match found with
    | none => (violations, true)
    | some contextMethod =>
      match ctx.TypeInfo with
      | none => (violations, true)
      | some info =>
        match info.TypeOf X with
        | none => (violations, true)
        | some exprType =>
          if !typeIsDbOrTx exprType then (violations, true)
          else
            let pos := ctx.FileSet (Node.Pos (.CallExpr (.SelectorExpr X Sel) Args))
            let typeName := exprType.String
            (violations ++ [{
              File := ctx.Filename,
              Line := pos.Line,
              Column := pos.Column,
              Rule := SqlContextRule.Name,
              Message := "Use " ++ contextMethod ++ " instead of " ++ methodName ++
                " (called on " ++ getReceiverName X ++ " of type " ++ typeName ++ ")" }], true)
  | some _, violations => (violations, true)

/-- Go `SqlContextRule.Check`. -/
def SqlContextRule.Check (ctx : Context) : List Violation :=
  Inspect (SqlContextRule.inspector ctx) ctx.File.toNode []

/-- The rule value `SqlContextRule{}` behind the `Rule` interface. -/
def SqlContextRule : Rule :=
  ⟨SqlContextRule.Name, SqlContextRule.Description, SqlContextRule.Check⟩

/-! ## `main.go`: the registry of one run -/

/-- The registry `main` builds before any filtering: the three `Register`
calls, in order. -/
def mainRegistry : Registry :=
  ((NewRegistry.Register TestifyRule).Register SqlContextRule).Register GokitRule

/-! ## Reading a tree: traversal order and the nodes the rules look for -/

mutual
/-- The nodes of a tree in the order `ast.Inspect` visits them. -/
def preorder : Node → List Node
  | .Ident i => [.Ident i]
  | .BasicLit lit => [.BasicLit lit]
  | .ImportSpec spec =>
    .ImportSpec spec ::
      ((match spec.Name with
        | some n => [Node.Ident n]
        | none => []) ++
       (match spec.Path with
        | some p => [Node.BasicLit p]
        | none => []))
  | .SelectorExpr X Sel => .SelectorExpr X Sel :: (preorder X ++ [.Ident Sel])
  | .CallExpr Fun Args => .CallExpr Fun Args :: (preorder Fun ++ preorderList Args)
  | .Other pos children => .Other pos children :: preorderList children
/-- The nodes of a list of trees, in visiting order. -/
def preorderList : List Node → List Node
  | [] => []
  | n :: ns => preorder n ++ preorderList ns
end

/-- The import spec a node is, if it is one. -/
def asImportSpec? : Node → Option ImportSpec
  | .ImportSpec spec => some spec
  | _ => none

/-- The import declarations of a tree, in source order. -/
def importSpecsOf (n : Node) : List ImportSpec :=
  (preorder n).filterMap asImportSpec?

/-- The member accesses `x.Sel` of a tree whose left side is an identifier, in
source order. -/
def asMemberAccess? : Node → Option (Ident × Ident)
  | .SelectorExpr (.Ident x) Sel => some (x, Sel)
  | _ => none

/-- The member accesses on identifiers of a tree, in source order. -/
def memberAccessesOf (n : Node) : List (Ident × Ident) :=
  (preorder n).filterMap asMemberAccess?

/-- A path written as a double-quoted literal. -/
def doubleQuoted (P : String) : String :=
  "\"" ++ P ++ "\""

/-- The path `P` of an import spec written as the double-quoted literal of `P`,
where `P` holds no double quote; `none` for every other spelling. -/
def ImportSpec.quotedPath? (s : ImportSpec) : Option String :=
  match s.Path with
  | none => none
  | some lit =>
    match lit.Value.data with
    | [] => none
    | c :: rest =>
      match rest.reverse with
      | [] => none
      | d :: revP =>
        if c = '"' ∧ d = '"' ∧ '"' ∉ revP then some ⟨revP.reverse⟩ else none

/-- What `GokitRule.Check` reports for one import spec. -/
def gokitViolation? (ctx : Context) (s : ImportSpec) : Option Violation :=
  match s.Path with
  | none => none
  | some lit =>
    if HasPrefix (Trim lit.Value "\"") "github.com/go-kit/kit" then
      some ⟨ctx.Filename, (ctx.FileSet s.Pos).Line, (ctx.FileSet s.Pos).Column, "gokit-usage",
        "File imports go-kit package: " ++ Trim lit.Value "\""⟩
    else none

/-- What the import phase of `TestifyRule.Check` reports for one import spec. -/
def testifyImportViolation? (ctx : Context) (s : ImportSpec) : Option Violation :=
  match s.Path with
  | none => none
  | some lit =>
    if HasPrefix (Trim lit.Value "\"") "github.com/stretchr/testify" then
      some ⟨ctx.Filename, (ctx.FileSet s.Pos).Line, (ctx.FileSet s.Pos).Column, "testify-usage",
        "Test file imports testify package: " ++ Trim lit.Value "\""⟩
    else none

/-- Whether an import spec is written as a double-quoted path under
"github.com/go-kit/kit/". -/
def ImportSpec.underGokit (s : ImportSpec) : Bool :=
  match s.quotedPath? with
  | some P => HasPrefix P "github.com/go-kit/kit/"
  | none => false

/-- The text of the import path as the rules read it: the literal without its
surrounding double quotes. -/
def ImportSpec.pathText (s : ImportSpec) : String :=
  match s.Path with
  | some lit => Trim lit.Value "\""
  | none => ""

/-- Whether the path text of an import spec starts with `F`. -/
def ImportSpec.pathStartsWith (s : ImportSpec) (F : String) : Bool :=
  match s.Path with
  | some lit => HasPrefix (Trim lit.Value "\"") F
  | none => false

/-- Whether `selectorInspector` takes the import `imp` as binding the
identifier `name` to testify: the path text starts with
"github.com/stretchr/testify" and the local name, or without one the last
segment of the path, is `name`. -/
def testifyBinds (imp : ImportSpec) (name : String) : Bool :=
  match imp.Path with
  | none => false
  | some lit =>
    HasPrefix (Trim lit.Value "\"") "github.com/stretchr/testify" &&
      ((match imp.Name with
        | some n => n.Name
        | none =>
          match (Split (Trim lit.Value "\"") "/").getLast? with
          | some last => last
          | none => "") == name)

/-- What the usage phase of `TestifyRule.Check` reports for the member access
`x.Sel`: for a recognized `x`, one copy of the violation per import of the
file that binds `x`. -/
def testifyUsageViolations (ctx : Context) (x Sel : Ident) : List Violation :=
  if testifyPkgs x.Name then
    List.replicate (ctx.File.Imports.countP fun imp => testifyBinds imp x.Name)
      ⟨ctx.Filename, (ctx.FileSet x.NamePos).Line, (ctx.FileSet x.NamePos).Column,
        "testify-usage", "Test code calls testify method: " ++ x.Name ++ "." ++ Sel.Name⟩
  else []

/-! ## Example files

Positions are written `100 * line + column`. -/

/-- The position index of the example files. -/
def linesAndColumns (pos : Nat) : Position :=
  ⟨pos / 100, pos % 100⟩

/-- An import spec without a local name, its path written in double quotes. -/
def quotedImport (pos : Nat) (P : String) : ImportSpec :=
  ⟨none, some ⟨pos, doubleQuoted P⟩⟩

/-- An import spec with a local name, its path written in double quotes. -/
def namedImport (pos : Nat) (name : String) (P : String) : ImportSpec :=
  ⟨some ⟨pos, name⟩, some ⟨pos + name.length + 1, doubleQuoted P⟩⟩

/-- An import declaration (a `GenDecl`) holding the given specs. -/
def importDecl (pos : Nat) (specs : List ImportSpec) : Node :=
  .Other pos (specs.map Node.ImportSpec)

/-- A file as the parser builds it: `Imports` lists the import specs of the
declarations in source order. -/
def parsedFile (pkgPos : Nat) (name : Ident) (decls : List Node) : File :=
  ⟨pkgPos, name, decls, importSpecsOf (.Other pkgPos (.Ident name :: decls))⟩

/-- The file `package service; import "github.com/go-kit/kit-fake"` as
`service.go`. -/
def kitFakeCtx : Context :=
  ⟨linesAndColumns,
   parsedFile 101 ⟨109, "service"⟩ [importDecl 301 [quotedImport 308 "github.com/go-kit/kit-fake"]],
   "service.go", none⟩

/-- The file of `TestGokitRule_WorksInTestFiles`, as `service_test.go`. -/
def gokitInTestFileCtx : Context :=
  ⟨linesAndColumns,
   parsedFile 101 ⟨109, "service"⟩
     [importDecl 301 [quotedImport 402 "testing", quotedImport 502 "github.com/go-kit/kit/log"],
      .Other 801 [.Ident ⟨806, "TestService"⟩,
        .Other 817 [.Ident ⟨818, "t"⟩, .Other 820 [.SelectorExpr (.Ident ⟨821, "testing"⟩) ⟨829, "T"⟩]],
        .Other 832 []]],
   "service_test.go", none⟩

/-- The file of `TestGokitRule_IgnoresSimilarPackageNames`, as `service.go`. -/
def similarNamesCtx : Context :=
  ⟨linesAndColumns,
   parsedFile 101 ⟨109, "service"⟩
     [importDecl 301 [quotedImport 402 "github.com/some-other/kit",
        quotedImport 502 "github.com/go-kit-fake/endpoint"],
      .Other 801 [.Ident ⟨806, "Service"⟩, .Other 814 []]],
   "service.go", none⟩

/-- The declaration `func name(t *testing.T) { body }` starting on `line`. -/
def testFunc (line : Nat) (name : String) (body : List Node) : Node :=
  let c := 100 * line + name.length
  .Other (100 * line + 1)
    [.Ident ⟨100 * line + 6, name⟩,
     .Other (c + 6) [.Other (c + 6) [.Other (c + 7) [.Ident ⟨c + 7, "t"⟩,
       .Other (c + 9) [.SelectorExpr (.Ident ⟨c + 10, "testing"⟩) ⟨c + 18, "T"⟩]]]],
     .Other (c + 21) body]

/-- The statement `x.sel(args)` at `pos`. -/
def callStmt (pos : Nat) (x sel : String) (args : List Node) : Node :=
  .Other pos [.CallExpr (.SelectorExpr (.Ident ⟨pos, x⟩) ⟨pos + x.length + 1, sel⟩) args]

/-- The arguments `t, 1, 1` of a call whose opening parenthesis is at `pos`. -/
def argsT11 (pos : Nat) : List Node :=
  [.Ident ⟨pos + 1, "t"⟩, .BasicLit ⟨pos + 4, "1"⟩, .BasicLit ⟨pos + 7, "1"⟩]

/-- The file of `TestTestifyRule_IgnoresNonTestFiles`, as `regular.go`. -/
def nonTestCtx : Context :=
  ⟨linesAndColumns,
   parsedFile 101 ⟨109, "main"⟩
     [importDecl 301 [quotedImport 402 "github.com/stretchr/testify/assert"],
      .Other 701 [.Ident ⟨706, "Something"⟩, .Other 715 [.Other 715 []], .Other 718 []]],
   "regular.go", none⟩

/-- A test file that binds `assert` twice, as `dup_test.go`:
`import ("testing"; "github.com/stretchr/testify/assert";
assert "github.com/stretchr/testify/require")` and the one statement
`assert.Equal(t, 1, 1)` in `TestSomething`. -/
def doubleBindingCtx : Context :=
  ⟨linesAndColumns,
   parsedFile 101 ⟨109, "main"⟩
     [importDecl 301 [quotedImport 402 "testing",
        quotedImport 502 "github.com/stretchr/testify/assert",
        namedImport 602 "assert" "github.com/stretchr/testify/require"],
      testFunc 9 "TestSomething" [callStmt 1002 "assert" "Equal" (argsT11 1014)]],
   "dup_test.go", none⟩

/-- A test file importing a module that only shares the textual prefix, as
`fake_test.go`: `import ("testing"; "github.com/stretchr/testify-fake/assert")`
and the one statement `assert.Equal(t, 1, 1)` in `TestSomething`. -/
def testifyFakeCtx : Context :=
  ⟨linesAndColumns,
   parsedFile 101 ⟨109, "main"⟩
     [importDecl 301 [quotedImport 402 "testing",
        quotedImport 502 "github.com/stretchr/testify-fake/assert"],
      testFunc 8 "TestSomething" [callStmt 902 "assert" "Equal" (argsT11 914)]],
   "fake_test.go", none⟩

/-- A test file without testify that calls a member of a local identifier
named `assert`, as `fake_assert_test.go`: `import ("testing")` and the one
statement `assert.Equal(t, 1, 1)` in `TestSomething`. -/
def localAssertCtx : Context :=
  ⟨linesAndColumns,
   parsedFile 101 ⟨109, "main"⟩
     [importDecl 301 [quotedImport 402 "testing"],
      testFunc 7 "TestSomething" [callStmt 802 "assert" "Equal" (argsT11 814)]],
   "fake_assert_test.go", none⟩

/-- The file of `TestTestifyRule_DetectsAliasedImport`, as `alias_test.go`. -/
def aliasedCtx : Context :=
  ⟨linesAndColumns,
   parsedFile 101 ⟨109, "main"⟩
     [importDecl 301 [quotedImport 402 "testing",
        namedImport 502 "a" "github.com/stretchr/testify/assert"],
      testFunc 8 "TestSomething" [callStmt 902 "a" "Equal" (argsT11 909)]],
   "alias_test.go", none⟩

/-- A test file with an access on an alias next to one on a recognized name,
as `mixed_test.go`: `import ("testing"; a "github.com/stretchr/testify/assert";
"github.com/stretchr/testify/require")` and the two statements
`a.Equal(t, 1, 1)` and `require.Equal(t, 1, 1)` in `TestSomething`. -/
def mixedCtx : Context :=
  ⟨linesAndColumns,
   parsedFile 101 ⟨109, "main"⟩
     [importDecl 301 [quotedImport 402 "testing",
        namedImport 502 "a" "github.com/stretchr/testify/assert",
        quotedImport 602 "github.com/stretchr/testify/require"],
      testFunc 9 "TestSomething"
        [callStmt 1002 "a" "Equal" (argsT11 1009),
         callStmt 1102 "require" "Equal" (argsT11 1115)]],
   "mixed_test.go", none⟩

/-! ## Reading a tree for the SQL rule -/

/-- The method call `X.Sel(Args)` a node is, if it is one: receiver, method
selector and arguments. -/
def asSqlCall? : Node → Option (Node × Ident × List Node)
  | .CallExpr (.SelectorExpr X Sel) Args => some (X, Sel, Args)
  | _ => none

/-- The method calls of a tree, in source order. -/
def sqlCallsOf (n : Node) : List (Node × Ident × List Node) :=
  (preorder n).filterMap asSqlCall?

/-- The two table lookups of `SqlContextRule.Check`: the connection-handle
table first, the transaction-handle table when the first has no entry. -/
def contextOverload (methodName : String) : Option String :=
  match dbMethodsWithContextOverload.lookup methodName with
  | some contextMethod => some contextMethod
  | none => txMethodsWithContextOverload.lookup methodName

/-- What `SqlContextRule.Check` reports for one method call. -/
def sqlViolation? (ctx : Context) (call : Node × Ident × List Node) : Option Violation :=
  match contextOverload call.2.1.Name, ctx.TypeInfo with
  | some contextMethod, some info =>
    match info.TypeOf call.1 with
    | some exprType =>
      if typeIsDbOrTx exprType then
        some ⟨ctx.Filename,
          (ctx.FileSet (Node.Pos (.CallExpr (.SelectorExpr call.1 call.2.1) call.2.2))).Line,
          (ctx.FileSet (Node.Pos (.CallExpr (.SelectorExpr call.1 call.2.1) call.2.2))).Column,
          "sql-context-required",
          "Use " ++ contextMethod ++ " instead of " ++ call.2.1.Name ++
            " (called on " ++ getReceiverName call.1 ++ " of type " ++ exprType.String ++ ")"⟩
      else none
    | none => none
  | _, _ => none

/-- The type `*sql.DB`. -/
def sqlDB : GoType := .Pointer (.Named (some ⟨some "database/sql", "DB"⟩))

/-- The type `*sql.Tx`. -/
def sqlTx : GoType := .Pointer (.Named (some ⟨some "database/sql", "Tx"⟩))

/-! ## Example files for the SQL rule -/

/-- The declaration `import "database/sql"` on line 3. -/
def sqlImportDecl : Node := importDecl 301 [quotedImport 308 "database/sql"]

/-- The parameter `name *sql.T` at `pos` (a `Field` holding the name and the
pointer type). -/
def sqlParam (pos : Nat) (name T : String) : Node :=
  .Other pos [.Ident ⟨pos, name⟩,
    .Other (pos + name.length + 1)
      [.SelectorExpr (.Ident ⟨pos + name.length + 2, "sql"⟩) ⟨pos + name.length + 6, T⟩]]

/-- The declaration `func name(params) { body }` starting on `line`, the body
opening at `bodyPos`. -/
def funcDecl (line : Nat) (name : String) (params : List Node) (bodyPos : Nat)
    (body : List Node) : Node :=
  .Other (100 * line + 1)
    [.Ident ⟨100 * line + 6, name⟩,
     .Other (100 * line + 1) [.Other (100 * line + 6 + name.length) params],
     .Other bodyPos body]

/-- The file of `TestSqlContextRule_TypeCheckingWorks`, as `test.go`: the field
`connection *sql.DB` of `Repository` and the one statement
`_, err := r.connection.Query("SELECT 1")`, with the type table resolving
`r.connection` to `*sql.DB`. -/
def typeCheckingCtx : Context :=
  ⟨linesAndColumns,
   parsedFile 101 ⟨109, "main"⟩
     [sqlImportDecl,
      .Other 501 [.Other 506 [.Ident ⟨506, "Repository"⟩,
        .Other 517 [.Other 524 [sqlParam 602 "connection" "DB"]]]],
      .Other 901
        [.Other 906 [.Other 907 [.Ident ⟨907, "r"⟩, .Other 909 [.Ident ⟨910, "Repository"⟩]]],
         .Ident ⟨922, "Query"⟩,
         .Other 901 [.Other 927 [], .Other 930 [.Other 930 [.Ident ⟨930, "error"⟩]]],
         .Other 936
           [.Other 1102 [.Ident ⟨1102, "_"⟩, .Ident ⟨1105, "err"⟩,
              .CallExpr
                (.SelectorExpr (.SelectorExpr (.Ident ⟨1112, "r"⟩) ⟨1114, "connection"⟩)
                  ⟨1125, "Query"⟩)
                [.BasicLit ⟨1131, "\"SELECT 1\""⟩]],
            .Other 1202 [.Ident ⟨1209, "err"⟩]]]],
   "test.go",
   some ⟨fun e =>
     match e with
     | .SelectorExpr (.Ident ⟨_, "r"⟩) ⟨_, "connection"⟩ => some sqlDB
     | .Ident ⟨_, "r"⟩ => some (.Pointer (.Named (some ⟨some "main", "Repository"⟩)))
     | _ => none⟩⟩

/-- The file of `TestSqlContextRule_IgnoresContextMethods`, as `test.go`: five
calls of context-aware methods on `db *sql.DB`. -/
def contextMethodsCtx : Context :=
  ⟨linesAndColumns,
   parsedFile 101 ⟨109, "main"⟩
     [importDecl 301 [quotedImport 402 "context", quotedImport 502 "database/sql"],
      funcDecl 8 "example"
        [.Other 814 [.Ident ⟨814, "ctx"⟩,
           .SelectorExpr (.Ident ⟨818, "context"⟩) ⟨826, "Context"⟩],
         sqlParam 835 "db" "DB"] 846
        [callStmt 902 "db" "ExecContext"
           [.Ident ⟨917, "ctx"⟩, .BasicLit ⟨922, "\"SELECT 1\""⟩],
         callStmt 1002 "db" "QueryContext"
           [.Ident ⟨1018, "ctx"⟩, .BasicLit ⟨1023, "\"SELECT * FROM users\""⟩],
         callStmt 1102 "db" "QueryRowContext"
           [.Ident ⟨1121, "ctx"⟩, .BasicLit ⟨1126, "\"SELECT name FROM users\""⟩],
         callStmt 1202 "db" "PrepareContext"
           [.Ident ⟨1220, "ctx"⟩, .BasicLit ⟨1225, "\"SELECT * FROM users WHERE id = ?\""⟩],
         callStmt 1302 "db" "PingContext" [.Ident ⟨1317, "ctx"⟩]]],
   "test.go",
   some ⟨fun e =>
     match e with
     | .Ident ⟨_, "db"⟩ => some sqlDB
     | _ => none⟩⟩

/-- The tree of `TestSqlContextRule_DetectsBegin`: `tx, err := db.Begin()`,
the `if err != nil { return }` and `tx.Commit()` in `example(db *sql.DB)`. -/
def beginFile : File :=
  parsedFile 101 ⟨109, "main"⟩
    [sqlImportDecl,
     funcDecl 5 "example" [sqlParam 514 "db" "DB"] 526
       [.Other 602 [.Ident ⟨602, "tx"⟩, .Ident ⟨606, "err"⟩,
          .CallExpr (.SelectorExpr (.Ident ⟨613, "db"⟩) ⟨616, "Begin"⟩) []],
        .Other 702 [.Other 705 [.Ident ⟨705, "err"⟩, .Ident ⟨712, "nil"⟩],
          .Other 716 [.Other 803 []]],
        callStmt 1002 "tx" "Commit" []]]

/-- The file of `TestSqlContextRule_DetectsBegin`, as `test.go`, with the type
table resolving `db` to `*sql.DB` and `tx` to `*sql.Tx`. -/
def beginCtx : Context :=
  ⟨linesAndColumns, beginFile, "test.go",
   some ⟨fun e =>
     match e with
     | .Ident ⟨_, "db"⟩ => some sqlDB
     | .Ident ⟨_, "tx"⟩ => some sqlTx
     | _ => none⟩⟩

/-- The same file with no type table at all. -/
def beginNoTypesCtx : Context :=
  ⟨linesAndColumns, beginFile, "test.go", none⟩

/-- The file `examples/not_sql.go`, as `not_sql.go`: `db := &MyExecutor{...}`
and `db.Exec("some command")`, with the type table resolving `db` to
`*MyExecutor`. -/
def notSqlCtx : Context :=
  ⟨linesAndColumns,
   parsedFile 101 ⟨109, "examples"⟩
     [.Other 501 [.Other 506 [.Ident ⟨506, "MyExecutor"⟩,
        .Other 517 [.Other 524 [.Other 602 [.Ident ⟨602, "name"⟩, .Ident ⟨607, "string"⟩]]]]],
      funcDecl 14 "UseCustomExecutor" [] 1426
        [.Other 1502 [.Ident ⟨1502, "db"⟩,
           .Other 1508 [.Other 1509 [.Ident ⟨1509, "MyExecutor"⟩,
             .Other 1520 [.Ident ⟨1520, "name"⟩, .BasicLit ⟨1526, "\"custom\""⟩]]]],
         callStmt 1902 "db" "Exec" [.BasicLit ⟨1910, "\"some command\""⟩]]],
   "not_sql.go",
   some ⟨fun e =>
     match e with
     | .Ident ⟨_, "db"⟩ => some (.Pointer (.Named (some ⟨some "examples", "MyExecutor"⟩)))
     | _ => none⟩⟩

/-- The file of `TestTestifyRule_DetectsImports`, as `test_test.go`: testify's
`assert` under its default name and the one statement `assert.Equal(t, 1, 1)`. -/
def detectsImportsCtx : Context :=
  ⟨linesAndColumns,
   parsedFile 101 ⟨109, "main"⟩
     [importDecl 301 [quotedImport 402 "testing",
        quotedImport 502 "github.com/stretchr/testify/assert"],
      testFunc 8 "TestSomething" [callStmt 902 "assert" "Equal" (argsT11 914)]],
   "test_test.go", none⟩

/-! ## `analyzer/analyzer.go`

The analyzer reaches the outside world through four library calls: `os.Stat`
and `filepath.Walk` (the file tree), `parser.ParseFile`, the type checker
`types.Config.Check`, and `packages.Load`.  They are the fields of `Frontend`;
the analyzer's own functions are written over them. -/

deriving instance DecidableEq for Except

/-- The result of a Go call that returns `(value, error)` and may panic. -/
inductive Outcome (α : Type) where
  | ok (value : α)
  | err (msg : String)
  | panic (msg : String)
deriving DecidableEq, Repr

/-- A Go `(value, error)` result as an `Outcome`. -/
def Outcome.ofExcept {α : Type} : Except String α → Outcome α
  | .ok value => .ok value
  | .error msg => .err msg

/-- Go `os.FileInfo`, the part the walk callback reads. -/
structure FileInfo where
  Name : String
  IsDir : Bool
deriving DecidableEq, Repr

/-- A file tree as `os.Stat` and `filepath.Walk` see it: a file, a directory
with its entries in the lexical order of `Walk`, or an entry whose `Lstat`
fails with `err`. -/
inductive FsNode where
  | file (name : String)
  | dir (name : String) (entries : List FsNode)
  | unreadable (name : String) (err : String)
deriving Repr

/-- The base name of an entry, `info.Name()`. -/
def FsNode.Name : FsNode → String
  | .file name => name
  | .dir name _ => name
  | .unreadable name _ => name

/-- Go `info.IsDir()`. -/
def FsNode.IsDir : FsNode → Bool
  | .dir _ _ => true
  | _ => false

/-- The `error` a `filepath.WalkFunc` returns: nil, `filepath.SkipDir`, or any
other error. -/
inductive WalkErr where
  | none
  | SkipDir
  | error (msg : String)
deriving DecidableEq, Repr

/-- Go `*packages.Package`, the fields `analyzeDirectory` reads. -/
structure Package where
  Errors : List String
  GoFiles : List String
  Syntax : List File
  Fset : Nat → Position
  TypesInfo : Option Info

/-- The library calls of the analyzer.  `Stat` is the file tree at a path (or
the error of `os.Stat`/`Lstat`); `Join` is `filepath.Join`; `ParseFile` is
`parser.ParseFile` with a fresh file set, giving the position index and the
tree, or the parse error; `TypeCheck` is `types.Config.Check` on one file,
giving the table it fills and the errors it hands to `conf.Error`; `Load` is
`packages.Load(cfg, "./...")` for a directory. -/
structure Frontend where
  Stat : String → Except String FsNode
  Join : String → String → String
  ParseFile : String → Except String ((Nat → Position) × File)
  TypeCheck : (Nat → Position) → File → Info × List String
  Load : String → Except String (List Package)

mutual
/-- Go `filepath.walk`: call `fn` on the entry, then walk the entries of a
directory unless `fn` returned an error (`SkipDir` included). -/
def walk {σ : Type} (join : String → String → String)
    (fn : String → FileInfo → Option String → σ → σ × WalkErr) (path : String) :
    FsNode → σ → σ × WalkErr
  | .file name, s => fn path ⟨name, false⟩ none s
  | .unreadable name e, s => fn path ⟨name, false⟩ (some e) s
  | .dir name entries, s =>
    let r := fn path ⟨name, true⟩ none s
    match r.2 with
    | .none => walkEntries join fn path entries r.1
    | e => (r.1, e)
/-- The loop of `filepath.walk` over the names of a directory: an entry whose
`Lstat` fails is handed to `fn` with the error; `SkipDir` from a directory is
swallowed, every other error ends the walk. -/
def walkEntries {σ : Type} (join : String → String → String)
    (fn : String → FileInfo → Option String → σ → σ × WalkErr) (path : String) :
    List FsNode → σ → σ × WalkErr
  | [], s => (s, .none)
  | .unreadable name e :: rest, s =>
    let r := fn (join path name) ⟨name, false⟩ (some e) s
    match r.2 with
    | .error msg => (r.1, .error msg)
    | _ => walkEntries join fn path rest r.1
  | .file name :: rest, s =>
    let r := walk join fn (join path name) (.file name) s
    match r.2 with
    | .none => walkEntries join fn path rest r.1
    | e => (r.1, e)
  | .dir name entries :: rest, s =>
    let r := walk join fn (join path name) (.dir name entries) s
    match r.2 with
    | .error msg => (r.1, .error msg)
    | _ => walkEntries join fn path rest r.1
end

/-- Go `filepath.Walk(root, fn)`: `SkipDir` from the root is not an error.
When `Lstat` of the root fails, `fn` gets the error (and no usable info). -/
def Walk {σ : Type} (fe : Frontend)
    (fn : String → FileInfo → Option String → σ → σ × WalkErr) (root : String) (s : σ) :
    σ × Option String :=
  let r :=
    match fe.Stat root with
    | .error e => fn root ⟨root, false⟩ (some e) s
    | .ok node => walk fe.Join fn root node s
  match r.2 with
  | .error msg => (r.1, some msg)
  | _ => (r.1, none)

/-- Go `(*Analyzer).computeTypeInfo`: the table the checker fills; the errors
it reports are dropped. -/
def computeTypeInfo (fe : Frontend) (fset : Nat → Position) (file : File) : Info :=
  (fe.TypeCheck fset file).1

/-- Go `(*Analyzer).analyzeFile`, for the analyzer holding `registry`. -/
def analyzeFile (fe : Frontend) (registry : Registry) (filename : String) :
    Except String (List Violation) :=
  match fe.ParseFile filename with
  | .error err => .error ("failed to parse file: " ++ err)
  | .ok (fset, node) =>
    let typeInfo := computeTypeInfo fe fset node
    let ctx : Context := ⟨fset, node, filename, some typeInfo⟩
    .ok (registry.GetRules.foldl (fun violations rule => violations ++ rule.Check ctx) [])

/-- The callback `analyzeDirectoryFallback` hands to `filepath.Walk`; the
state is the captured slice `violations`. -/
def fallbackVisit (fe : Frontend) (registry : Registry) (path : String) (info : FileInfo)
    (err : Option String) (violations : List Violation) : List Violation × WalkErr :=
  match err with
  | some e => (violations, .error e)
  | none =>
    if info.IsDir then
      if info.Name == "vendor" || info.Name == ".git" || HasPrefix info.Name "." then
        (violations, .SkipDir)
      else (violations, .none)
    else if !HasSuffix path ".go" then (violations, .none)
    else
      match analyzeFile fe registry path with
      | .error e => (violations, .error ("failed to analyze " ++ path ++ ": " ++ e))
      | .ok fileViolations => (violations ++ fileViolations, .none)

/-- Go `(*Analyzer).analyzeDirectoryFallback`. -/
def analyzeDirectoryFallback (fe : Frontend) (registry : Registry) (dir : String) :
    Except String (List Violation) :=
  match Walk fe (fallbackVisit fe registry) dir [] with
  | (_, some err) => .error err
  | (violations, none) => .ok violations

/-- The checks `analyzeDirectory` spawns for the files `Syntax[i..]` of an
error-free package, in spawning order, each with the slice it sends;
`GoFiles[i]` out of range panics. -/
def fileTasks (registry : Registry) (pkg : Package) :
    Nat → List File → Outcome (List (Option (List Violation)))
  | _, [] => .ok []
  | i, file :: rest =>
    match pkg.GoFiles[i]? with
    | none => .panic "index out of range"
    | some filename =>
      let ctx : Context := ⟨pkg.Fset, file, filename, pkg.TypesInfo⟩
      match fileTasks registry pkg (i + 1) rest with
      | .ok tasks => .ok (registry.GetRules.map (fun rule => some (rule.Check ctx)) ++ tasks)
      | e => e

/-- The tasks `analyzeDirectory` spawns for one package, in spawning order:
`some vs` for a task that sends `vs`, `none` for one that sends nothing.  Each
closure sees the loop variables of its own iteration. -/
def packageTasks (fe : Frontend) (registry : Registry) (pkg : Package) :
    Outcome (List (Option (List Violation))) :=
  if pkg.Errors.length > 0 then
    .ok (pkg.GoFiles.map fun file =>
      match analyzeFile fe registry file with
      | .ok fileViolations => some fileViolations
      | .error _ => none)
  else fileTasks registry pkg 0 pkg.Syntax

/-- The tasks of all packages, in spawning order. -/
def allTasks (fe : Frontend) (registry : Registry) :
    List Package → Outcome (List (Option (List Violation)))
  | [] => .ok []
  | pkg :: rest =>
    match packageTasks fe registry pkg with
    | .ok tasks =>
      match allTasks fe registry rest with
      | .ok more => .ok (tasks ++ more)
      | e => e
    | e => e

/-- The order in which pending sends reach the channel under the schedule
`sched`: at each step the entry of `sched` picks one of the pending sends. -/
def deliveryOrder {α : Type} : Nat → List Nat → List α → List α
  | 0, _, _ => []
  | n + 1, sched, pending =>
    let i := sched.headD 0 % pending.length
    match pending[i]? with
    | some sent => sent :: deliveryOrder n sched.tail (pending.eraseIdx i)
    | none => []

/-- Go `(*Analyzer).analyzeDirectory`.  The spawned tasks send in an order the
scheduler decides, given here by `sched`; the loop over the channel appends the
slices in the order they arrive and ends when all tasks are done. -/
def analyzeDirectory (fe : Frontend) (registry : Registry) (dir : String) (sched : List Nat) :
    Outcome (List Violation) :=
  match fe.Load dir with
  | .error _ => Outcome.ofExcept (analyzeDirectoryFallback fe registry dir)
  | .ok pkgs =>
    if pkgs.length == 0 then Outcome.ofExcept (analyzeDirectoryFallback fe registry dir)
    else
      match allTasks fe registry pkgs with
      | .ok tasks =>
        let sends := tasks.filterMap fun task => task
        .ok (deliveryOrder sends.length sched sends).flatten
      | .err msg => .err msg
      | .panic msg => .panic msg

/-- Go `(*Analyzer).Analyze`. -/
def Analyze (fe : Frontend) (registry : Registry) (path : String) (sched : List Nat) :
    Outcome (List Violation) :=
  match fe.Stat path with
  | .error err => .err ("failed to stat path: " ++ err)
  | .ok info =>
    if info.IsDir then analyzeDirectory fe registry path sched
    else Outcome.ofExcept (analyzeFile fe registry path)

/-! ## Example directory

`proj` holds `broken.go`, which does not parse, and `good.go`, which is
`package service; import "github.com/go-kit/kit/log"`. -/

/-- The tree of `proj/good.go`. -/
def goodKitFile : File :=
  parsedFile 101 ⟨109, "service"⟩ [importDecl 301 [quotedImport 308 "github.com/go-kit/kit/log"]]

/-- The front end over `proj`, with `load` as the answer of `packages.Load`. -/
def scenarioD (load : Except String (List Package)) : Frontend :=
  { Stat := fun path =>
      if path == "proj" then .ok (.dir "proj" [.file "broken.go", .file "good.go"])
      else if path == "proj/good.go" then .ok (.file "good.go")
      else if path == "proj/broken.go" then .ok (.file "broken.go")
      else .error "no such file or directory",
    Join := fun path name => path ++ "/" ++ name,
    ParseFile := fun filename =>
      if filename == "proj/good.go" then .ok (linesAndColumns, goodKitFile)
      else .error "1:1: expected 'package', found 'EOF'",
    TypeCheck := fun _ _ => (⟨fun _ => none⟩, ["could not import github.com/go-kit/kit/log"]),
    Load := fun _ => load }

/-- The package `packages.Load` reports for `proj` when the load works: the
parse error of `broken.go` is among its `Errors`. -/
def brokenPackage : Package :=
  ⟨["proj/broken.go:1:1: expected 'package', found 'EOF'"],
   ["proj/broken.go", "proj/good.go"], [goodKitFile], linesAndColumns, none⟩

/-- The front end over a directory `clean` that holds only `good.go`, with
`load` as the answer of `packages.Load`. -/
def cleanDir (load : Except String (List Package)) : Frontend :=
  { Stat := fun path =>
      if path == "clean" then .ok (.dir "clean" [.file "good.go"])
      else .error "no such file or directory",
    Join := fun path name => path ++ "/" ++ name,
    ParseFile := fun filename =>
      if filename == "clean/good.go" then .ok (linesAndColumns, goodKitFile)
      else .error "open: no such file or directory",
    TypeCheck := fun _ _ => (⟨fun _ => none⟩, []),
    Load := fun _ => load }

/-! ## Further examples: registry, SQL rule, raw literals -/

/-- A rule named "dup" that reports nothing. -/
def dupFirst : Rule := ⟨"dup", "registered first", fun _ => []⟩

/-- A second rule under the same name "dup". -/
def dupSecond : Rule := ⟨"dup", "registered second", fun _ => []⟩

/-- The file of `TestSqlContextRule_DetectsTxMethods`, as `test.go`: `tx.Exec`,
`tx.Query` and `tx.Prepare` in `example(tx *sql.Tx)`, with the type table
resolving `tx` to `*sql.Tx`. -/
def txMethodsCtx : Context :=
  ⟨linesAndColumns,
   parsedFile 101 ⟨109, "main"⟩
     [sqlImportDecl,
      funcDecl 5 "example" [sqlParam 514 "tx" "Tx"] 526
        [callStmt 602 "tx" "Exec"
           [.BasicLit ⟨610, "\"INSERT INTO logs VALUES (?)\""⟩, .BasicLit ⟨641, "\"test\""⟩],
         callStmt 702 "tx" "Query" [.BasicLit ⟨711, "\"SELECT * FROM logs\""⟩],
         callStmt 802 "tx" "Prepare"
           [.BasicLit ⟨813, "\"SELECT * FROM users WHERE id = ?\""⟩]]],
   "test.go",
   some ⟨fun e =>
     match e with
     | .Ident ⟨_, "tx"⟩ => some sqlTx
     | _ => none⟩⟩

/-- A file calling `tx.Begin()` in `example(tx *sql.Tx)`, as `test.go`; the
type table resolves `tx` to `*sql.Tx` (the call itself does not type-check). -/
def txBeginCtx : Context :=
  ⟨linesAndColumns,
   parsedFile 101 ⟨109, "main"⟩
     [sqlImportDecl,
      funcDecl 5 "example" [sqlParam 514 "tx" "Tx"] 526 [callStmt 602 "tx" "Begin" []]],
   "test.go",
   some ⟨fun e =>
     match e with
     | .Ident ⟨_, "tx"⟩ => some sqlTx
     | _ => none⟩⟩

/-- The statement `_, err := s.repo.Connection.m(query)` on `line`. -/
def connectionCall (line : Nat) (m : String) : Node :=
  .Other (100 * line + 2) [.Ident ⟨100 * line + 2, "_"⟩, .Ident ⟨100 * line + 5, "err"⟩,
    .CallExpr
      (.SelectorExpr
        (.SelectorExpr (.SelectorExpr (.Ident ⟨100 * line + 12, "s"⟩) ⟨100 * line + 14, "repo"⟩)
          ⟨100 * line + 19, "Connection"⟩)
        ⟨100 * line + 30, m⟩)
      [.BasicLit ⟨100 * line + 31 + m.length, "\"...\""⟩]]

/-- The tree of `examples/multifile/service.go`: the struct `Service` and the
two methods calling `s.repo.Connection.Query` and `s.repo.Connection.Exec`. -/
def serviceFile : File :=
  parsedFile 101 ⟨109, "multifile"⟩
    [.Other 401 [.Other 406 [.Ident ⟨406, "Service"⟩,
       .Other 414 [.Other 421 [.Other 502 [.Ident ⟨502, "repo"⟩,
         .Other 507 [.Ident ⟨508, "Repository"⟩]]]]]],
     .Other 1001 [.Ident ⟨1019, "GetUser"⟩, .Other 1001 [],
       .Other 1041 [connectionCall 13 "Query", .Other 1402 [.Ident ⟨1409, "err"⟩]]],
     .Other 1801 [.Ident ⟨1819, "UpdateUser"⟩, .Other 1801 [],
       .Other 1857 [connectionCall 21 "Exec", .Other 2202 [.Ident ⟨2209, "err"⟩]]]]

/-- `service.go` with the table of the file checked alone: `Repository` is
declared in another file, so only `s` has a type. -/
def servicePerFileCtx : Context :=
  ⟨linesAndColumns, serviceFile, "service.go",
   some ⟨fun e =>
     match e with
     | .Ident ⟨_, "s"⟩ => some (.Pointer (.Named (some ⟨some "multifile", "Service"⟩)))
     | _ => none⟩⟩

/-- `service.go` with the table of the whole package: `s.repo.Connection`
resolves to `*sql.DB`. -/
def serviceProjectCtx : Context :=
  ⟨linesAndColumns, serviceFile, "service.go",
   some ⟨fun e =>
     match e with
     | .Ident ⟨_, "s"⟩ => some (.Pointer (.Named (some ⟨some "multifile", "Service"⟩)))
     | .SelectorExpr (.Ident ⟨_, "s"⟩) ⟨_, "repo"⟩ =>
       some (.Pointer (.Named (some ⟨some "multifile", "Repository"⟩)))
     | .SelectorExpr (.SelectorExpr (.Ident ⟨_, "s"⟩) ⟨_, "repo"⟩) ⟨_, "Connection"⟩ =>
       some sqlDB
     | _ => none⟩⟩

/-- A path written as a raw string literal, between back quotes. -/
def backQuoted (P : String) : String :=
  "`" ++ P ++ "`"

/-- An import spec without a local name, its path written as a raw string
literal. -/
def rawImport (pos : Nat) (P : String) : ImportSpec :=
  ⟨none, some ⟨pos, backQuoted P⟩⟩

/-- The file of `TestGokitRule_WorksInTestFiles` with the go-kit path written
as a raw string literal. -/
def rawGokitCtx : Context :=
  ⟨linesAndColumns,
   parsedFile 101 ⟨109, "service"⟩
     [importDecl 301 [quotedImport 402 "testing", rawImport 502 "github.com/go-kit/kit/log"],
      .Other 801 [.Ident ⟨806, "TestService"⟩,
        .Other 817 [.Ident ⟨818, "t"⟩, .Other 820 [.SelectorExpr (.Ident ⟨821, "testing"⟩) ⟨829, "T"⟩]],
        .Other 832 []]],
   "service_test.go", none⟩

/-- The file of `TestTestifyRule_DetectsImports` with the testify path written
as a raw string literal. -/
def rawTestifyCtx : Context :=
  ⟨linesAndColumns,
   parsedFile 101 ⟨109, "main"⟩
     [importDecl 301 [quotedImport 402 "testing",
        rawImport 502 "github.com/stretchr/testify/assert"],
      testFunc 8 "TestSomething" [callStmt 902 "assert" "Equal" (argsT11 914)]],
   "test_test.go", none⟩

/-- The front end over a directory `root` that holds only `good.go`, when
`packages.Load` fails; `Join` is `filepath.Join`, which drops a leading ".". -/
def rootNamed (root : String) : Frontend :=
  { Stat := fun path =>
      if path == root then .ok (.dir root [.file "good.go"])
      else .error "no such file or directory",
    Join := fun path name => if path == "." then name else path ++ "/" ++ name,
    ParseFile := fun filename =>
      if filename == (if root == "." then "good.go" else root ++ "/good.go") then
        .ok (linesAndColumns, goodKitFile)
      else .error "open: no such file or directory",
    TypeCheck := fun _ _ => (⟨fun _ => none⟩, []),
    Load := fun _ => .error "no go.mod" }

/-- An error-free package with one name in `GoFiles` and two trees in
`Syntax`, as `packages.Load` gives for a cgo package: `Syntax` follows
`CompiledGoFiles`, which holds the generated files too. -/
def cgoPackage : Package :=
  ⟨[], ["p/b.go"], [goodKitFile, goodKitFile], linesAndColumns, none⟩

/-! ## The two goroutines of `TestifyRule.Check`

`TestifyRule.Check` starts a goroutine that walks the tree with
`importInspector`, sending each violation on the unbuffered `violationChan`
and closing it at the end, while the calling goroutine walks the tree with
`selectorInspector` and then receives until the channel is closed.  `Merge` is
the state of the two, `Merge.step` one step of either. -/

/-- What the selector walk appends at one node. -/
def usageAt (ctx : Context) (n : Node) : List Violation :=
  match asMemberAccess? n with
  | some a => testifyUsageViolations ctx a.1 a.2
  | none => []

/-- What the import walk sends at one node. -/
def importAt (ctx : Context) (n : Node) : List Violation :=
  ((asImportSpec? n).bind (testifyImportViolation? ctx)).toList

/-- The plain sequential two-pass merge of the specification: all usage-phase
violations in tree-traversal order, followed by all import-phase violations in
tree-traversal order. -/
def twoPassMerge (ctx : Context) : List Violation :=
  (preorder ctx.File.toNode).flatMap (usageAt ctx) ++
    (preorder ctx.File.toNode).flatMap (importAt ctx)

/-- The state of the two goroutines: the nodes each walk has still to visit,
the slice `violations` of the caller, whether the channel is closed, and
whether `Check` has returned. -/
structure Merge where
  mainTodo : List Node
  violations : List Violation
  importTodo : List Node
  closed : Bool
  returned : Bool

/-- The steps of the two goroutines. -/
inductive MergeAction where
  | mainVisit
  | importVisit
  | close
  | finish
deriving DecidableEq, Repr

/-- The state when the goroutine has just been started. -/
def Merge.init (ctx : Context) : Merge :=
  ⟨preorder ctx.File.toNode, [], preorder ctx.File.toNode, false, false⟩

/-- One step.  `mainVisit`: the caller's walk visits its next node.
`importVisit`: the goroutine's walk visits its next node; when the node makes
it send, the step needs the caller to be receiving, that is past its own walk
and not returned, and hands the violation over.  `close`: the goroutine, its
walk done, closes the channel.  `finish`: the caller, past its walk, finds the
channel closed and returns.  A step that cannot be taken gives `none`. -/
def Merge.step (ctx : Context) : MergeAction → Merge → Option Merge
  | .mainVisit, s =>
    match s.mainTodo with
    | [] => none
    | n :: rest =>
      some { s with
        mainTodo := rest,
        violations := (TestifyRule.selectorInspector ctx (some n) s.violations).1 }
  | .importVisit, s =>
    match s.importTodo with
    | [] => none
    | n :: rest =>
      match (TestifyRule.importInspector ctx (some n) []).1 with
      | [] => some { s with importTodo := rest }
      | v :: sent =>
        if s.mainTodo.isEmpty && !s.returned then
          some { s with importTodo := rest, violations := s.violations ++ v :: sent }
        else none
  | .close, s =>
    if s.importTodo.isEmpty && !s.closed then some { s with closed := true } else none
  | .finish, s =>
    if s.mainTodo.isEmpty && s.closed && !s.returned then some { s with returned := true }
    else none

/-- A run: the steps of an interleaving, one after the other. -/
def Merge.run (ctx : Context) : List MergeAction → Merge → Option Merge
  | [], s => some s
  | a :: rest, s =>
    match Merge.step ctx a s with
    | some s1 => Merge.run ctx rest s1
    | none => none

/-- The number of steps a state has left at most. -/
def Merge.measure (s : Merge) : Nat :=
  s.mainTodo.length + s.importTodo.length + (if s.closed then 0 else 1) +
    (if s.returned then 0 else 1)

/-- The file of `TestSqlContextRule_DetectsBegin` with a type table that also
resolves `err`, which is no receiver of a call. -/
def beginMoreTypesCtx : Context :=
  ⟨linesAndColumns, beginFile, "test.go",
   some ⟨fun e =>
     match e with
     | .Ident ⟨_, "db"⟩ => some sqlDB
     | .Ident ⟨_, "tx"⟩ => some sqlTx
     | .Ident ⟨_, "err"⟩ => some (.Named (some ⟨none, "error"⟩))
     | _ => none⟩⟩

/-- An interleaving of the two walks on the file of
`TestTestifyRule_DetectsImports`: the import walk runs ahead for five nodes and
then waits with its first violation until the caller's walk is over. -/
def detectsImportsRun : List MergeAction :=
  List.replicate 5 .importVisit ++ List.replicate 26 .mainVisit ++
    List.replicate 21 .importVisit ++ [.close, .finish]

/-! ## The fan-in of `analyzeDirectory`

After a successful load `analyzeDirectory` starts one goroutine per task, each
doing `defer wg.Done()` and at most one send on `violationsChan` (capacity
100), then a goroutine doing `wg.Wait(); close(violationsChan)`, and then
receives until the channel is closed.  `FanIn` is the state of all of them,
`FanIn.step` one step of any. -/

/-- The capacity of `violationsChan`. -/
def chanCap : Nat := 100

/-- What a task has still to send: `some vs` before its send, `none` when it
sends nothing or has sent. -/
def payload : Option (List Violation) → List Violation
  | some vs => vs
  | none => []

/-- The state of the goroutines: the tasks not yet started, the started tasks
that have not called `Done`, the counter of the `WaitGroup`, whether the
waiting goroutine has been started, the content of the channel, whether it is
closed, the slice `violations` of the caller, and whether the caller has
returned. -/
structure FanIn where
  unspawned : List (Option (List Violation))
  running : List (Option (List Violation))
  wg : Nat
  waiter : Bool
  buffer : List (List Violation)
  closed : Bool
  violations : List Violation
  returned : Bool

/-- The steps of the goroutines; `send i` and `done i` are steps of the `i`-th
running task. -/
inductive FanInAction where
  | spawn
  | startWaiter
  | send (i : Nat)
  | done (i : Nat)
  | close
  | receive
  | finish
deriving DecidableEq, Repr

/-- The state before the first task is started. -/
def FanIn.init (tasks : List (Option (List Violation))) : FanIn :=
  ⟨tasks, [], 0, false, [], false, [], false⟩

/-- One step.  `spawn`: the caller does `wg.Add` for its next task and starts
it.  `startWaiter`: all tasks started, the caller starts the waiting
goroutine.  `send i`: a running task with a slice to send puts it into the
channel, which needs room.  `done i`: a running task with nothing left to send
calls `wg.Done` and ends.  `close`: the waiting goroutine, the counter at zero,
closes the channel.  `receive`: the caller, in its loop, takes the oldest slice
and appends it.  `finish`: the caller finds the channel empty and closed and
returns.  A step that cannot be taken gives `none`. -/
def FanIn.step : FanInAction → FanIn → Option FanIn
  | .spawn, s =>
    match s.unspawned with
    | [] => none
    | t :: rest => some { s with unspawned := rest, running := s.running ++ [t], wg := s.wg + 1 }
  | .startWaiter, s =>
    if s.unspawned.isEmpty && !s.waiter then some { s with waiter := true } else none
  | .send i, s =>
    match s.running[i]? with
    | some (some vs) =>
      if s.buffer.length < chanCap then
        some { s with running := s.running.set i none, buffer := s.buffer ++ [vs] }
      else none
    | _ => none
  | .done i, s =>
    match s.running[i]? with
    | some none => some { s with running := s.running.eraseIdx i, wg := s.wg - 1 }
    | _ => none
  | .close, s =>
    if s.waiter && s.wg == 0 && !s.closed then some { s with closed := true } else none
  | .receive, s =>
    if s.unspawned.isEmpty && s.waiter && !s.returned then
      match s.buffer with
      | [] => none
      | vs :: rest => some { s with buffer := rest, violations := s.violations ++ vs }
    else none
  | .finish, s =>
    if s.unspawned.isEmpty && s.waiter && s.buffer.isEmpty && s.closed && !s.returned then
      some { s with returned := true }
    else none

/-- A run: the steps of an interleaving, one after the other. -/
def FanIn.run : List FanInAction → FanIn → Option FanIn
  | [], s => some s
  | a :: rest, s =>
    match FanIn.step a s with
    | some s1 => FanIn.run rest s1
    | none => none

/-- The number of steps a task has left at most: send, `Done`, and the
caller's receive, or `Done` alone. -/
def taskCost : Option (List Violation) → Nat
  | some _ => 3
  | none => 1

/-- The number of steps a state has left at most. -/
def FanIn.measure (s : FanIn) : Nat :=
  (s.unspawned.map fun t => 1 + taskCost t).sum + (s.running.map taskCost).sum +
    s.buffer.length + (if s.waiter then 0 else 1) + (if s.closed then 0 else 1) +
    (if s.returned then 0 else 1)

/-- What every reachable state of the fan-in satisfies: the counter counts the
running tasks; the waiting goroutine is started after all tasks; the channel
is closed only when no task is left; the caller returns only on a closed and
empty channel; and the slices received, in the channel and still to be sent
make up, in some order, what the tasks send. -/
def FanIn.Inv (tasks : List (Option (List Violation))) (s : FanIn) : Prop :=
  s.wg = s.running.length ∧
  (s.waiter = true → s.unspawned = []) ∧
  (s.closed = true → s.waiter = true ∧ s.running = []) ∧
  (s.returned = true → s.closed = true ∧ s.buffer = []) ∧
  (s.violations ++ s.buffer.flatten ++ s.running.flatMap payload ++
    s.unspawned.flatMap payload).Perm (tasks.flatMap payload)

/-- The tasks spawned for `proj` when the load reports `brokenPackage`: the
re-analysis of `broken.go` fails and sends nothing, that of `good.go` sends
its one violation. -/
def projTasks : List (Option (List Violation)) :=
  [none,
   some [⟨"proj/good.go", 3, 8, "gokit-usage",
     "File imports go-kit package: github.com/go-kit/kit/log"⟩]]

/-- One interleaving over `projTasks`: both tasks are spawned, the waiting
goroutine starts, the first task finishes without sending, the second sends,
the caller receives, the second task finishes, the channel is closed and the
caller leaves its loop. -/
def projRun : List FanInAction :=
  [.spawn, .spawn, .startWaiter, .done 0, .send 0, .receive, .done 0, .close, .finish]

/-! ## The JUnit formatter (`formatter/formatter.go`)

`JUnitFormatter.Format` builds a `JUnitTestSuites` value and hands it to
`xml.MarshalIndent`.  The value is modelled; the marshalling and the write to
`w` are library calls and are not. -/

/-- Go `formatter.JUnitFailure`; the field `Type` of the source is `Type_`
here, `Type` being a keyword. -/
structure JUnitFailure where
  Message : String
  Type_ : String
  Content : String
deriving DecidableEq, Repr

/-- Go `formatter.JUnitTestCase`; the nil `Failure` pointer is `none`. -/
structure JUnitTestCase where
  Name : String
  Classname : String
  Time : String
  Failure : Option JUnitFailure
deriving DecidableEq, Repr

/-- Go `formatter.JUnitTestSuite`. -/
structure JUnitTestSuite where
  Name : String
  Tests : Nat
  Failures : Nat
  Errors : Nat
  Time : String
  Cases : List JUnitTestCase
deriving DecidableEq, Repr

/-- Go `formatter.JUnitTestSuites`. -/
structure JUnitTestSuites where
  Suites : List JUnitTestSuite
deriving DecidableEq, Repr

/-- Go `fileViolations[v.File] = append(fileViolations[v.File], v)` on a map
held as the list of its keys with their values: the entry of the key gets `v`
appended; without such an entry a new one is made. -/
def mapAppend : List (String × List Violation) → Violation → List (String × List Violation)
  | [], v => [(v.File, [v])]
  | (k, vs) :: rest, v =>
    if k == v.File then (k, vs ++ [v]) :: rest else (k, vs) :: mapAppend rest v

/-- The first loop of `JUnitFormatter.Format`: the violations grouped by file. -/
def groupByFile (violations : List Violation) : List (String × List Violation) :=
  violations.foldl mapAppend []

/-- Go `range` over a map: every entry once, in an order the runtime picks;
each entry of `order` picks the next one among the entries not yet visited. -/
def mapRange {α : Type} (order : List Nat) (m : List α) : List α :=
  deliveryOrder m.length order m

/-- The test case `JUnitFormatter.Format` builds for the violation `v` of the
suite of `file`. -/
def testCase (file : String) (v : Violation) : JUnitTestCase :=
  { Name := v.Rule ++ " (line " ++ toString v.Line ++ ")",
    Classname := file,
    Time := "0",
    Failure := some
      { Message := v.Message,
        Type_ := v.Rule,
        Content := v.File ++ ":" ++ toString v.Line ++ ":" ++ toString v.Column ++ ": [" ++
          v.Rule ++ "] " ++ v.Message } }

/-- The suite `JUnitFormatter.Format` builds for one map entry. -/
def testSuite (file : String) (viols : List Violation) : JUnitTestSuite :=
  { Name := file,
    Tests := viols.length,
    Failures := viols.length,
    Errors := 0,
    Time := "0",
    Cases := viols.map (testCase file) }

/-- The suite appended when there are no violations. -/
def passingSuite : JUnitTestSuite :=
  { Name := "goasted",
    Tests := 1,
    Failures := 0,
    Errors := 0,
    Time := "0",
    Cases := [{ Name := "No violations", Classname := "goasted", Time := "0", Failure := none }] }

/-- Go `JUnitFormatter.Format`, up to the value given to `xml.MarshalIndent`;
`order` is the iteration order of the map. -/
def JUnitFormatter.Format (order : List Nat) (violations : List Violation) : JUnitTestSuites :=
  let fileViolations := groupByFile violations
  let suites := (mapRange order fileViolations).map fun entry => testSuite entry.1 entry.2
  let suites := if violations.length == 0 then suites ++ [passingSuite] else suites
  { Suites := suites }

/-- Three violations over two files, the files interleaved. -/
def reportInput : List Violation :=
  [⟨"b.go", 3, 1, "gokit-usage", "m1"⟩,
   ⟨"a.go", 7, 2, "sql-context", "m2"⟩,
   ⟨"b.go", 9, 5, "sql-context", "m3"⟩]

/-- What the map of `JUnitFormatter.Format` satisfies after the violations
`vs` are grouped: no key twice; the keys are the files of `vs`; the value of a
key is the violations of that file in the order of `vs`; and the values hold
as many violations as `vs`. -/
def Grouped (m : List (String × List Violation)) (vs : List Violation) : Prop :=
  (m.map Prod.fst).Nodup ∧
  (∀ k, k ∈ m.map Prod.fst ↔ k ∈ vs.map fun v => v.File) ∧
  (∀ e ∈ m, e.2 = vs.filter fun v => v.File == e.1) ∧
  (m.map fun e => e.2.length).sum = vs.length

/-! ## Traversal lemmas -/

mutual
theorem Inspect_eq_foldl {σ : Type} (f : Option Node → σ → σ × Bool)
    (hcont : ∀ n s, (f (some n) s).2 = true) (hnil : ∀ s, (f none s).1 = s) :
    ∀ (n : Node) (s : σ),
      Inspect f n s = (preorder n).foldl (fun s n => (f (some n) s).1) s
  | .Ident i, s => by simp [Inspect, visit, preorder, hcont, hnil]
  | .BasicLit lit, s => by simp [Inspect, visit, preorder, hcont, hnil]
  | .ImportSpec spec, s => by
    cases hN : spec.Name <;> cases hP : spec.Path <;>
      simp [Inspect, visit, preorder, hcont, hnil, hN, hP]
  | .SelectorExpr X Sel, s => by
    simp [Inspect, visit, preorder, hcont, hnil, Inspect_eq_foldl f hcont hnil X]
  | .CallExpr Fun Args, s => by
    simp [Inspect, visit, preorder, hcont, hnil, Inspect_eq_foldl f hcont hnil Fun,
      InspectList_eq_foldl f hcont hnil Args]
  | .Other pos children, s => by
    simp [Inspect, visit, preorder, hcont, hnil, InspectList_eq_foldl f hcont hnil children]
theorem InspectList_eq_foldl {σ : Type} (f : Option Node → σ → σ × Bool)
    (hcont : ∀ n s, (f (some n) s).2 = true) (hnil : ∀ s, (f none s).1 = s) :
    ∀ (ns : List Node) (s : σ),
      InspectList f ns s = (preorderList ns).foldl (fun s n => (f (some n) s).1) s
  | [], s => by simp [InspectList, preorderList]
  | n :: ns, s => by
    simp [InspectList, preorderList, Inspect_eq_foldl f hcont hnil n,
      InspectList_eq_foldl f hcont hnil ns]
end

/-- A walk whose closure appends, at each node, what `g` gives for it. -/
theorem foldl_append_flatMap {α β : Type} (g : α → List β) (step : List β → α → List β)
    (hstep : ∀ acc a, step acc a = acc ++ g a) (l : List α) (acc : List β) :
    l.foldl step acc = acc ++ l.flatMap g := by
  induction l generalizing acc with
  | nil => simp
  | cons a l ih => simp [List.foldl_cons, ih, hstep, List.flatMap_cons]

theorem foldl_eq_self {α σ : Type} (step : σ → α → σ) (l : List α) (s : σ)
    (h : ∀ a ∈ l, ∀ t, step t a = t) : l.foldl step s = s := by
  induction l generalizing s with
  | nil => rfl
  | cons a l ih =>
    rw [List.foldl_cons, h a (List.mem_cons_self _ _)]
    exact ih s (fun b hb => h b (List.mem_cons_of_mem _ hb))

theorem flatMap_toList {α β : Type} (h : α → Option β) (l : List α) :
    l.flatMap (fun a => (h a).toList) = l.filterMap h := by
  induction l with
  | nil => rfl
  | cons a l ih =>
    cases ha : h a <;> simp [List.flatMap_cons, List.filterMap_cons, ha, ih]

/-- A walk whose closure always continues and appends `g n` at node `n`
collects `g` over the nodes in visiting order. -/
theorem Inspect_collect {β : Type} (f : Option Node → List β → List β × Bool)
    (g : Node → List β)
    (hcont : ∀ n s, (f (some n) s).2 = true) (hnil : ∀ s, (f none s).1 = s)
    (hstep : ∀ n s, (f (some n) s).1 = s ++ g n) (n : Node) :
    Inspect f n [] = (preorder n).flatMap g := by
  rw [Inspect_eq_foldl f hcont hnil,
    foldl_append_flatMap g (fun s n => (f (some n) s).1) (fun acc a => hstep a acc)]
  simp

/-! ## The go-kit rule -/

theorem GokitRule_Check_eq (ctx : Context) :
    GokitRule.Check ctx = (importSpecsOf ctx.File.toNode).filterMap (gokitViolation? ctx) := by
  unfold GokitRule.Check importSpecsOf
  rw [Inspect_collect (GokitRule.inspector ctx)
    (fun n => ((asImportSpec? n).bind (gokitViolation? ctx)).toList)]
  · rw [flatMap_toList, List.filterMap_filterMap]
  · intro n s
    cases n <;> simp only [GokitRule.inspector]
    split
    · rfl
    · split <;> rfl
  · intro s
    rfl
  · intro n s
    cases n <;> simp [GokitRule.inspector, asImportSpec?, gokitViolation?]
    rename_i spec
    cases hP : spec.Path with
    | none => simp
    | some lit =>
      by_cases hpre : HasPrefix (Trim lit.Value "\"") "github.com/go-kit/kit" = true
      · simp [hpre, GokitRule.Name]
      · simp [hpre]

theorem contains_quote (c : Char) : ['"'].contains c = (c == '"') := by
  unfold List.contains List.elem
  cases (c == '"') <;> rfl

theorem cutset_quote :
    (fun c => ("\"" : String).data.contains c) = (fun c => c == '"') := by
  funext c
  exact contains_quote c

theorem dropWhile_head_false {α : Type} (p : α → Bool) (a : α) (l : List α)
    (h : p a = false) : (a :: l).dropWhile p = a :: l := by
  simp [List.dropWhile, h]

/-- `Trim` recovers a quote-free path from its double-quoted spelling. -/
theorem Trim_of_quotedPath (s : ImportSpec) (P : String) (h : s.quotedPath? = some P) :
    ∃ lit, s.Path = some lit ∧ Trim lit.Value "\"" = P := by
  unfold ImportSpec.quotedPath? at h
  cases hP : s.Path with
  | none => simp [hP] at h
  | some lit =>
    refine ⟨lit, rfl, ?_⟩
    simp only [hP] at h
    cases hv : lit.Value.data with
    | nil => simp [hv] at h
    | cons c rest =>
      simp only [hv] at h
      cases hr : rest.reverse with
      | nil => simp [hr] at h
      | cons d revP =>
        simp only [hr] at h
        split at h
        · rename_i hc
          obtain ⟨hc1, hd1, hq⟩ := hc
          subst hc1 hd1
          simp only [Option.some.injEq] at h
          subst h
          have hrest : rest = revP.reverse ++ ['"'] := by
            have := congrArg List.reverse hr
            simpa using this
          unfold Trim
          rw [cutset_quote]
          congr 1
          simp only [hv, hrest]
          cases revP with
          | nil => simp [List.dropWhile]
          | cons r revQ =>
            have hr1 : (r == '"') = false := by
              simp only [beq_eq_false_iff_ne, ne_eq]
              intro hEq
              exact hq (hEq ▸ List.mem_cons_self _ _)
            have hne : ∀ x ∈ (r :: revQ).reverse, (x == '"') = false := by
              intro x hx
              simp only [beq_eq_false_iff_ne, ne_eq]
              intro hEq
              exact hq (hEq ▸ (List.mem_reverse.1 hx))
            have hdrop : ∀ (l t : List Char), l ≠ [] → (∀ x ∈ l, (x == '"') = false) →
                (l ++ t).dropWhile (fun c => c == '"') = l ++ t := by
              intro l t hl hall
              cases l with
              | nil => exact absurd rfl hl
              | cons a l => exact dropWhile_head_false _ a _ (hall a (List.mem_cons_self _ _))
            rw [List.dropWhile_cons_of_pos (by simp),
              hdrop _ _ (by simp) hne]
            simp only [List.reverse_append, List.reverse_reverse, List.reverse_cons,
              List.reverse_nil, List.nil_append, List.singleton_append]
            rw [List.dropWhile_cons_of_pos (by simp), dropWhile_head_false _ r revQ hr1]
            simp
        · simp at h

theorem HasPrefix_of_slash (P : String)
    (h : HasPrefix P "github.com/go-kit/kit/" = true) :
    HasPrefix P "github.com/go-kit/kit" = true := by
  unfold HasPrefix at *
  rw [List.isPrefixOf_iff_prefix] at *
  exact (List.prefix_append "github.com/go-kit/kit".data ['/']).trans h

theorem length_filterMap_eq_countP {α β : Type} (f : α → Option β) (p : α → Bool)
    (l : List α) (h : ∀ a ∈ l, (f a).isSome = p a) :
    (l.filterMap f).length = l.countP p := by
  induction l with
  | nil => rfl
  | cons a l ih =>
    have ha := h a (List.mem_cons_self _ _)
    have hl := ih (fun b hb => h b (List.mem_cons_of_mem _ hb))
    cases hf : f a with
    | none =>
      rw [hf] at ha
      simp [List.filterMap_cons, hf, List.countP_cons, ← ha, hl]
    | some b =>
      rw [hf] at ha
      simp [List.filterMap_cons, hf, List.countP_cons, ← ha, hl]

theorem gokitViolation_of_quoted (ctx : Context) (s : ImportSpec) (P : String)
    (hq : s.quotedPath? = some P) (hu : HasPrefix P "github.com/go-kit/kit/" = true) :
    gokitViolation? ctx s = some ⟨ctx.Filename, (ctx.FileSet s.Pos).Line,
      (ctx.FileSet s.Pos).Column, "gokit-usage", "File imports go-kit package: " ++ P⟩ := by
  obtain ⟨lit, hlit, ht⟩ := Trim_of_quotedPath s P hq
  simp [gokitViolation?, hlit, ht, HasPrefix_of_slash P hu]

/-- C3, on `service.go` with the single import "github.com/go-kit/kit-fake":
the path is neither the forbidden path nor under it at a
separator boundary, and `GokitRule.Check` reports it. -/
theorem GokitRule_flags_kit_fake :
    "github.com/go-kit/kit-fake" ≠ "github.com/go-kit/kit" ∧
    HasPrefix "github.com/go-kit/kit-fake" "github.com/go-kit/kit/" = false ∧
    GokitRule.Check kitFakeCtx =
      [⟨"service.go", 3, 8, "gokit-usage",
        "File imports go-kit package: github.com/go-kit/kit-fake"⟩] := by
  decide

/-- C4: whatever the filename, `GokitRule.Check` reports the import specs of
the file in source order, at most one violation each; an import written as a
double-quoted path `P` under "github.com/go-kit/kit/" gives the violation whose
message is "File imports go-kit package: " followed by `P`; and when no
other import starts with "github.com/go-kit/kit", the number of violations is
the number of such imports. -/
theorem GokitRule_Check_quoted (ctx : Context) :
    GokitRule.Check ctx = (importSpecsOf ctx.File.toNode).filterMap (gokitViolation? ctx) ∧
    (∀ s P, s.quotedPath? = some P → HasPrefix P "github.com/go-kit/kit/" = true →
      gokitViolation? ctx s = some ⟨ctx.Filename, (ctx.FileSet s.Pos).Line,
        (ctx.FileSet s.Pos).Column, "gokit-usage", "File imports go-kit package: " ++ P⟩) ∧
    ((∀ s ∈ importSpecsOf ctx.File.toNode, ∀ lit, s.Path = some lit →
        HasPrefix (Trim lit.Value "\"") "github.com/go-kit/kit" = true → s.underGokit = true) →
      (GokitRule.Check ctx).length = (importSpecsOf ctx.File.toNode).countP ImportSpec.underGokit) := by
  refine ⟨GokitRule_Check_eq ctx, gokitViolation_of_quoted ctx, ?_⟩
  intro hother
  rw [GokitRule_Check_eq]
  apply length_filterMap_eq_countP
  intro s hs
  cases hu : s.underGokit with
  | true =>
    unfold ImportSpec.underGokit at hu
    cases hq : s.quotedPath? with
    | none => simp [hq] at hu
    | some P =>
      simp only [hq] at hu
      rw [gokitViolation_of_quoted ctx s P hq hu]
      rfl
  | false =>
    cases hP : s.Path with
    | none => simp [gokitViolation?, hP]
    | some lit =>
      by_cases hpre : HasPrefix (Trim lit.Value "\"") "github.com/go-kit/kit" = true
      · rw [hother s hs lit hP hpre] at hu
        exact absurd hu (by decide)
      · simp [gokitViolation?, hP, hpre]

/-- C4 on the file of `TestGokitRule_WorksInTestFiles`: the one go-kit import
of the test file gives the one violation. -/
theorem GokitRule_Check_quoted_witness :
    GokitRule.Check gokitInTestFileCtx =
      [⟨"service_test.go", 5, 2, "gokit-usage",
        "File imports go-kit package: github.com/go-kit/kit/log"⟩] ∧
    (GokitRule.Check gokitInTestFileCtx).length =
      (importSpecsOf gokitInTestFileCtx.File.toNode).countP ImportSpec.underGokit :=
  ⟨by rw [(GokitRule_Check_quoted gokitInTestFileCtx).1]; decide,
   (GokitRule_Check_quoted gokitInTestFileCtx).2.2 (by decide)⟩

/-- C5: when no import spec of the file has a path text starting with
"github.com/go-kit/kit", `GokitRule.Check` returns no violation, whatever else
the tree holds. -/
theorem GokitRule_Check_no_gokit (ctx : Context)
    (h : ∀ s ∈ importSpecsOf ctx.File.toNode, ∀ lit, s.Path = some lit →
      HasPrefix (Trim lit.Value "\"") "github.com/go-kit/kit" = false) :
    GokitRule.Check ctx = [] := by
  rw [GokitRule_Check_eq, List.filterMap_eq_nil_iff]
  intro s hs
  cases hP : s.Path with
  | none => simp [gokitViolation?, hP]
  | some lit => simp [gokitViolation?, hP, h s hs lit hP]

/-- C5 on the file of `TestGokitRule_IgnoresSimilarPackageNames`. -/
theorem GokitRule_Check_no_gokit_witness : GokitRule.Check similarNamesCtx = [] :=
  GokitRule_Check_no_gokit similarNamesCtx (by decide)

/-! ## The testify rule -/

theorem importPhase_eq (ctx : Context) :
    TestifyRule.importPhase ctx =
      (importSpecsOf ctx.File.toNode).filterMap (testifyImportViolation? ctx) := by
  unfold TestifyRule.importPhase importSpecsOf
  rw [Inspect_collect (TestifyRule.importInspector ctx)
    (fun n => ((asImportSpec? n).bind (testifyImportViolation? ctx)).toList)]
  · rw [flatMap_toList, List.filterMap_filterMap]
  · intro n s
    cases n <;> simp only [TestifyRule.importInspector]
    split
    · rfl
    · split <;> rfl
  · intro s
    rfl
  · intro n s
    cases n <;> simp [TestifyRule.importInspector, asImportSpec?, testifyImportViolation?]
    rename_i spec
    cases hP : spec.Path with
    | none => simp
    | some lit =>
      by_cases hpre : HasPrefix (Trim lit.Value "\"") "github.com/stretchr/testify" = true
      · simp [hpre, TestifyRule.Name]
      · simp [hpre]

theorem confirmImport_foldl (ctx : Context) (x Sel : Ident) (imps : List ImportSpec)
    (acc : List Violation) :
    imps.foldl (TestifyRule.confirmImport ctx x Sel x.NamePos) acc =
      acc ++ List.replicate (imps.countP fun imp => testifyBinds imp x.Name)
        ⟨ctx.Filename, (ctx.FileSet x.NamePos).Line, (ctx.FileSet x.NamePos).Column,
          "testify-usage", "Test code calls testify method: " ++ x.Name ++ "." ++ Sel.Name⟩ := by
  induction imps generalizing acc with
  | nil => simp
  | cons imp rest ih =>
    rw [List.foldl_cons, ih]
    cases hP : imp.Path with
    | none => simp [TestifyRule.confirmImport, testifyBinds, hP, List.countP_cons]
    | some lit =>
      by_cases hpre : HasPrefix (Trim lit.Value "\"") "github.com/stretchr/testify" = true
      · cases hN : imp.Name with
        | some n =>
          by_cases hn : n.Name = x.Name
          · simp [TestifyRule.confirmImport, testifyBinds, hP, hpre, hN, hn, List.countP_cons,
              List.replicate_succ, TestifyRule.Name]
          · simp [TestifyRule.confirmImport, testifyBinds, hP, hpre, hN, hn, List.countP_cons]
        | none =>
          cases hL : (Split (Trim lit.Value "\"") "/").getLast? with
          | none =>
            by_cases hn : "" = x.Name
            · simp [TestifyRule.confirmImport, testifyBinds, hP, hpre, hN, hL, ← hn,
                List.countP_cons, List.replicate_succ, TestifyRule.Name]
            · simp [TestifyRule.confirmImport, testifyBinds, hP, hpre, hN, hL, hn,
                List.countP_cons]
          | some last =>
            by_cases hn : last = x.Name
            · simp [TestifyRule.confirmImport, testifyBinds, hP, hpre, hN, hL, hn,
                List.countP_cons, List.replicate_succ, TestifyRule.Name]
            · simp [TestifyRule.confirmImport, testifyBinds, hP, hpre, hN, hL, hn,
                List.countP_cons]
      · simp [TestifyRule.confirmImport, testifyBinds, hP, hpre, List.countP_cons]

theorem flatMap_filterMap {α β γ : Type} (h : α → Option β) (k : β → List γ) (l : List α) :
    (l.filterMap h).flatMap k =
      l.flatMap (fun a => match h a with
        | some b => k b
        | none => []) := by
  induction l with
  | nil => rfl
  | cons a l ih =>
    cases ha : h a <;> simp [List.filterMap_cons, List.flatMap_cons, ha, ih]

theorem usagePhase_eq (ctx : Context) :
    TestifyRule.usagePhase ctx =
      (memberAccessesOf ctx.File.toNode).flatMap
        (fun a => testifyUsageViolations ctx a.1 a.2) := by
  unfold TestifyRule.usagePhase memberAccessesOf
  rw [flatMap_filterMap]
  apply Inspect_collect (TestifyRule.selectorInspector ctx)
  · intro n s
    cases n with
    | SelectorExpr X Sel =>
      cases X <;> simp only [TestifyRule.selectorInspector]
      split <;> rfl
    | _ => rfl
  · intro s
    rfl
  · intro n s
    cases n with
    | SelectorExpr X Sel =>
      cases X with
      | Ident x =>
        simp only [TestifyRule.selectorInspector, asMemberAccess?, testifyUsageViolations,
          Node.Pos]
        cases hx : testifyPkgs x.Name with
        | true => simp [confirmImport_foldl]
        | false => simp
      | _ => simp [TestifyRule.selectorInspector, asMemberAccess?]
    | _ => simp [TestifyRule.selectorInspector, asMemberAccess?]

theorem testifyImport_filterMap (ctx : Context) (l : List ImportSpec) :
    l.filterMap (testifyImportViolation? ctx) =
      (l.filter fun t => t.pathStartsWith "github.com/stretchr/testify").map
        (fun s => ⟨ctx.Filename, (ctx.FileSet s.Pos).Line, (ctx.FileSet s.Pos).Column,
          "testify-usage", "Test file imports testify package: " ++ s.pathText⟩) := by
  induction l with
  | nil => rfl
  | cons s l ih =>
    cases hP : s.Path with
    | none =>
      simp [List.filterMap_cons, List.filter_cons, testifyImportViolation?,
        ImportSpec.pathStartsWith, hP, ih]
    | some lit =>
      by_cases hpre : HasPrefix (Trim lit.Value "\"") "github.com/stretchr/testify" = true
      · simp [List.filterMap_cons, List.filter_cons, testifyImportViolation?,
          ImportSpec.pathStartsWith, ImportSpec.pathText, hP, hpre, ih]
      · simp [List.filterMap_cons, List.filter_cons, testifyImportViolation?,
          ImportSpec.pathStartsWith, hP, hpre, ih]

/-- C6: for a filename that does not end in "_test.go", `TestifyRule.Check`
returns no violation, whatever the file holds. -/
theorem TestifyRule_Check_non_test (ctx : Context)
    (h : HasSuffix ctx.Filename "_test.go" = false) : TestifyRule.Check ctx = [] := by
  simp [TestifyRule.Check, h]

/-- C6 on the file of `TestTestifyRule_IgnoresNonTestFiles`, which imports
testify but is named `regular.go`. -/
theorem TestifyRule_Check_non_test_witness :
    (importSpecsOf nonTestCtx.File.toNode).map ImportSpec.pathText =
      ["github.com/stretchr/testify/assert"] ∧
    TestifyRule.Check nonTestCtx = [] :=
  ⟨by decide, TestifyRule_Check_non_test nonTestCtx (by decide)⟩

/-- C7, on `dup_test.go`: two imports bind
`assert` to testify and `assert.Equal` is the only member access on a
recognized identifier; `TestifyRule.Check` reports that one access twice,
before the two import violations. -/
theorem TestifyRule_reports_access_twice :
    memberAccessesOf doubleBindingCtx.File.toNode =
      [(⟨923, "testing"⟩, ⟨931, "T"⟩), (⟨1002, "assert"⟩, ⟨1009, "Equal"⟩)] ∧
    TestifyRule.Check doubleBindingCtx =
      [⟨"dup_test.go", 10, 2, "testify-usage", "Test code calls testify method: assert.Equal"⟩,
       ⟨"dup_test.go", 10, 2, "testify-usage", "Test code calls testify method: assert.Equal"⟩,
       ⟨"dup_test.go", 5, 2, "testify-usage",
         "Test file imports testify package: github.com/stretchr/testify/assert"⟩,
       ⟨"dup_test.go", 6, 2, "testify-usage",
         "Test file imports testify package: github.com/stretchr/testify/require"⟩] := by
  decide

/-- C8, on `fake_test.go`: the path
"github.com/stretchr/testify-fake/assert" is neither the forbidden path nor
under it at a separator boundary, and `TestifyRule.Check` reports both
the import and the member access `assert.Equal` it confirms through it. -/
theorem TestifyRule_flags_testify_fake :
    "github.com/stretchr/testify-fake/assert" ≠ "github.com/stretchr/testify" ∧
    HasPrefix "github.com/stretchr/testify-fake/assert" "github.com/stretchr/testify/" = false ∧
    TestifyRule.Check testifyFakeCtx =
      [⟨"fake_test.go", 9, 2, "testify-usage", "Test code calls testify method: assert.Equal"⟩,
       ⟨"fake_test.go", 5, 2, "testify-usage",
         "Test file imports testify package: github.com/stretchr/testify-fake/assert"⟩] := by
  decide

/-- C9: when no import of the file, neither in the tree nor in the import
table, has a path text starting with "github.com/stretchr/testify",
`TestifyRule.Check` returns no violation, whatever member accesses the file
holds. -/
theorem TestifyRule_Check_no_testify (ctx : Context)
    (htree : ∀ s ∈ importSpecsOf ctx.File.toNode,
      s.pathStartsWith "github.com/stretchr/testify" = false)
    (htable : ∀ s ∈ ctx.File.Imports,
      s.pathStartsWith "github.com/stretchr/testify" = false) :
    TestifyRule.Check ctx = [] := by
  unfold TestifyRule.Check
  split
  · rfl
  · rw [usagePhase_eq, importPhase_eq, testifyImport_filterMap,
      List.filter_eq_nil_iff.2 (fun s hs => by simp [htree s hs])]
    simp only [List.map_nil, List.append_nil, List.flatMap_eq_nil_iff]
    intro a _
    unfold testifyUsageViolations
    split
    · have hzero : (ctx.File.Imports.countP fun imp => testifyBinds imp a.1.Name) = 0 := by
        rw [List.countP_eq_zero]
        intro imp himp
        have hno := htable imp himp
        unfold ImportSpec.pathStartsWith at hno
        unfold testifyBinds
        cases hP : imp.Path with
        | none => simp
        | some lit =>
          simp only [hP] at hno
          simp [hno]
      rw [hzero]
      rfl
    · rfl

/-- C9 on `fake_assert_test.go`, a test file that calls `assert.Equal` on a
local identifier and imports only "testing". -/
theorem TestifyRule_Check_no_testify_witness :
    memberAccessesOf localAssertCtx.File.toNode =
      [(⟨723, "testing"⟩, ⟨731, "T"⟩), (⟨802, "assert"⟩, ⟨809, "Equal"⟩)] ∧
    HasSuffix localAssertCtx.Filename "_test.go" = true ∧
    TestifyRule.Check localAssertCtx = [] :=
  ⟨by decide, by decide, TestifyRule_Check_no_testify localAssertCtx (by decide) (by decide)⟩

/-! ## Registry lemmas -/

theorem GetRule_eq_none (r : Registry) (name : String) :
    Registry.GetRule r name = none ↔ ∀ rule ∈ r, rule.Name ≠ name := by
  induction r with
  | nil => simp [Registry.GetRule]
  | cons rule rest ih =>
    by_cases h : rule.Name = name
    · simp [Registry.GetRule, h]
    · simp [Registry.GetRule, h, ih]

theorem GetRule_eq_some (r : Registry) (name : String) (rule : Rule)
    (h : Registry.GetRule r name = some rule) : rule ∈ r ∧ rule.Name = name := by
  induction r with
  | nil => simp [Registry.GetRule] at h
  | cons first rest ih =>
    by_cases hn : first.Name = name
    · simp [Registry.GetRule, hn] at h
      subst h
      exact ⟨List.mem_cons_self _ _, hn⟩
    · simp [Registry.GetRule, hn] at h
      exact ⟨List.mem_cons_of_mem _ (ih h).1, (ih h).2⟩

theorem Filter_foldl (r : Registry) (names : List String) (acc : Registry) :
    names.foldl
      (fun filtered name =>
        match Registry.GetRule r name with
        | some rule => Registry.Register filtered rule
        | none => filtered) acc
      = acc ++ names.filterMap (Registry.GetRule r) := by
  induction names generalizing acc with
  | nil => simp
  | cons n ns ih =>
    rw [List.foldl_cons, ih]
    cases hg : Registry.GetRule r n with
    | none => simp [List.filterMap_cons, hg]
    | some rule => simp [List.filterMap_cons, hg, Registry.Register]

theorem Filter_eq_filterMap (r : Registry) (names : List String) :
    Registry.Filter r names = names.filterMap (Registry.GetRule r) := by
  unfold Registry.Filter
  rw [Filter_foldl]
  simp [NewRegistry]

/-- C1: `Filter` is total and returns, in the order of the names, the rule
`GetRule` finds for each name that names a registered rule; a name is dropped
exactly when no registered rule carries it, so only unknown names give the
empty registry, and every returned rule is a rule of `r` whose name is among
the names. -/
theorem Filter_spec (r : Registry) (ns : List String) :
    Registry.Filter r ns = ns.filterMap (Registry.GetRule r) ∧
    (∀ n, Registry.GetRule r n = none ↔ ∀ rule ∈ r, rule.Name ≠ n) ∧
    ((∀ n ∈ ns, ∀ rule ∈ r, rule.Name ≠ n) → Registry.Filter r ns = []) ∧
    (∀ rule ∈ Registry.Filter r ns, rule ∈ r ∧ rule.Name ∈ ns) := by
  refine ⟨Filter_eq_filterMap r ns, GetRule_eq_none r, ?_, ?_⟩
  · intro h
    rw [Filter_eq_filterMap, List.filterMap_eq_nil_iff]
    intro n hn
    exact (GetRule_eq_none r n).2 (h n hn)
  · intro rule hrule
    rw [Filter_eq_filterMap, List.mem_filterMap] at hrule
    obtain ⟨n, hn, hg⟩ := hrule
    obtain ⟨hmem, hname⟩ := GetRule_eq_some r n rule hg
    exact ⟨hmem, hname ▸ hn⟩

/-- C2: the registry of a run holds the three concrete rules, named
"testify-usage", "sql-context-required" and "gokit-usage"; the names are
pairwise distinct, and for a repetition-free list of these names `Filter`
returns exactly the rules so named, one per name, in the order of the list. -/
theorem mainRegistry_Filter (ns : List String)
    (hns : ∀ n ∈ ns, n ∈ ["testify-usage", "sql-context-required", "gokit-usage"])
    (hnd : ns.Nodup) :
    mainRegistry = [TestifyRule, SqlContextRule, GokitRule] ∧
    mainRegistry.map Rule.Name = ["testify-usage", "sql-context-required", "gokit-usage"] ∧
    (mainRegistry.map Rule.Name).Nodup ∧
    Registry.Filter mainRegistry ns = ns.map (fun n =>
      if n = "testify-usage" then TestifyRule
      else if n = "sql-context-required" then SqlContextRule
      else GokitRule) ∧
    (Registry.Filter mainRegistry ns).map Rule.Name = ns ∧
    ((Registry.Filter mainRegistry ns).map Rule.Name).Nodup := by
  have hmap : Registry.Filter mainRegistry ns = ns.map (fun n =>
      if n = "testify-usage" then TestifyRule
      else if n = "sql-context-required" then SqlContextRule
      else GokitRule) := by
    rw [Filter_eq_filterMap]
    induction ns with
    | nil => rfl
    | cons n rest ih =>
      have hrest := ih (fun m hm => hns m (List.mem_cons_of_mem _ hm)) (List.nodup_cons.1 hnd).2
      have hn := hns n (List.mem_cons_self _ _)
      simp only [List.mem_cons, List.mem_singleton, List.not_mem_nil, or_false] at hn
      rw [List.filterMap_cons, List.map_cons, ← hrest]
      rcases hn with h | h | h <;> subst h <;> rfl
  have hnames : (Registry.Filter mainRegistry ns).map Rule.Name = ns := by
    rw [hmap, List.map_map]
    conv_rhs => rw [← List.map_id ns]
    apply List.map_congr_left
    intro n hn
    have hn := hns n hn
    simp only [List.mem_cons, List.mem_singleton, List.not_mem_nil, or_false] at hn
    rcases hn with h | h | h <;> subst h <;> rfl
  refine ⟨rfl, rfl, by decide, hmap, hnames, ?_⟩
  rw [hnames]
  exact hnd

/-- C2 at the list "gokit-usage", "testify-usage". -/
theorem mainRegistry_Filter_witness :
    Registry.Filter mainRegistry ["gokit-usage", "testify-usage"] = [GokitRule, TestifyRule] :=
  (mainRegistry_Filter ["gokit-usage", "testify-usage"] (by decide) (by decide)).2.2.2.1

/-! ## The SQL rule -/

theorem SqlContextRule_Check_eq (ctx : Context) :
    SqlContextRule.Check ctx = (sqlCallsOf ctx.File.toNode).filterMap (sqlViolation? ctx) := by
  unfold SqlContextRule.Check sqlCallsOf
  rw [Inspect_collect (SqlContextRule.inspector ctx)
    (fun n => ((asSqlCall? n).bind (sqlViolation? ctx)).toList)]
  · rw [flatMap_toList, List.filterMap_filterMap]
  · intro n s
    cases n with
    | CallExpr Fun Args =>
      cases Fun <;> simp only [SqlContextRule.inspector]
      repeat' split
      all_goals rfl
    | _ => rfl
  · intro s
    rfl
  · intro n s
    cases n with
    | CallExpr Fun Args =>
      cases Fun with
      | SelectorExpr X Sel =>
        simp only [SqlContextRule.inspector, asSqlCall?, sqlViolation?, contextOverload,
          Option.bind_some]
        cases hdb : dbMethodsWithContextOverload.lookup Sel.Name with
        | some m =>
          cases hT : ctx.TypeInfo with
          | none => simp [hdb, hT]
          | some info =>
            cases hX : info.TypeOf X with
            | none => simp [hdb, hT, hX]
            | some t =>
              cases ht : typeIsDbOrTx t <;> simp [hdb, hT, hX, ht, SqlContextRule.Name]
        | none =>
          cases htx : txMethodsWithContextOverload.lookup Sel.Name with
          | none => simp [hdb, htx]
          | some m =>
            cases hT : ctx.TypeInfo with
            | none => simp [hdb, htx, hT]
            | some info =>
              cases hX : info.TypeOf X with
              | none => simp [hdb, htx, hT, hX]
              | some t =>
                cases ht : typeIsDbOrTx t <;> simp [hdb, htx, hT, hX, ht, SqlContextRule.Name]
      | _ => simp [SqlContextRule.inspector, asSqlCall?]
    | _ => simp [SqlContextRule.inspector, asSqlCall?]

theorem lookup_eq_some_mem {α β : Type} [BEq α] [LawfulBEq α] (k : α) (v : β)
    (l : List (α × β)) (h : l.lookup k = some v) : (k, v) ∈ l := by
  induction l with
  | nil => simp [List.lookup] at h
  | cons p l ih =>
    obtain ⟨a, b⟩ := p
    by_cases hk : k = a
    · subst hk
      simp [List.lookup] at h
      subst h
      exact List.mem_cons_self _ _
    · have hne : (k == a) = false := by simpa using hk
      simp only [List.lookup, hne] at h
      exact List.mem_cons_of_mem _ (ih h)

theorem contextOverload_eq_some (m c : String) (h : contextOverload m = some c) :
    (m, c) ∈ [("Exec", "ExecContext"), ("Query", "QueryContext"),
      ("QueryRow", "QueryRowContext"), ("Prepare", "PrepareContext"), ("Begin", "BeginTx"),
      ("Ping", "PingContext")] := by
  unfold contextOverload at h
  cases hdb : dbMethodsWithContextOverload.lookup m with
  | some d =>
    simp only [hdb, Option.some.injEq] at h
    subst h
    exact lookup_eq_some_mem m d _ hdb
  | none =>
    simp only [hdb] at h
    have hmem := lookup_eq_some_mem m c _ h
    have hsub : ∀ p ∈ txMethodsWithContextOverload, p ∈ dbMethodsWithContextOverload := by
      decide
    exact hsub _ hmem

/-- C11: with a type table present, `SqlContextRule.Check` reports the method
calls of the file in source order, at most one violation each; a call whose
receiver resolves to `*sql.DB` gives its violation when the method is one of
Exec, Query, QueryRow, Prepare, Begin, Ping, and none when it is one of the
context-aware siblings, whatever expression the receiver is. -/
theorem SqlContextRule_Check_DB (ctx : Context) (info : Info)
    (hinfo : ctx.TypeInfo = some info) :
    SqlContextRule.Check ctx = (sqlCallsOf ctx.File.toNode).filterMap (sqlViolation? ctx) ∧
    ∀ (X : Node) (Sel : Ident) (Args : List Node),
      info.TypeOf X = some (.Pointer (.Named (some ⟨some "database/sql", "DB"⟩))) →
      (Sel.Name ∈ ["Exec", "Query", "QueryRow", "Prepare", "Begin", "Ping"] →
        (sqlViolation? ctx (X, Sel, Args)).isSome = true) ∧
      (Sel.Name ∈ ["ExecContext", "QueryContext", "QueryRowContext", "PrepareContext",
          "BeginTx", "PingContext"] →
        sqlViolation? ctx (X, Sel, Args) = none) := by
  refine ⟨SqlContextRule_Check_eq ctx, ?_⟩
  intro X Sel Args hX
  have hdb : typeIsDbOrTx (.Pointer (.Named (some ⟨some "database/sql", "DB"⟩))) = true := by
    decide
  constructor
  · intro hm
    have hco : (contextOverload Sel.Name).isSome = true := by
      simp only [List.mem_cons, List.mem_singleton, List.not_mem_nil, or_false] at hm
      rcases hm with h | h | h | h | h | h <;> rw [h] <;> decide
    cases hc : contextOverload Sel.Name with
    | none => simp [hc] at hco
    | some c => simp [sqlViolation?, hc, hinfo, hX, hdb]
  · intro hm
    have hco : contextOverload Sel.Name = none := by
      simp only [List.mem_cons, List.mem_singleton, List.not_mem_nil, or_false] at hm
      rcases hm with h | h | h | h | h | h <;> rw [h] <;> decide
    simp [sqlViolation?, hco]

/-- C11 on the files of `TestSqlContextRule_TypeCheckingWorks` (the receiver is
the field access `r.connection`) and `TestSqlContextRule_IgnoresContextMethods`
(five context-aware calls on `db`). -/
theorem SqlContextRule_Check_DB_witness :
    SqlContextRule.Check typeCheckingCtx =
      [⟨"test.go", 11, 12, "sql-context-required",
        "Use QueryContext instead of Query (called on connection of type *database/sql.DB)"⟩] ∧
    (sqlCallsOf contextMethodsCtx.File.toNode).map (fun c => c.2.1.Name) =
      ["ExecContext", "QueryContext", "QueryRowContext", "PrepareContext", "PingContext"] ∧
    SqlContextRule.Check contextMethodsCtx = [] :=
  ⟨by rw [(SqlContextRule_Check_DB typeCheckingCtx _ rfl).1]; decide,
   by decide,
   by rw [(SqlContextRule_Check_DB contextMethodsCtx _ rfl).1]; decide⟩

/-- C12: `typeIsDbOrTx` holds exactly for one level of pointer to a named type
declared in "database/sql" under the name "DB" or "Tx"; it fails for a named
type itself, a pointer to a pointer, a pointer to an unnamed type, a pointer to
a named type without object or without package, and a pointer to a named type
of any other package. -/
theorem typeIsDbOrTx_iff (t : GoType) :
    (typeIsDbOrTx t = true ↔
      ∃ name, (name = "DB" ∨ name = "Tx") ∧
        t = .Pointer (.Named (some ⟨some "database/sql", name⟩))) ∧
    (∀ obj, typeIsDbOrTx (.Named obj) = false) ∧
    (∀ u, typeIsDbOrTx (.Pointer (.Pointer u)) = false) ∧
    (∀ text, typeIsDbOrTx (.Pointer (.Unnamed text)) = false) ∧
    typeIsDbOrTx (.Pointer (.Named none)) = false ∧
    (∀ name, typeIsDbOrTx (.Pointer (.Named (some ⟨none, name⟩))) = false) ∧
    (∀ path name, path ≠ "database/sql" →
      typeIsDbOrTx (.Pointer (.Named (some ⟨some path, name⟩))) = false) := by
  refine ⟨?_, fun _ => rfl, fun _ => rfl, fun _ => rfl, rfl, fun _ => rfl, ?_⟩
  · constructor
    · intro h
      cases t with
      | Pointer elem =>
        cases elem with
        | Named obj =>
          cases obj with
          | none => simp [typeIsDbOrTx] at h
          | some o =>
            obtain ⟨pkg, name⟩ := o
            cases pkg with
            | none => simp [typeIsDbOrTx] at h
            | some path =>
              simp only [typeIsDbOrTx] at h
              by_cases hp : path = "database/sql"
              · subst hp
                simp at h
                exact ⟨name, h, rfl⟩
              · simp [hp] at h
        | Pointer u => simp [typeIsDbOrTx] at h
        | Unnamed text => simp [typeIsDbOrTx] at h
      | Named obj => simp [typeIsDbOrTx] at h
      | Unnamed text => simp [typeIsDbOrTx] at h
    · rintro ⟨name, hname, rfl⟩
      rcases hname with rfl | rfl <;> decide
  · intro path name hp
    simp [typeIsDbOrTx, hp]

theorem sqlViolation_eq_some (ctx : Context) (X : Node) (Sel : Ident) (Args : List Node)
    (v : Violation) (h : sqlViolation? ctx (X, Sel, Args) = some v) :
    ∃ info t c, ctx.TypeInfo = some info ∧ info.TypeOf X = some t ∧ typeIsDbOrTx t = true ∧
      contextOverload Sel.Name = some c ∧
      v = ⟨ctx.Filename,
        (ctx.FileSet (Node.Pos (.CallExpr (.SelectorExpr X Sel) Args))).Line,
        (ctx.FileSet (Node.Pos (.CallExpr (.SelectorExpr X Sel) Args))).Column,
        "sql-context-required",
        "Use " ++ c ++ " instead of " ++ Sel.Name ++
          " (called on " ++ getReceiverName X ++ " of type " ++ t.String ++ ")"⟩ := by
  unfold sqlViolation? at h
  cases hc : contextOverload Sel.Name with
  | none => simp [hc] at h
  | some c =>
    cases hT : ctx.TypeInfo with
    | none => simp [hc, hT] at h
    | some info =>
      cases hX : info.TypeOf X with
      | none => simp [hc, hT, hX] at h
      | some t =>
        cases ht : typeIsDbOrTx t with
        | false => simp [hc, hT, hX, ht] at h
        | true =>
          simp only [hc, hT, hX, ht, if_true, Option.some.injEq] at h
          exact ⟨info, t, c, rfl, hX, ht, rfl, h.symm⟩

/-- C13: `SqlContextRule.Check` is total; without a type table it returns
nothing; every method call is judged on its own, in source order; a call is
reported only when the table resolves its receiver to a type that satisfies
`typeIsDbOrTx`, so a receiver without entry, or with another type, gives no
violation for that call. -/
theorem SqlContextRule_Check_needs_type (ctx : Context) :
    (ctx.TypeInfo = none → SqlContextRule.Check ctx = []) ∧
    SqlContextRule.Check ctx = (sqlCallsOf ctx.File.toNode).filterMap (sqlViolation? ctx) ∧
    (∀ X Sel Args v, sqlViolation? ctx (X, Sel, Args) = some v →
      ∃ info t, ctx.TypeInfo = some info ∧ info.TypeOf X = some t ∧ typeIsDbOrTx t = true) ∧
    (∀ info X Sel Args, ctx.TypeInfo = some info → info.TypeOf X = none →
      sqlViolation? ctx (X, Sel, Args) = none) ∧
    (∀ info X Sel Args t, ctx.TypeInfo = some info → info.TypeOf X = some t →
      typeIsDbOrTx t = false → sqlViolation? ctx (X, Sel, Args) = none) := by
  refine ⟨?_, SqlContextRule_Check_eq ctx, ?_, ?_, ?_⟩
  · intro hnone
    rw [SqlContextRule_Check_eq, List.filterMap_eq_nil_iff]
    intro c _
    unfold sqlViolation?
    rw [hnone]
    cases contextOverload c.2.1.Name <;> rfl
  · intro X Sel Args v hv
    obtain ⟨info, t, _, h1, h2, h3, _⟩ := sqlViolation_eq_some ctx X Sel Args v hv
    exact ⟨info, t, h1, h2, h3⟩
  · intro info X Sel Args hT hX
    unfold sqlViolation?
    cases contextOverload Sel.Name <;> simp [hT, hX]
  · intro info X Sel Args t hT hX ht
    unfold sqlViolation?
    cases contextOverload Sel.Name <;> simp [hT, hX, ht]

/-- C13 on the file of `TestSqlContextRule_DetectsBegin` without a type table,
and on `examples/not_sql.go`, where `db.Exec` is called on a `*MyExecutor`. -/
theorem SqlContextRule_Check_needs_type_witness :
    SqlContextRule.Check beginNoTypesCtx = [] ∧
    (sqlCallsOf notSqlCtx.File.toNode).map (fun c => c.2.1.Name) = ["Exec"] ∧
    SqlContextRule.Check notSqlCtx = [] :=
  ⟨(SqlContextRule_Check_needs_type beginNoTypesCtx).1 rfl,
   by decide,
   by rw [(SqlContextRule_Check_needs_type notSqlCtx).2.1]; decide⟩

/-- C14: `getReceiverName` gives the name of a plain identifier, the final
member name of a member access, the callee's name followed by "()" for a call
of an identifier, the callee's final member name followed by "()" for a call
of a member access, and "receiver" for every other expression. -/
theorem getReceiverName_spec :
    (∀ x, getReceiverName (.Ident x) = x.Name) ∧
    (∀ X Sel, getReceiverName (.SelectorExpr X Sel) = Sel.Name) ∧
    (∀ f Args, getReceiverName (.CallExpr (.Ident f) Args) = f.Name ++ "()") ∧
    (∀ X Sel Args, getReceiverName (.CallExpr (.SelectorExpr X Sel) Args) = Sel.Name ++ "()") ∧
    (∀ e, (∀ x, e ≠ .Ident x) → (∀ X Sel, e ≠ .SelectorExpr X Sel) →
      (∀ f Args, e ≠ .CallExpr (.Ident f) Args) →
      (∀ X Sel Args, e ≠ .CallExpr (.SelectorExpr X Sel) Args) →
      getReceiverName e = "receiver") := by
  refine ⟨fun _ => rfl, fun _ _ => rfl, fun _ _ => rfl, fun _ _ _ => rfl, ?_⟩
  intro e h1 h2 h3 h4
  cases e with
  | Ident x => exact absurd rfl (h1 x)
  | SelectorExpr X Sel => exact absurd rfl (h2 X Sel)
  | CallExpr Fun Args =>
    cases Fun with
    | Ident f => exact absurd rfl (h3 f Args)
    | SelectorExpr X Sel => exact absurd rfl (h4 X Sel Args)
    | _ => rfl
  | _ => rfl

/-- C14 on the receivers `db`, `s.db`, `getDB()`, `s.conn()`, `(db)` and
`getDB()()`. -/
theorem getReceiverName_spec_witness :
    getReceiverName (.Ident ⟨1, "db"⟩) = "db" ∧
    getReceiverName (.SelectorExpr (.Ident ⟨1, "s"⟩) ⟨3, "db"⟩) = "db" ∧
    getReceiverName (.CallExpr (.Ident ⟨1, "getDB"⟩) []) = "getDB()" ∧
    getReceiverName (.CallExpr (.SelectorExpr (.Ident ⟨1, "s"⟩) ⟨3, "conn"⟩) []) = "conn()" ∧
    getReceiverName (.Other 1 [.Ident ⟨2, "db"⟩]) = "receiver" ∧
    getReceiverName (.CallExpr (.CallExpr (.Ident ⟨1, "getDB"⟩) []) []) = "receiver" :=
  ⟨getReceiverName_spec.1 _, getReceiverName_spec.2.1 _ _, getReceiverName_spec.2.2.1 _ _,
   getReceiverName_spec.2.2.2.1 _ _ _,
   getReceiverName_spec.2.2.2.2 _ (by simp) (by simp) (by simp) (by simp),
   getReceiverName_spec.2.2.2.2 _ (by simp) (by simp) (by simp) (by simp)⟩

/-- C15: every violation `SqlContextRule.Check` returns comes from a method
call `X.m(...)` of the file whose receiver the type table resolves to a type
`t`, and its message is "Use " s " instead of " m " (called on "
`getReceiverName X` " of type " `t.String` ")", where `(m, s)` is one of the
six pairs Exec/ExecContext, Query/QueryContext, QueryRow/QueryRowContext,
Prepare/PrepareContext, Begin/BeginTx, Ping/PingContext. -/
theorem SqlContextRule_Check_message (ctx : Context) (v : Violation)
    (hv : v ∈ SqlContextRule.Check ctx) :
    ∃ X Sel Args info t s, (X, Sel, Args) ∈ sqlCallsOf ctx.File.toNode ∧
      ctx.TypeInfo = some info ∧ info.TypeOf X = some t ∧
      (Sel.Name, s) ∈ [("Exec", "ExecContext"), ("Query", "QueryContext"),
        ("QueryRow", "QueryRowContext"), ("Prepare", "PrepareContext"), ("Begin", "BeginTx"),
        ("Ping", "PingContext")] ∧
      v.Message = "Use " ++ s ++ " instead of " ++ Sel.Name ++
        " (called on " ++ getReceiverName X ++ " of type " ++ t.String ++ ")" := by
  rw [SqlContextRule_Check_eq, List.mem_filterMap] at hv
  obtain ⟨⟨X, Sel, Args⟩, hmem, hsome⟩ := hv
  obtain ⟨info, t, c, h1, h2, _, h4, h5⟩ := sqlViolation_eq_some ctx X Sel Args v hsome
  refine ⟨X, Sel, Args, info, t, c, hmem, h1, h2, contextOverload_eq_some _ _ h4, ?_⟩
  rw [h5]

/-- C15 on the file of `TestSqlContextRule_DetectsBegin`: the one violation
names `BeginTx`. -/
theorem SqlContextRule_Check_message_witness :
    SqlContextRule.Check beginCtx =
      [⟨"test.go", 6, 13, "sql-context-required",
        "Use BeginTx instead of Begin (called on db of type *database/sql.DB)"⟩] ∧
    ∃ X Sel Args info t s, (X, Sel, Args) ∈ sqlCallsOf beginCtx.File.toNode ∧
      beginCtx.TypeInfo = some info ∧ info.TypeOf X = some t ∧
      (Sel.Name, s) ∈ [("Exec", "ExecContext"), ("Query", "QueryContext"),
        ("QueryRow", "QueryRowContext"), ("Prepare", "PrepareContext"), ("Begin", "BeginTx"),
        ("Ping", "PingContext")] ∧
      (⟨"test.go", 6, 13, "sql-context-required",
        "Use BeginTx instead of Begin (called on db of type *database/sql.DB)"⟩ :
          Violation).Message =
        "Use " ++ s ++ " instead of " ++ Sel.Name ++
          " (called on " ++ getReceiverName X ++ " of type " ++ t.String ++ ")" :=
  have hcheck : SqlContextRule.Check beginCtx =
      [⟨"test.go", 6, 13, "sql-context-required",
        "Use BeginTx instead of Begin (called on db of type *database/sql.DB)"⟩] := by
    rw [SqlContextRule_Check_eq]; decide
  ⟨hcheck, SqlContextRule_Check_message beginCtx _ (by rw [hcheck]; exact List.mem_singleton.2 rfl)⟩

/-! ## Rule tag, file and position of every violation -/

theorem mem_importSpecsOf (n : Node) (s : ImportSpec) :
    s ∈ importSpecsOf n ↔ Node.ImportSpec s ∈ preorder n := by
  unfold importSpecsOf
  rw [List.mem_filterMap]
  constructor
  · rintro ⟨m, hm, hs⟩
    cases m <;> simp [asImportSpec?] at hs
    subst hs
    exact hm
  · intro h
    exact ⟨_, h, rfl⟩

theorem mem_memberAccessesOf (n : Node) (a : Ident × Ident) :
    a ∈ memberAccessesOf n ↔ Node.SelectorExpr (.Ident a.1) a.2 ∈ preorder n := by
  unfold memberAccessesOf
  rw [List.mem_filterMap]
  constructor
  · rintro ⟨m, hm, hs⟩
    cases m with
    | SelectorExpr X Sel =>
      cases X <;> simp [asMemberAccess?] at hs
      subst hs
      exact hm
    | _ => simp [asMemberAccess?] at hs
  · intro h
    exact ⟨_, h, rfl⟩

theorem mem_sqlCallsOf (n : Node) (c : Node × Ident × List Node) :
    c ∈ sqlCallsOf n ↔ Node.CallExpr (.SelectorExpr c.1 c.2.1) c.2.2 ∈ preorder n := by
  unfold sqlCallsOf
  rw [List.mem_filterMap]
  constructor
  · rintro ⟨m, hm, hs⟩
    cases m with
    | CallExpr Fun Args =>
      cases Fun <;> simp [asSqlCall?] at hs
      subst hs
      exact hm
    | _ => simp [asSqlCall?] at hs
  · intro h
    exact ⟨_, h, rfl⟩

theorem gokitViolation_eq_some (ctx : Context) (s : ImportSpec) (v : Violation)
    (h : gokitViolation? ctx s = some v) :
    v = ⟨ctx.Filename, (ctx.FileSet s.Pos).Line, (ctx.FileSet s.Pos).Column, "gokit-usage",
      "File imports go-kit package: " ++ s.pathText⟩ := by
  unfold gokitViolation? at h
  cases hP : s.Path with
  | none => simp [hP] at h
  | some lit =>
    simp only [hP] at h
    split at h
    · simp only [Option.some.injEq] at h
      simp [← h, ImportSpec.pathText, hP]
    · simp at h

theorem testifyImportViolation_eq_some (ctx : Context) (s : ImportSpec) (v : Violation)
    (h : testifyImportViolation? ctx s = some v) :
    v = ⟨ctx.Filename, (ctx.FileSet s.Pos).Line, (ctx.FileSet s.Pos).Column, "testify-usage",
      "Test file imports testify package: " ++ s.pathText⟩ := by
  unfold testifyImportViolation? at h
  cases hP : s.Path with
  | none => simp [hP] at h
  | some lit =>
    simp only [hP] at h
    split at h
    · simp only [Option.some.injEq] at h
      simp [← h, ImportSpec.pathText, hP]
    · simp at h

theorem mem_testifyUsageViolations (ctx : Context) (x Sel : Ident) (v : Violation)
    (h : v ∈ testifyUsageViolations ctx x Sel) :
    v = ⟨ctx.Filename, (ctx.FileSet x.NamePos).Line, (ctx.FileSet x.NamePos).Column,
      "testify-usage", "Test code calls testify method: " ++ x.Name ++ "." ++ Sel.Name⟩ := by
  unfold testifyUsageViolations at h
  split at h
  · exact (List.mem_replicate.1 h).2
  · simp at h

theorem mem_TestifyRule_Check (ctx : Context) (v : Violation) (h : v ∈ TestifyRule.Check ctx) :
    (∃ a ∈ memberAccessesOf ctx.File.toNode, v ∈ testifyUsageViolations ctx a.1 a.2) ∨
    (∃ s ∈ importSpecsOf ctx.File.toNode, testifyImportViolation? ctx s = some v) := by
  unfold TestifyRule.Check at h
  split at h
  · simp at h
  · rw [List.mem_append, usagePhase_eq, importPhase_eq, List.mem_flatMap,
      List.mem_filterMap] at h
    exact h

theorem flatMap_filter_of_nil {α β : Type} (p : α → Bool) (g : α → List β) (l : List α)
    (h : ∀ a, p a = false → g a = []) : l.flatMap g = (l.filter p).flatMap g := by
  induction l with
  | nil => rfl
  | cons a l ih =>
    cases hp : p a with
    | true => simp [List.flatMap_cons, List.filter_cons, hp, ih]
    | false => simp [List.flatMap_cons, List.filter_cons, hp, ih, h a hp]

/-- C16: for each of the three registered rules and every context, every
violation `Check` returns carries the rule's name and the context's filename;
and in a test-scoped file with exactly one testify import, exactly one member
access on a recognized identifier, and exactly one import binding that
identifier, `TestifyRule.Check` returns exactly two violations, the usage and
the one for the import, both tagged "testify-usage". -/
theorem Check_rule_and_file (ctx : Context) :
    (∀ rule ∈ mainRegistry, ∀ v ∈ rule.Check ctx,
      v.Rule = rule.Name ∧ v.File = ctx.Filename) ∧
    (HasSuffix ctx.Filename "_test.go" = true →
      ∀ s x Sel,
        (importSpecsOf ctx.File.toNode).filter
          (fun t => t.pathStartsWith "github.com/stretchr/testify") = [s] →
        (memberAccessesOf ctx.File.toNode).filter (fun a => testifyPkgs a.1.Name) = [(x, Sel)] →
        (ctx.File.Imports.countP fun imp => testifyBinds imp x.Name) = 1 →
        TestifyRule.Check ctx =
          [⟨ctx.Filename, (ctx.FileSet x.NamePos).Line, (ctx.FileSet x.NamePos).Column,
             "testify-usage", "Test code calls testify method: " ++ x.Name ++ "." ++ Sel.Name⟩,
           ⟨ctx.Filename, (ctx.FileSet s.Pos).Line, (ctx.FileSet s.Pos).Column,
             "testify-usage", "Test file imports testify package: " ++ s.pathText⟩]) := by
  constructor
  · intro rule hrule v hv
    have hreg : mainRegistry = [TestifyRule, SqlContextRule, GokitRule] := rfl
    rw [hreg] at hrule
    simp only [List.mem_cons, List.mem_singleton, List.not_mem_nil, or_false] at hrule
    rcases hrule with rfl | rfl | rfl
    · rcases mem_TestifyRule_Check ctx v hv with ⟨a, _, ha⟩ | ⟨s, _, hs⟩
      · rw [mem_testifyUsageViolations ctx a.1 a.2 v ha]
        exact ⟨rfl, rfl⟩
      · rw [testifyImportViolation_eq_some ctx s v hs]
        exact ⟨rfl, rfl⟩
    · have hv2 : v ∈ SqlContextRule.Check ctx := hv
      rw [SqlContextRule_Check_eq, List.mem_filterMap] at hv2
      obtain ⟨⟨X, Sel, Args⟩, _, hsome⟩ := hv2
      obtain ⟨_, _, _, _, _, _, _, h5⟩ := sqlViolation_eq_some ctx X Sel Args v hsome
      rw [h5]
      exact ⟨rfl, rfl⟩
    · have hv2 : v ∈ GokitRule.Check ctx := hv
      rw [GokitRule_Check_eq, List.mem_filterMap] at hv2
      obtain ⟨s, _, hs⟩ := hv2
      rw [gokitViolation_eq_some ctx s v hs]
      exact ⟨rfl, rfl⟩
  · intro hfile s x Sel himp hacc hbind
    have husage : TestifyRule.usagePhase ctx =
        [⟨ctx.Filename, (ctx.FileSet x.NamePos).Line, (ctx.FileSet x.NamePos).Column,
          "testify-usage", "Test code calls testify method: " ++ x.Name ++ "." ++ Sel.Name⟩] := by
      rw [usagePhase_eq,
        flatMap_filter_of_nil (fun a : Ident × Ident => testifyPkgs a.1.Name)
          (fun a : Ident × Ident => testifyUsageViolations ctx a.1 a.2) _
          (fun a ha => by simp only [testifyUsageViolations]; simp [ha]),
        hacc]
      have hx : testifyPkgs x.Name = true := by
        have hmem : (x, Sel) ∈ (memberAccessesOf ctx.File.toNode).filter
            (fun a => testifyPkgs a.1.Name) := by
          rw [hacc]
          exact List.mem_singleton.2 rfl
        exact (List.mem_filter.1 hmem).2
      simp [testifyUsageViolations, hx, hbind]
    have himport : TestifyRule.importPhase ctx =
        [⟨ctx.Filename, (ctx.FileSet s.Pos).Line, (ctx.FileSet s.Pos).Column,
          "testify-usage", "Test file imports testify package: " ++ s.pathText⟩] := by
      rw [importPhase_eq, testifyImport_filterMap, himp]
      rfl
    simp [TestifyRule.Check, hfile, husage, himport]

/-- C16 on the file of `TestTestifyRule_DetectsImports`: two violations, both
tagged "testify-usage". -/
theorem Check_rule_and_file_witness :
    TestifyRule.Check detectsImportsCtx =
      [⟨"test_test.go", 9, 2, "testify-usage", "Test code calls testify method: assert.Equal"⟩,
       ⟨"test_test.go", 5, 2, "testify-usage",
         "Test file imports testify package: github.com/stretchr/testify/assert"⟩] :=
  (Check_rule_and_file detectsImportsCtx).2 (by decide)
    (quotedImport 502 "github.com/stretchr/testify/assert") ⟨902, "assert"⟩ ⟨909, "Equal"⟩
    (by decide) (by decide) (by decide)

/-- C17: the line and column of every violation are the position-index entry
of the start of a node of the file's tree that produced it: an import spec for
`GokitRule.Check` and for the import phase of `TestifyRule.Check`, a member
access `x.Sel` for its usage phase, and a whole call expression `X.Sel(Args)`
for `SqlContextRule.Check`. -/
theorem Check_position (ctx : Context) :
    (∀ v ∈ GokitRule.Check ctx, ∃ s, Node.ImportSpec s ∈ preorder ctx.File.toNode ∧
      gokitViolation? ctx s = some v ∧
      v.Line = (ctx.FileSet (Node.Pos (.ImportSpec s))).Line ∧
      v.Column = (ctx.FileSet (Node.Pos (.ImportSpec s))).Column) ∧
    (∀ v ∈ TestifyRule.Check ctx,
      (∃ s, Node.ImportSpec s ∈ preorder ctx.File.toNode ∧
        testifyImportViolation? ctx s = some v ∧
        v.Line = (ctx.FileSet (Node.Pos (.ImportSpec s))).Line ∧
        v.Column = (ctx.FileSet (Node.Pos (.ImportSpec s))).Column) ∨
      (∃ x Sel, Node.SelectorExpr (.Ident x) Sel ∈ preorder ctx.File.toNode ∧
        v ∈ testifyUsageViolations ctx x Sel ∧
        v.Line = (ctx.FileSet (Node.Pos (.SelectorExpr (.Ident x) Sel))).Line ∧
        v.Column = (ctx.FileSet (Node.Pos (.SelectorExpr (.Ident x) Sel))).Column)) ∧
    (∀ v ∈ SqlContextRule.Check ctx, ∃ X Sel Args,
      Node.CallExpr (.SelectorExpr X Sel) Args ∈ preorder ctx.File.toNode ∧
      sqlViolation? ctx (X, Sel, Args) = some v ∧
      v.Line = (ctx.FileSet (Node.Pos (.CallExpr (.SelectorExpr X Sel) Args))).Line ∧
      v.Column = (ctx.FileSet (Node.Pos (.CallExpr (.SelectorExpr X Sel) Args))).Column) := by
  refine ⟨?_, ?_, ?_⟩
  · intro v hv
    rw [GokitRule_Check_eq, List.mem_filterMap] at hv
    obtain ⟨s, hmem, hs⟩ := hv
    refine ⟨s, (mem_importSpecsOf _ s).1 hmem, hs, ?_, ?_⟩ <;>
      rw [gokitViolation_eq_some ctx s v hs] <;> rfl
  · intro v hv
    rcases mem_TestifyRule_Check ctx v hv with ⟨a, hmem, ha⟩ | ⟨s, hmem, hs⟩
    · right
      refine ⟨a.1, a.2, (mem_memberAccessesOf _ a).1 hmem, ha, ?_, ?_⟩ <;>
        rw [mem_testifyUsageViolations ctx a.1 a.2 v ha] <;> rfl
    · left
      refine ⟨s, (mem_importSpecsOf _ s).1 hmem, hs, ?_, ?_⟩ <;>
        rw [testifyImportViolation_eq_some ctx s v hs] <;> rfl
  · intro v hv
    rw [SqlContextRule_Check_eq, List.mem_filterMap] at hv
    obtain ⟨⟨X, Sel, Args⟩, hmem, hsome⟩ := hv
    obtain ⟨_, _, _, _, _, _, _, h5⟩ := sqlViolation_eq_some ctx X Sel Args v hsome
    refine ⟨X, Sel, Args, (mem_sqlCallsOf _ (X, Sel, Args)).1 hmem, hsome, ?_, ?_⟩ <;>
      rw [h5]

/-- C17 on the file of `TestSqlContextRule_DetectsBegin`: the violation of
`tx, err := db.Begin()` is placed at column 13, where the call expression
starts, not at column 16, where the selector `Begin` stands. -/
theorem Check_position_witness :
    sqlCallsOf beginCtx.File.toNode =
      [(.Ident ⟨613, "db"⟩, ⟨616, "Begin"⟩, []), (.Ident ⟨1002, "tx"⟩, ⟨1005, "Commit"⟩, [])] ∧
    ∃ X Sel Args, Node.CallExpr (.SelectorExpr X Sel) Args ∈ preorder beginCtx.File.toNode ∧
      sqlViolation? beginCtx (X, Sel, Args) =
        some ⟨"test.go", 6, 13, "sql-context-required",
          "Use BeginTx instead of Begin (called on db of type *database/sql.DB)"⟩ ∧
      (6 : Nat) = (beginCtx.FileSet (Node.Pos (.CallExpr (.SelectorExpr X Sel) Args))).Line ∧
      (13 : Nat) = (beginCtx.FileSet (Node.Pos (.CallExpr (.SelectorExpr X Sel) Args))).Column :=
  ⟨rfl,
   (Check_position beginCtx).2.2
     ⟨"test.go", 6, 13, "sql-context-required",
       "Use BeginTx instead of Begin (called on db of type *database/sql.DB)"⟩
     (by rw [SqlContextRule_Check_eq]; decide)⟩

/-! ## The analyzer -/

theorem foldl_Check_eq_flatMap (ctx : Context) (rules : List Rule) :
    rules.foldl (fun violations rule => violations ++ rule.Check ctx) [] =
      rules.flatMap (fun rule => rule.Check ctx) := by
  rw [foldl_append_flatMap (fun rule : Rule => rule.Check ctx) _ (fun _ _ => rfl)]
  simp

theorem analyzeFile_ok (fe : Frontend) (registry : Registry) (filename : String)
    (fset : Nat → Position) (node : File) (h : fe.ParseFile filename = .ok (fset, node)) :
    analyzeFile fe registry filename =
      .ok (registry.flatMap fun rule =>
        rule.Check ⟨fset, node, filename, some (fe.TypeCheck fset node).1⟩) := by
  unfold analyzeFile
  rw [h]
  simp only [Registry.GetRules, computeTypeInfo]
  rw [foldl_Check_eq_flatMap]

/-- C18: `analyzeFile` returns an error, and no violations, exactly when the
file fails to parse; when it parses, the result is the concatenation, in
registry order, of every rule's `Check` on the one context made of the file's
position index, tree, filename and its own type table, whatever errors the
type checker reported; and `Analyze` on a path that is a file is `analyzeFile`. -/
theorem analyzeFile_spec (fe : Frontend) (registry : Registry) (filename : String) :
    (∀ err, fe.ParseFile filename = .error err →
      analyzeFile fe registry filename = .error ("failed to parse file: " ++ err)) ∧
    (∀ fset node, fe.ParseFile filename = .ok (fset, node) →
      analyzeFile fe registry filename =
        .ok (registry.flatMap fun rule =>
          rule.Check ⟨fset, node, filename, some (fe.TypeCheck fset node).1⟩)) ∧
    ((∃ msg, analyzeFile fe registry filename = .error msg) ↔
      ∃ err, fe.ParseFile filename = .error err) ∧
    (∀ errs : List String,
      analyzeFile { fe with TypeCheck := fun fset node => ((fe.TypeCheck fset node).1, errs) }
        registry filename = analyzeFile fe registry filename) ∧
    (∀ name sched, fe.Stat filename = .ok (.file name) →
      Analyze fe registry filename sched = Outcome.ofExcept (analyzeFile fe registry filename)) := by
  refine ⟨?_, analyzeFile_ok fe registry filename, ?_, ?_, ?_⟩
  · intro err h
    unfold analyzeFile
    rw [h]
  · constructor
    · rintro ⟨msg, hmsg⟩
      cases hp : fe.ParseFile filename with
      | error err => exact ⟨err, rfl⟩
      | ok r =>
        obtain ⟨fset, node⟩ := r
        rw [analyzeFile_ok fe registry filename fset node hp] at hmsg
        cases hmsg
    · rintro ⟨err, herr⟩
      refine ⟨"failed to parse file: " ++ err, ?_⟩
      unfold analyzeFile
      rw [herr]
  · intro errs
    unfold analyzeFile computeTypeInfo
    rfl
  · intro name sched h
    unfold Analyze
    rw [h]
    rfl

/-- C18 on `proj/good.go` and `proj/broken.go`: the first is analysed although
the type checker reports an error, the second fails. -/
theorem analyzeFile_spec_witness :
    ((scenarioD (.error "no go.mod")).TypeCheck linesAndColumns goodKitFile).2 ≠ [] ∧
    Analyze (scenarioD (.error "no go.mod")) mainRegistry "proj/good.go" [] =
      .ok [⟨"proj/good.go", 3, 8, "gokit-usage",
        "File imports go-kit package: github.com/go-kit/kit/log"⟩] ∧
    Analyze (scenarioD (.error "no go.mod")) mainRegistry "proj/broken.go" [] =
      .err "failed to parse file: 1:1: expected 'package', found 'EOF'" :=
  ⟨by decide,
   by
    rw [(analyzeFile_spec (scenarioD (.error "no go.mod")) mainRegistry "proj/good.go").2.2.2.2
      "good.go" [] rfl]
    decide,
   by
    rw [(analyzeFile_spec (scenarioD (.error "no go.mod")) mainRegistry
      "proj/broken.go").2.2.2.2 "broken.go" [] rfl]
    decide⟩

/-- C19: when `packages.Load` returns an error or no package,
`analyzeDirectory` returns what `analyzeDirectoryFallback` returns for the same
directory; the load error itself is not reported. -/
theorem analyzeDirectory_fallback (fe : Frontend) (registry : Registry) (dir : String)
    (sched : List Nat) (h : (∃ err, fe.Load dir = .error err) ∨ fe.Load dir = .ok []) :
    analyzeDirectory fe registry dir sched =
      Outcome.ofExcept (analyzeDirectoryFallback fe registry dir) := by
  unfold analyzeDirectory
  rcases h with ⟨err, herr⟩ | hnil
  · rw [herr]
  · rw [hnil]
    rfl

/-- C19 on the directory `clean`, once with a failing load and once with an
empty one: both give the one violation of the per-file walk. -/
theorem analyzeDirectory_fallback_witness :
    analyzeDirectoryFallback (cleanDir (.error "no go.mod")) mainRegistry "clean" =
      .ok [⟨"clean/good.go", 3, 8, "gokit-usage",
        "File imports go-kit package: github.com/go-kit/kit/log"⟩] ∧
    analyzeDirectory (cleanDir (.error "no go.mod")) mainRegistry "clean" [] =
      .ok [⟨"clean/good.go", 3, 8, "gokit-usage",
        "File imports go-kit package: github.com/go-kit/kit/log"⟩] ∧
    analyzeDirectory (cleanDir (.ok [])) mainRegistry "clean" [] =
      .ok [⟨"clean/good.go", 3, 8, "gokit-usage",
        "File imports go-kit package: github.com/go-kit/kit/log"⟩] :=
  ⟨by decide,
   by
    rw [analyzeDirectory_fallback (cleanDir (.error "no go.mod")) mainRegistry "clean" []
      (Or.inl ⟨"no go.mod", rfl⟩)]
    decide,
   by
    rw [analyzeDirectory_fallback (cleanDir (.ok [])) mainRegistry "clean" [] (Or.inr rfl)]
    decide⟩

/-- C20, on the directory `proj` (`broken.go` does not parse, `good.go` holds
a go-kit import): when `packages.Load` fails, the per-file walk stops at
`broken.go` and `Analyze` returns its error and no violation; when the load
works and reports the package with its parse error, `Analyze` skips
`broken.go` and returns the violation of `good.go`. -/
theorem fallback_fails_on_unparsable_file :
    Analyze (scenarioD (.error "no go.mod")) mainRegistry "proj" [] =
      .err ("failed to analyze proj/broken.go: " ++
        "failed to parse file: 1:1: expected 'package', found 'EOF'") ∧
    Analyze (scenarioD (.ok [brokenPackage])) mainRegistry "proj" [] =
      .ok [⟨"proj/good.go", 3, 8, "gokit-usage",
        "File imports go-kit package: github.com/go-kit/kit/log"⟩] := by
  decide

/-! ## First match, role tables, type information, raw literals -/

theorem GetRule_eq_some_iff (r : Registry) (n : String) (rule : Rule) :
    Registry.GetRule r n = some rule ↔
      ∃ pre post, r = pre ++ rule :: post ∧ rule.Name = n ∧ ∀ x ∈ pre, x.Name ≠ n := by
  induction r with
  | nil => simp [Registry.GetRule]
  | cons first rest ih =>
    by_cases hn : first.Name = n
    · simp only [Registry.GetRule, hn, beq_self_eq_true, if_true, Option.some.injEq]
      constructor
      · rintro rfl
        exact ⟨[], rest, rfl, hn, by simp⟩
      · rintro ⟨pre, post, hr, _, hpre⟩
        cases pre with
        | nil =>
          simp only [List.nil_append, List.cons.injEq] at hr
          exact hr.1
        | cons p pre =>
          simp only [List.cons_append, List.cons.injEq] at hr
          exact absurd (hr.1 ▸ hn) (hpre p (List.mem_cons_self _ _))
    · have hne : (first.Name == n) = false := by simpa using hn
      simp only [Registry.GetRule, hne, Bool.false_eq_true, if_false]
      rw [ih]
      constructor
      · rintro ⟨pre, post, hr, hname, hpre⟩
        refine ⟨first :: pre, post, by rw [hr]; rfl, hname, ?_⟩
        intro x hx
        rcases List.mem_cons.1 hx with rfl | hx
        · exact hn
        · exact hpre x hx
      · rintro ⟨pre, post, hr, hname, hpre⟩
        cases pre with
        | nil =>
          simp only [List.nil_append, List.cons.injEq] at hr
          exact absurd (hr.1 ▸ hname) hn
        | cons p pre =>
          simp only [List.cons_append, List.cons.injEq] at hr
          exact ⟨pre, post, hr.2, hname, fun x hx => hpre x (List.mem_cons_of_mem _ hx)⟩

/-- C29: `GetRule r n` is the first rule in registration order whose name is
`n` (every rule before it has another name), and is nil exactly when no
registered rule has that name; so when two rules share the name `n`, `GetRule`
returns the earlier one, and every rule named `n` that `Filter` returns is the
earlier one: the later one is never reached by name. -/
theorem GetRule_first (r : Registry) (n : String) :
    (∀ rule, Registry.GetRule r n = some rule ↔
      ∃ pre post, r = pre ++ rule :: post ∧ rule.Name = n ∧ ∀ x ∈ pre, x.Name ≠ n) ∧
    (Registry.GetRule r n = none ↔ ∀ rule ∈ r, rule.Name ≠ n) ∧
    (∀ pre a mid b post, r = pre ++ a :: (mid ++ b :: post) → a.Name = n → b.Name = n →
      (∀ x ∈ pre, x.Name ≠ n) →
      Registry.GetRule r n = some a ∧
      ∀ ns, ∀ rule ∈ Registry.Filter r ns, rule.Name = n → rule = a) := by
  refine ⟨GetRule_eq_some_iff r n, GetRule_eq_none r n, ?_⟩
  intro pre a mid b post hr ha _ hpre
  have hget : Registry.GetRule r n = some a :=
    (GetRule_eq_some_iff r n a).2 ⟨pre, mid ++ b :: post, hr, ha, hpre⟩
  refine ⟨hget, ?_⟩
  intro ns rule hrule hname
  rw [Filter_eq_filterMap, List.mem_filterMap] at hrule
  obtain ⟨m, _, hm⟩ := hrule
  have hmn : m = n := by
    rw [← (GetRule_eq_some r m rule hm).2]
    exact hname
  rw [hmn, hget] at hm
  exact (Option.some.inj hm).symm

/-- C29 on the registry holding `dupFirst` and then `dupSecond`, both named
"dup": lookup and `Filter` give `dupFirst`. -/
theorem GetRule_first_witness :
    Registry.GetRule [dupFirst, dupSecond] "dup" = some dupFirst ∧
    ∀ rule ∈ Registry.Filter [dupFirst, dupSecond] ["dup", "dup"], rule.Name = "dup" →
      rule = dupFirst :=
  ⟨((GetRule_first [dupFirst, dupSecond] "dup").2.2 [] dupFirst [] dupSecond [] rfl rfl rfl
      (by simp)).1,
   ((GetRule_first [dupFirst, dupSecond] "dup").2.2 [] dupFirst [] dupSecond [] rfl rfl rfl
      (by simp)).2 ["dup", "dup"]⟩

/-- C25 (as stated, refuted): `tx.Begin()` on a receiver resolved to `*sql.Tx`
is reported, although "Begin" is not one of the four transaction-role methods. -/
theorem SqlContextRule_flags_Begin_on_Tx :
    "Begin" ∉ ["Exec", "Query", "QueryRow", "Prepare"] ∧
    SqlContextRule.Check txBeginCtx =
      [⟨"test.go", 6, 2, "sql-context-required",
        "Use BeginTx instead of Begin (called on tx of type *database/sql.Tx)"⟩] := by
  refine ⟨by decide, ?_⟩
  rw [SqlContextRule_Check_eq]
  decide

/-- C25 (amended): `SqlContextRule.Check` does not match the role tables
against the receiver's role; with a type table present, a call whose receiver
resolves to `*sql.Tx` is reported exactly when its method name is in either
table, that is one of Exec, Query, QueryRow, Prepare, Begin, Ping. -/
theorem SqlContextRule_Check_Tx (ctx : Context) (info : Info)
    (hinfo : ctx.TypeInfo = some info) :
    SqlContextRule.Check ctx = (sqlCallsOf ctx.File.toNode).filterMap (sqlViolation? ctx) ∧
    ∀ (X : Node) (Sel : Ident) (Args : List Node),
      info.TypeOf X = some (.Pointer (.Named (some ⟨some "database/sql", "Tx"⟩))) →
      ((sqlViolation? ctx (X, Sel, Args)).isSome = true ↔
        Sel.Name ∈ ["Exec", "Query", "QueryRow", "Prepare", "Begin", "Ping"]) := by
  refine ⟨SqlContextRule_Check_eq ctx, ?_⟩
  intro X Sel Args hX
  have htx : typeIsDbOrTx (.Pointer (.Named (some ⟨some "database/sql", "Tx"⟩))) = true := by
    decide
  constructor
  · intro hsome
    cases hv : sqlViolation? ctx (X, Sel, Args) with
    | none => simp [hv] at hsome
    | some v =>
      obtain ⟨_, _, c, _, _, _, hc, _⟩ := sqlViolation_eq_some ctx X Sel Args v hv
      have hmem := contextOverload_eq_some Sel.Name c hc
      simp only [List.mem_cons, Prod.mk.injEq, List.mem_singleton, List.not_mem_nil,
        or_false] at hmem ⊢
      rcases hmem with h | h | h | h | h | h <;> simp [h.1]
  · intro hm
    have hco : (contextOverload Sel.Name).isSome = true := by
      simp only [List.mem_cons, List.mem_singleton, List.not_mem_nil, or_false] at hm
      rcases hm with h | h | h | h | h | h <;> rw [h] <;> decide
    cases hc : contextOverload Sel.Name with
    | none => simp [hc] at hco
    | some c => simp [sqlViolation?, hc, hinfo, hX, htx]

/-- C25 on the file of `TestSqlContextRule_DetectsTxMethods`: `tx.Exec`,
`tx.Query` and `tx.Prepare` give exactly three violations. -/
theorem SqlContextRule_Check_Tx_witness :
    SqlContextRule.Check txMethodsCtx =
      [⟨"test.go", 6, 2, "sql-context-required",
         "Use ExecContext instead of Exec (called on tx of type *database/sql.Tx)"⟩,
       ⟨"test.go", 7, 2, "sql-context-required",
         "Use QueryContext instead of Query (called on tx of type *database/sql.Tx)"⟩,
       ⟨"test.go", 8, 2, "sql-context-required",
         "Use PrepareContext instead of Prepare (called on tx of type *database/sql.Tx)"⟩] := by
  rw [(SqlContextRule_Check_Tx txMethodsCtx _ rfl).1]
  decide

theorem filterMap_sublist_of_imp {α β : Type} (f g : α → Option β) (l : List α)
    (h : ∀ a ∈ l, ∀ b, f a = some b → g a = some b) :
    (l.filterMap f).Sublist (l.filterMap g) := by
  induction l with
  | nil => exact List.Sublist.slnil
  | cons a l ih =>
    have hl := ih (fun x hx => h x (List.mem_cons_of_mem _ hx))
    cases hf : f a with
    | none =>
      cases hg : g a with
      | none => simpa [List.filterMap_cons, hf, hg] using hl
      | some c =>
        simp only [List.filterMap_cons, hf, hg]
        exact List.Sublist.cons _ hl
    | some b =>
      have hg := h a (List.mem_cons_self _ _) b hf
      simp only [List.filterMap_cons, hf, hg]
      exact List.Sublist.cons₂ _ hl

/-- C27: for two contexts over the same file, position index and filename
whose second type table resolves every expression the first one resolves, to
the same type, the violations `SqlContextRule.Check` returns with the first
table are, in order, among those it returns with the second; and for
`examples/multifile/service.go` the table of the file alone gives no violation
where the table of the package gives two. -/
theorem SqlContextRule_Check_mono (ctx1 ctx2 : Context)
    (hfset : ctx2.FileSet = ctx1.FileSet) (hfile : ctx2.File = ctx1.File)
    (hname : ctx2.Filename = ctx1.Filename)
    (htable : ∀ info1, ctx1.TypeInfo = some info1 →
      ∃ info2, ctx2.TypeInfo = some info2 ∧
        ∀ e t, info1.TypeOf e = some t → info2.TypeOf e = some t) :
    (SqlContextRule.Check ctx1).Sublist (SqlContextRule.Check ctx2) ∧
    (∀ v ∈ SqlContextRule.Check ctx1, v ∈ SqlContextRule.Check ctx2) ∧
    (SqlContextRule.Check servicePerFileCtx = [] ∧
      (SqlContextRule.Check serviceProjectCtx).length = 2) := by
  have hsub : (SqlContextRule.Check ctx1).Sublist (SqlContextRule.Check ctx2) := by
    rw [SqlContextRule_Check_eq, SqlContextRule_Check_eq, hfile]
    apply filterMap_sublist_of_imp
    rintro ⟨X, Sel, Args⟩ _ v hv
    obtain ⟨info1, t, c, h1, h2, h3, h4, h5⟩ := sqlViolation_eq_some ctx1 X Sel Args v hv
    obtain ⟨info2, hi2, hagree⟩ := htable info1 h1
    simp [sqlViolation?, h4, hi2, hagree X t h2, h3, h5, hfset, hname]
  refine ⟨hsub, fun v hv => hsub.subset hv, ?_, ?_⟩
  · rw [SqlContextRule_Check_eq]
    decide
  · rw [SqlContextRule_Check_eq]
    decide

/-- C27 on `examples/multifile/service.go`: the table of the package extends
the table of the file alone, and the two violations it adds are the calls of
`Query` and `Exec` on `s.repo.Connection`. -/
theorem SqlContextRule_Check_mono_witness :
    (SqlContextRule.Check servicePerFileCtx).Sublist (SqlContextRule.Check serviceProjectCtx) ∧
    SqlContextRule.Check serviceProjectCtx =
      [⟨"service.go", 13, 12, "sql-context-required",
         "Use QueryContext instead of Query (called on Connection of type *database/sql.DB)"⟩,
       ⟨"service.go", 21, 12, "sql-context-required",
         "Use ExecContext instead of Exec (called on Connection of type *database/sql.DB)"⟩] :=
  ⟨(SqlContextRule_Check_mono servicePerFileCtx serviceProjectCtx rfl rfl rfl
      (by
        intro info1 h1
        refine ⟨_, rfl, ?_⟩
        have hinfo : info1 = ⟨fun e =>
            match e with
            | .Ident ⟨_, "s"⟩ => some (.Pointer (.Named (some ⟨some "multifile", "Service"⟩)))
            | _ => none⟩ := (Option.some.inj h1).symm
        subst hinfo
        intro e t he
        cases e with
        | Ident x =>
          obtain ⟨p, name⟩ := x
          by_cases hs : name = "s"
          · subst hs
            exact he
          · simp [hs] at he
        | _ => simp at he)).1,
   by rw [SqlContextRule_Check_eq]; decide⟩

/-- C28, on the files of `TestGokitRule_WorksInTestFiles` and
`TestTestifyRule_DetectsImports`: with the forbidden path written in double
quotes the rules report it; with the same path written between back quotes
they report nothing, neither the import nor the member access it binds. -/
theorem raw_literal_not_flagged :
    (GokitRule.Check gokitInTestFileCtx).length = 1 ∧
    GokitRule.Check rawGokitCtx = [] ∧
    (TestifyRule.Check detectsImportsCtx).length = 2 ∧
    TestifyRule.Check rawTestifyCtx = [] := by
  decide

/-! ## Directory traversal and the project-wide path -/

/-- C21, on a directory that holds only `good.go` (one go-kit import), when
`packages.Load` fails: under the name `proj` the file is analysed; under the
names ".", ".hidden" and "vendor" the walk skips the target directory itself
and nothing is analysed, although `good.go` on its own gives its violation. -/
theorem fallback_skips_root :
    Analyze (rootNamed "proj") mainRegistry "proj" [] =
      .ok [⟨"proj/good.go", 3, 8, "gokit-usage",
        "File imports go-kit package: github.com/go-kit/kit/log"⟩] ∧
    analyzeFile (rootNamed ".") mainRegistry "good.go" =
      .ok [⟨"good.go", 3, 8, "gokit-usage",
        "File imports go-kit package: github.com/go-kit/kit/log"⟩] ∧
    Analyze (rootNamed ".") mainRegistry "." [] = .ok [] ∧
    Analyze (rootNamed ".hidden") mainRegistry ".hidden" [] = .ok [] ∧
    Analyze (rootNamed "vendor") mainRegistry "vendor" [] = .ok [] := by
  decide

/-- C22, on an error-free package whose `Syntax` is longer than its `GoFiles`:
`analyzeDirectory` panics on `pkg.GoFiles[i]` and returns nothing. -/
theorem analyzeDirectory_index_panic :
    cgoPackage.Errors = [] ∧ cgoPackage.GoFiles.length < cgoPackage.Syntax.length ∧
    analyzeDirectory (cleanDir (.ok [cgoPackage])) mainRegistry "clean" [] =
      .panic "index out of range" := by
  decide

/-! ## The merge of the two testify walks -/

theorem selectorInspector_step (ctx : Context) (n : Node) (s : List Violation) :
    (TestifyRule.selectorInspector ctx (some n) s).1 = s ++ usageAt ctx n := by
  cases n with
  | SelectorExpr X Sel =>
    cases X with
    | Ident x =>
      simp only [TestifyRule.selectorInspector, usageAt, asMemberAccess?,
        testifyUsageViolations, Node.Pos]
      cases hx : testifyPkgs x.Name with
      | true => simp [confirmImport_foldl]
      | false => simp
    | _ => simp [TestifyRule.selectorInspector, usageAt, asMemberAccess?]
  | _ => simp [TestifyRule.selectorInspector, usageAt, asMemberAccess?]

theorem importInspector_step (ctx : Context) (n : Node) (s : List Violation) :
    (TestifyRule.importInspector ctx (some n) s).1 = s ++ importAt ctx n := by
  cases n <;> simp [TestifyRule.importInspector, importAt, asImportSpec?, testifyImportViolation?]
  rename_i spec
  cases hP : spec.Path with
  | none => simp
  | some lit =>
    by_cases hpre : HasPrefix (Trim lit.Value "\"") "github.com/stretchr/testify" = true
    · simp [hpre, TestifyRule.Name]
    · simp [hpre]

theorem twoPassMerge_eq (ctx : Context) :
    twoPassMerge ctx = TestifyRule.usagePhase ctx ++ TestifyRule.importPhase ctx := by
  unfold twoPassMerge TestifyRule.usagePhase TestifyRule.importPhase
  rw [Inspect_collect (TestifyRule.selectorInspector ctx) (usageAt ctx),
    Inspect_collect (TestifyRule.importInspector ctx) (importAt ctx)]
  · intro n s
    cases n <;> simp only [TestifyRule.importInspector]
    split
    · rfl
    · split <;> rfl
  · intro s
    rfl
  · intro n s
    exact importInspector_step ctx n s
  · intro n s
    cases n with
    | SelectorExpr X Sel =>
      cases X <;> simp only [TestifyRule.selectorInspector]
      split <;> rfl
    | _ => rfl
  · intro s
    rfl
  · intro n s
    exact selectorInspector_step ctx n s

/-- What every reachable state of the merge satisfies: the violations still to
come complete the slice to the two-pass merge, the channel is closed only after
the import walk, and `Check` returns only past its own walk on a closed
channel. -/
theorem Merge_step_inv (ctx : Context) (a : MergeAction) (s s1 : Merge)
    (hstep : Merge.step ctx a s = some s1)
    (hinv : s.violations ++ s.mainTodo.flatMap (usageAt ctx) ++
        s.importTodo.flatMap (importAt ctx) = twoPassMerge ctx ∧
      (s.closed = true → s.importTodo = []) ∧
      (s.returned = true → s.mainTodo = [] ∧ s.closed = true)) :
    (s1.violations ++ s1.mainTodo.flatMap (usageAt ctx) ++
        s1.importTodo.flatMap (importAt ctx) = twoPassMerge ctx ∧
      (s1.closed = true → s1.importTodo = []) ∧
      (s1.returned = true → s1.mainTodo = [] ∧ s1.closed = true)) ∧
    s1.measure + 1 = s.measure := by
  obtain ⟨heq, hclosed, hret⟩ := hinv
  obtain ⟨mainTodo, violations, importTodo, closed, returned⟩ := s
  simp only at heq hclosed hret
  cases a with
  | mainVisit =>
    cases mainTodo with
    | nil => simp [Merge.step] at hstep
    | cons n rest =>
      simp only [Merge.step, Option.some.injEq] at hstep
      subst hstep
      simp only [selectorInspector_step]
      refine ⟨⟨?_, hclosed, ?_⟩, ?_⟩
      · simpa [List.flatMap_cons, List.append_assoc] using heq
      · intro hr
        exact absurd (hret hr).1 (by simp)
      · simp only [Merge.measure, List.length_cons]
        omega
  | importVisit =>
    cases importTodo with
    | nil => simp [Merge.step] at hstep
    | cons n rest =>
      have hsent : (TestifyRule.importInspector ctx (some n) []).1 = importAt ctx n := by
        rw [importInspector_step]
        rfl
      simp only [Merge.step, hsent] at hstep
      have hnotclosed : closed = false := by
        cases closed with
        | false => rfl
        | true => exact absurd (hclosed rfl) (by simp)
      cases hat : importAt ctx n with
      | nil =>
        simp only [hat, Option.some.injEq] at hstep
        subst hstep
        refine ⟨⟨?_, ?_, hret⟩, ?_⟩
        · simpa [List.flatMap_cons, hat] using heq
        · intro hc
          simp [hnotclosed] at hc
        · simp only [Merge.measure, List.length_cons]
          omega
      | cons v sent =>
        simp only [hat] at hstep
        split at hstep
        · rename_i hcond
          simp only [Option.some.injEq] at hstep
          subst hstep
          simp only [Bool.and_eq_true, List.isEmpty_iff, Bool.not_eq_true'] at hcond
          obtain ⟨hmain, hnr⟩ := hcond
          subst hmain
          refine ⟨⟨?_, ?_, ?_⟩, ?_⟩
          · simpa [List.flatMap_cons, hat, List.append_assoc] using heq
          · intro hc
            simp [hnotclosed] at hc
          · intro hr
            simp [hnr] at hr
          · simp only [Merge.measure, List.length_cons]
            omega
        · simp at hstep
  | close =>
    simp only [Merge.step] at hstep
    split at hstep
    · rename_i hcond
      simp only [Option.some.injEq] at hstep
      subst hstep
      simp only [Bool.and_eq_true, List.isEmpty_iff, Bool.not_eq_true'] at hcond
      obtain ⟨himp, hnc⟩ := hcond
      subst himp
      refine ⟨⟨heq, fun _ => rfl, ?_⟩, ?_⟩
      · intro hr
        have := (hret hr).2
        simp [hnc] at this
      · simp only [Merge.measure, hnc]
        simp
        omega
    · simp at hstep
  | finish =>
    simp only [Merge.step] at hstep
    split at hstep
    · rename_i hcond
      simp only [Option.some.injEq] at hstep
      subst hstep
      simp only [Bool.and_eq_true, List.isEmpty_iff, Bool.not_eq_true'] at hcond
      obtain ⟨⟨hmain, hc⟩, hnr⟩ := hcond
      refine ⟨⟨heq, hclosed, fun _ => ⟨hmain, hc⟩⟩, ?_⟩
      simp only [Merge.measure, hnr]
      simp
    · simp at hstep

theorem Merge_run_inv (ctx : Context) (acts : List MergeAction) (s s1 : Merge)
    (hrun : Merge.run ctx acts s = some s1)
    (hinv : s.violations ++ s.mainTodo.flatMap (usageAt ctx) ++
        s.importTodo.flatMap (importAt ctx) = twoPassMerge ctx ∧
      (s.closed = true → s.importTodo = []) ∧
      (s.returned = true → s.mainTodo = [] ∧ s.closed = true)) :
    (s1.violations ++ s1.mainTodo.flatMap (usageAt ctx) ++
        s1.importTodo.flatMap (importAt ctx) = twoPassMerge ctx ∧
      (s1.closed = true → s1.importTodo = []) ∧
      (s1.returned = true → s1.mainTodo = [] ∧ s1.closed = true)) ∧
    s1.measure + acts.length = s.measure := by
  induction acts generalizing s with
  | nil =>
    simp only [Merge.run, Option.some.injEq] at hrun
    subst hrun
    exact ⟨hinv, rfl⟩
  | cons a rest ih =>
    simp only [Merge.run] at hrun
    cases hs : Merge.step ctx a s with
    | none => simp [hs] at hrun
    | some s2 =>
      simp only [hs] at hrun
      obtain ⟨hinv2, hm2⟩ := Merge_step_inv ctx a s s2 hs hinv
      obtain ⟨hinv1, hm1⟩ := ih s2 hrun hinv2
      refine ⟨hinv1, ?_⟩
      simp only [List.length_cons]
      omega

theorem Merge_init_inv (ctx : Context) :
    (Merge.init ctx).violations ++ (Merge.init ctx).mainTodo.flatMap (usageAt ctx) ++
        (Merge.init ctx).importTodo.flatMap (importAt ctx) = twoPassMerge ctx ∧
      ((Merge.init ctx).closed = true → (Merge.init ctx).importTodo = []) ∧
      ((Merge.init ctx).returned = true →
        (Merge.init ctx).mainTodo = [] ∧ (Merge.init ctx).closed = true) := by
  refine ⟨?_, ?_, ?_⟩
  · simp [Merge.init, twoPassMerge]
  · intro h
    simp [Merge.init] at h
  · intro h
    simp [Merge.init] at h

theorem Merge_result (ctx : Context) (acts : List MergeAction) (s : Merge)
    (hrun : Merge.run ctx acts (Merge.init ctx) = some s) (hret : s.returned = true) :
    s.violations = twoPassMerge ctx := by
  obtain ⟨⟨heq, hclosed, hreturned⟩, _⟩ := Merge_run_inv ctx acts _ s hrun (Merge_init_inv ctx)
  obtain ⟨hmain, hc⟩ := hreturned hret
  have himp := hclosed hc
  rw [hmain, himp] at heq
  simpa using heq

theorem Merge_progress (ctx : Context) (s : Merge) (hret : s.returned = false) :
    ∃ a s1, Merge.step ctx a s = some s1 := by
  obtain ⟨mainTodo, violations, importTodo, closed, returned⟩ := s
  simp only at hret
  subst hret
  cases mainTodo with
  | cons n rest => exact ⟨.mainVisit, _, rfl⟩
  | nil =>
    cases importTodo with
    | cons n rest =>
      cases hsent : (TestifyRule.importInspector ctx (some n) []).1 with
      | nil => exact ⟨.importVisit, _, by simp [Merge.step, hsent]; rfl⟩
      | cons v sent => exact ⟨.importVisit, _, by simp [Merge.step, hsent]; rfl⟩
    | nil =>
      cases closed with
      | false => exact ⟨.close, _, by simp [Merge.step]; rfl⟩
      | true => exact ⟨.finish, _, by simp [Merge.step]; rfl⟩

theorem Merge_completes (ctx : Context) (k : Nat) :
    ∀ s : Merge, s.measure ≤ k →
      (s.violations ++ s.mainTodo.flatMap (usageAt ctx) ++
          s.importTodo.flatMap (importAt ctx) = twoPassMerge ctx ∧
        (s.closed = true → s.importTodo = []) ∧
        (s.returned = true → s.mainTodo = [] ∧ s.closed = true)) →
      ∃ acts s1, Merge.run ctx acts s = some s1 ∧ s1.returned = true := by
  induction k with
  | zero =>
    intro s hk _
    cases hr : s.returned with
    | true => exact ⟨[], s, rfl, hr⟩
    | false =>
      simp [Merge.measure, hr] at hk
  | succ k ih =>
    intro s hk hinv
    cases hr : s.returned with
    | true => exact ⟨[], s, rfl, hr⟩
    | false =>
      obtain ⟨a, s1, hstep⟩ := Merge_progress ctx s hr
      obtain ⟨hinv1, hm⟩ := Merge_step_inv ctx a s s1 hstep hinv
      obtain ⟨acts, s2, hrun, hret⟩ := ih s1 (by omega) hinv1
      exact ⟨a :: acts, s2, by simp [Merge.run, hstep, hrun], hret⟩

/-- C26: for a test-scoped context, `TestifyRule.Check` is the plain two-pass
merge (usage violations in traversal order, then import violations in
traversal order); every interleaving of the two goroutines that reaches the
return ends with exactly that slice; no interleaving takes more than two steps
per node and two more; a state that has not returned always has a next step;
and some interleaving reaches the return. -/
theorem TestifyRule_merge (ctx : Context) (htest : HasSuffix ctx.Filename "_test.go" = true) :
    TestifyRule.Check ctx = twoPassMerge ctx ∧
    (∀ acts s, Merge.run ctx acts (Merge.init ctx) = some s → s.returned = true →
      s.violations = twoPassMerge ctx) ∧
    (∀ acts s, Merge.run ctx acts (Merge.init ctx) = some s →
      acts.length ≤ 2 * (preorder ctx.File.toNode).length + 2) ∧
    (∀ acts s, Merge.run ctx acts (Merge.init ctx) = some s → s.returned = false →
      ∃ a s1, Merge.step ctx a s = some s1) ∧
    (∃ acts s, Merge.run ctx acts (Merge.init ctx) = some s ∧ s.returned = true) := by
  refine ⟨?_, Merge_result ctx, ?_, ?_, ?_⟩
  · rw [twoPassMerge_eq]
    simp [TestifyRule.Check, htest]
  · intro acts s hrun
    obtain ⟨_, hm⟩ := Merge_run_inv ctx acts _ s hrun (Merge_init_inv ctx)
    have hinit : (Merge.init ctx).measure = 2 * (preorder ctx.File.toNode).length + 2 := by
      simp [Merge.init, Merge.measure]
      omega
    omega
  · intro acts s _ hret
    exact Merge_progress ctx s hret
  · exact Merge_completes ctx (Merge.init ctx).measure (Merge.init ctx) (Nat.le_refl _)
      (Merge_init_inv ctx)

/-- C26 on the file of `TestTestifyRule_DetectsImports`: the interleaving
`detectsImportsRun` ends with the usage violation followed by the import
violation, and an import walk that tries to send before the caller's walk is
over cannot take that step. -/
theorem TestifyRule_merge_witness :
    TestifyRule.Check detectsImportsCtx = twoPassMerge detectsImportsCtx ∧
    (Merge.run detectsImportsCtx detectsImportsRun (Merge.init detectsImportsCtx)).map
        (fun s => (s.returned, s.violations)) =
      some (true,
        [⟨"test_test.go", 9, 2, "testify-usage", "Test code calls testify method: assert.Equal"⟩,
         ⟨"test_test.go", 5, 2, "testify-usage",
           "Test file imports testify package: github.com/stretchr/testify/assert"⟩]) ∧
    (Merge.run detectsImportsCtx (List.replicate 6 .importVisit)
        (Merge.init detectsImportsCtx)).isNone = true :=
  ⟨(TestifyRule_merge detectsImportsCtx (by decide)).1, by decide, by decide⟩

theorem flatMap_congr_mem {α β : Type} (f g : α → List β) (l : List α)
    (h : ∀ a ∈ l, f a = g a) : l.flatMap f = l.flatMap g := by
  induction l with
  | nil => rfl
  | cons a l ih =>
    simp only [List.flatMap_cons]
    rw [h a (List.mem_cons_self _ _), ih (fun b hb => h b (List.mem_cons_of_mem _ hb))]

theorem filterMap_congr_mem {α β : Type} (f g : α → Option β) (l : List α)
    (h : ∀ a ∈ l, f a = g a) : l.filterMap f = l.filterMap g := by
  induction l with
  | nil => rfl
  | cons a l ih =>
    simp only [List.filterMap_cons]
    rw [h a (List.mem_cons_self _ _), ih (fun b hb => h b (List.mem_cons_of_mem _ hb))]

/-- C24: `Check` of each registered rule is a function of the tree, the
filename, the position index at the nodes of the tree and the type table at
the receivers of the tree's method calls: two contexts that agree on these
give the same violations (so do two runs on one context); and in
`TestifyRule.Check`, every two interleavings of the goroutines that reach the
return leave the same slice, which is `TestifyRule.Check ctx`. -/
theorem Check_deterministic :
    (∀ rule ∈ mainRegistry, ∀ ctx1 ctx2 : Context,
      ctx1.File = ctx2.File → ctx1.Filename = ctx2.Filename →
      (∀ n ∈ preorder ctx1.File.toNode, ctx1.FileSet (Node.Pos n) = ctx2.FileSet (Node.Pos n)) →
      (ctx1.TypeInfo = none ↔ ctx2.TypeInfo = none) →
      (∀ i1 i2, ctx1.TypeInfo = some i1 → ctx2.TypeInfo = some i2 →
        ∀ c ∈ sqlCallsOf ctx1.File.toNode, i1.TypeOf c.1 = i2.TypeOf c.1) →
      rule.Check ctx1 = rule.Check ctx2) ∧
    (∀ (ctx : Context) acts1 acts2 s1 s2, HasSuffix ctx.Filename "_test.go" = true →
      Merge.run ctx acts1 (Merge.init ctx) = some s1 → s1.returned = true →
      Merge.run ctx acts2 (Merge.init ctx) = some s2 → s2.returned = true →
      s1.violations = s2.violations ∧ s1.violations = TestifyRule.Check ctx) := by
  constructor
  · intro rule hrule ctx1 ctx2 hfile hname hpos hnone htype
    have hreg : mainRegistry = [TestifyRule, SqlContextRule, GokitRule] := rfl
    rw [hreg] at hrule
    simp only [List.mem_cons, List.mem_singleton, List.not_mem_nil, or_false] at hrule
    rcases hrule with rfl | rfl | rfl
    · show TestifyRule.Check ctx1 = TestifyRule.Check ctx2
      unfold TestifyRule.Check
      rw [usagePhase_eq, usagePhase_eq, importPhase_eq, importPhase_eq, ← hfile, ← hname]
      congr 2
      · apply flatMap_congr_mem
        intro a ha
        have hp := hpos _ ((mem_memberAccessesOf _ a).1 ha)
        simp only [Node.Pos] at hp
        simp [testifyUsageViolations, ← hfile, ← hname, hp]
      · apply filterMap_congr_mem
        intro s hs
        have hp := hpos _ ((mem_importSpecsOf _ s).1 hs)
        simp only [Node.Pos] at hp
        simp [testifyImportViolation?, ← hname, hp]
    · show SqlContextRule.Check ctx1 = SqlContextRule.Check ctx2
      rw [SqlContextRule_Check_eq, SqlContextRule_Check_eq, ← hfile]
      apply filterMap_congr_mem
      rintro ⟨X, Sel, Args⟩ hc
      have hp := hpos _ ((mem_sqlCallsOf _ (X, Sel, Args)).1 hc)
      simp only at hp
      unfold sqlViolation?
      simp only
      cases hco : contextOverload Sel.Name with
      | none => rfl
      | some m =>
        cases h1 : ctx1.TypeInfo with
        | none =>
          rw [hnone.1 h1]
        | some i1 =>
          cases h2 : ctx2.TypeInfo with
          | none => exact absurd (hnone.2 h2) (by simp [h1])
          | some i2 =>
            have ht := htype i1 i2 h1 h2 (X, Sel, Args) hc
            simp only at ht
            simp only [ht, hname, hp]
    · show GokitRule.Check ctx1 = GokitRule.Check ctx2
      rw [GokitRule_Check_eq, GokitRule_Check_eq, ← hfile]
      apply filterMap_congr_mem
      intro s hs
      have hp := hpos _ ((mem_importSpecsOf _ s).1 hs)
      simp only [Node.Pos] at hp
      simp [gokitViolation?, ← hname, hp]
  · intro ctx acts1 acts2 s1 s2 htest h1 hr1 h2 hr2
    have e1 := Merge_result ctx acts1 s1 h1 hr1
    have e2 := Merge_result ctx acts2 s2 h2 hr2
    refine ⟨e1.trans e2.symm, ?_⟩
    rw [e1, twoPassMerge_eq]
    simp [TestifyRule.Check, htest]

/-- C24 on the file of `TestSqlContextRule_DetectsBegin`: a type table that
resolves one more expression, which is no receiver, gives the same result. -/
theorem Check_deterministic_witness :
    SqlContextRule.Check beginCtx = SqlContextRule.Check beginMoreTypesCtx :=
  Check_deterministic.1 SqlContextRule (by simp [mainRegistry, Registry.Register, NewRegistry])
    beginCtx beginMoreTypesCtx rfl rfl (fun _ _ => rfl) (by simp [beginCtx, beginMoreTypesCtx])
    (by
      intro i1 i2 h1 h2 c hc
      have hcalls : sqlCallsOf beginCtx.File.toNode =
          [(.Ident ⟨613, "db"⟩, ⟨616, "Begin"⟩, []),
           (.Ident ⟨1002, "tx"⟩, ⟨1005, "Commit"⟩, [])] := rfl
      rw [hcalls] at hc
      have e1 := (Option.some.inj h1).symm
      have e2 := (Option.some.inj h2).symm
      subst e1 e2
      simp only [List.mem_cons, List.mem_singleton, List.not_mem_nil, or_false] at hc
      rcases hc with rfl | rfl <;> rfl)

/-! ## The fan-in of `analyzeDirectory` -/

theorem getElem?_split {α : Type} (l : List α) (i : Nat) (a : α) (h : l[i]? = some a) :
    ∃ l1 l2, l = l1 ++ a :: l2 ∧ l1.length = i := by
  induction l generalizing i with
  | nil => simp at h
  | cons b l ih =>
    cases i with
    | zero =>
      simp only [List.getElem?_cons_zero, Option.some.injEq] at h
      exact ⟨[], l, by rw [h]; rfl, rfl⟩
    | succ i =>
      simp only [List.getElem?_cons_succ] at h
      obtain ⟨l1, l2, hl, hlen⟩ := ih i h
      exact ⟨b :: l1, l2, by rw [hl]; rfl, by simp [hlen]⟩

theorem set_split {α : Type} (l1 l2 : List α) (a b : α) :
    (l1 ++ a :: l2).set l1.length b = l1 ++ b :: l2 := by
  induction l1 with
  | nil => rfl
  | cons c l1 ih => simp [List.set, ih]

theorem eraseIdx_split {α : Type} (l1 l2 : List α) (a : α) :
    (l1 ++ a :: l2).eraseIdx l1.length = l1 ++ l2 := by
  induction l1 with
  | nil => rfl
  | cons c l1 ih => simp [List.eraseIdx, ih]

theorem FanIn_init_inv (tasks : List (Option (List Violation))) :
    FanIn.Inv tasks (FanIn.init tasks) := by
  refine ⟨rfl, ?_, ?_, ?_, ?_⟩
  · intro h
    simp [FanIn.init] at h
  · intro h
    simp [FanIn.init] at h
  · intro h
    simp [FanIn.init] at h
  · simp [FanIn.init]

theorem FanIn_step_inv (tasks : List (Option (List Violation))) (a : FanInAction)
    (s s1 : FanIn) (hstep : FanIn.step a s = some s1) (hinv : FanIn.Inv tasks s) :
    FanIn.Inv tasks s1 ∧ s1.measure + 1 = s.measure := by
  obtain ⟨hwg, hwaiter, hclosed, hret, hperm⟩ := hinv
  obtain ⟨unspawned, running, wg, waiter, buffer, closed, violations, returned⟩ := s
  simp only at hwg hwaiter hclosed hret hperm
  cases a with
  | spawn =>
    cases unspawned with
    | nil => simp [FanIn.step] at hstep
    | cons t rest =>
      simp only [FanIn.step, Option.some.injEq] at hstep
      subst hstep
      have hnw : waiter = false := by
        cases waiter with
        | false => rfl
        | true => exact absurd (hwaiter rfl) (by simp)
      have hnc : closed = false := by
        cases closed with
        | false => rfl
        | true =>
          have := (hclosed rfl).1
          simp [hnw] at this
      refine ⟨⟨by simp [hwg], ?_, ?_, hret, ?_⟩, ?_⟩
      · intro h
        simp [hnw] at h
      · intro h
        simp [hnc] at h
      · rw [← Multiset.coe_eq_coe] at hperm ⊢
        simp only [List.flatMap_append, List.flatMap_cons, List.flatMap_nil, List.append_nil,
          ← Multiset.coe_add] at hperm ⊢
        rw [← hperm]
        abel
      · simp only [FanIn.measure, List.map_cons, List.sum_cons, List.map_append, List.sum_append,
          List.map_nil, List.sum_nil]
        omega
  | startWaiter =>
    simp only [FanIn.step] at hstep
    split at hstep
    · rename_i hcond
      simp only [Option.some.injEq] at hstep
      subst hstep
      simp only [Bool.and_eq_true, List.isEmpty_iff, Bool.not_eq_true'] at hcond
      obtain ⟨hun, hnw⟩ := hcond
      refine ⟨⟨hwg, fun _ => hun, ?_, hret, hperm⟩, ?_⟩
      · intro h
        exact ⟨rfl, (hclosed h).2⟩
      · simp only [FanIn.measure, hnw]
        simp
        omega
    · simp at hstep
  | send i =>
    simp only [FanIn.step] at hstep
    cases hri : running[i]? with
    | none => simp [hri] at hstep
    | some t =>
      cases t with
      | none => simp [hri] at hstep
      | some vs =>
        simp only [hri] at hstep
        split at hstep
        · simp only [Option.some.injEq] at hstep
          subst hstep
          obtain ⟨l1, l2, hl, hlen⟩ := getElem?_split running i (some vs) hri
          subst hl
          subst hlen
          have hnc : closed = false := by
            cases closed with
            | false => rfl
            | true => exact absurd (hclosed rfl).2 (by simp)
          have hnr : returned = false := by
            cases returned with
            | false => rfl
            | true =>
              have := (hret rfl).1
              simp [hnc] at this
          refine ⟨⟨?_, hwaiter, ?_, ?_, ?_⟩, ?_⟩
          · simp [hwg, set_split]
          · intro h
            simp [hnc] at h
          · intro h
            simp [hnr] at h
          · rw [set_split]
            rw [← Multiset.coe_eq_coe] at hperm ⊢
            simp only [List.flatMap_append, List.flatMap_cons, List.flatten_append,
              List.flatten_cons, List.flatten_nil, List.append_nil, payload,
              ← Multiset.coe_add] at hperm ⊢
            rw [← hperm]
            simp only [Multiset.coe_nil, zero_add]
            abel
          · rw [set_split]
            simp only [FanIn.measure, List.map_cons, List.sum_cons, List.map_append,
              List.sum_append, List.length_append, List.length_cons, List.length_nil, taskCost]
            omega
        · simp at hstep
  | done i =>
    simp only [FanIn.step] at hstep
    cases hri : running[i]? with
    | none => simp [hri] at hstep
    | some t =>
      cases t with
      | some vs => simp [hri] at hstep
      | none =>
        simp only [hri, Option.some.injEq] at hstep
        subst hstep
        obtain ⟨l1, l2, hl, hlen⟩ := getElem?_split running i none hri
        subst hl
        subst hlen
        have hnc : closed = false := by
          cases closed with
          | false => rfl
          | true => exact absurd (hclosed rfl).2 (by simp)
        have hnr : returned = false := by
          cases returned with
          | false => rfl
          | true =>
            have := (hret rfl).1
            simp [hnc] at this
        refine ⟨⟨?_, hwaiter, ?_, ?_, ?_⟩, ?_⟩
        · rw [eraseIdx_split]
          simp only [hwg, List.length_append, List.length_cons]
          omega
        · intro h
          simp [hnc] at h
        · intro h
          simp [hnr] at h
        · rw [eraseIdx_split]
          rw [← Multiset.coe_eq_coe] at hperm ⊢
          simp only [List.flatMap_append, List.flatMap_cons, payload, List.nil_append,
            ← Multiset.coe_add] at hperm ⊢
          rw [← hperm]
        · rw [eraseIdx_split]
          simp only [FanIn.measure, List.map_cons, List.sum_cons, List.map_append,
            List.sum_append, taskCost]
          omega
  | close =>
    simp only [FanIn.step] at hstep
    split at hstep
    · rename_i hcond
      simp only [Option.some.injEq] at hstep
      subst hstep
      simp only [Bool.and_eq_true, beq_iff_eq, Bool.not_eq_true'] at hcond
      obtain ⟨⟨hw, hzero⟩, hnc⟩ := hcond
      have hrun : running = [] := by
        rw [hzero] at hwg
        exact List.length_eq_zero.1 hwg.symm
      refine ⟨⟨hwg, hwaiter, fun _ => ⟨hw, hrun⟩, ?_, hperm⟩, ?_⟩
      · intro h
        have := (hret h).1
        simp [hnc] at this
      · simp only [FanIn.measure, hnc]
        simp
        omega
    · simp at hstep
  | receive =>
    simp only [FanIn.step] at hstep
    split at hstep
    · rename_i hcond
      simp only [Bool.and_eq_true, List.isEmpty_iff, Bool.not_eq_true'] at hcond
      obtain ⟨⟨hun, hw⟩, hnr⟩ := hcond
      cases buffer with
      | nil => simp at hstep
      | cons vs rest =>
        simp only [Option.some.injEq] at hstep
        subst hstep
        refine ⟨⟨hwg, hwaiter, hclosed, ?_, ?_⟩, ?_⟩
        · intro h
          simp [hnr] at h
        · rw [← Multiset.coe_eq_coe] at hperm ⊢
          simp only [List.flatten_cons, ← Multiset.coe_add] at hperm ⊢
          rw [← hperm]
          abel
        · simp only [FanIn.measure, List.length_cons]
          omega
    · simp at hstep
  | finish =>
    simp only [FanIn.step] at hstep
    split at hstep
    · rename_i hcond
      simp only [Option.some.injEq] at hstep
      subst hstep
      simp only [Bool.and_eq_true, List.isEmpty_iff, Bool.not_eq_true'] at hcond
      obtain ⟨⟨⟨⟨hun, hw⟩, hbuf⟩, hc⟩, hnr⟩ := hcond
      refine ⟨⟨hwg, hwaiter, hclosed, fun _ => ⟨hc, hbuf⟩, hperm⟩, ?_⟩
      simp only [FanIn.measure, hnr]
      simp
    · simp at hstep

theorem FanIn_run_inv (tasks : List (Option (List Violation))) (acts : List FanInAction)
    (s s1 : FanIn) (hrun : FanIn.run acts s = some s1) (hinv : FanIn.Inv tasks s) :
    FanIn.Inv tasks s1 ∧ s1.measure + acts.length = s.measure := by
  induction acts generalizing s with
  | nil =>
    simp only [FanIn.run, Option.some.injEq] at hrun
    subst hrun
    exact ⟨hinv, rfl⟩
  | cons a rest ih =>
    simp only [FanIn.run] at hrun
    cases hs : FanIn.step a s with
    | none => simp [hs] at hrun
    | some s2 =>
      simp only [hs] at hrun
      obtain ⟨hinv2, hm2⟩ := FanIn_step_inv tasks a s s2 hs hinv
      obtain ⟨hinv1, hm1⟩ := ih s2 hrun hinv2
      refine ⟨hinv1, ?_⟩
      simp only [List.length_cons]
      omega

theorem FanIn_init_measure (tasks : List (Option (List Violation))) :
    (FanIn.init tasks).measure ≤ 4 * tasks.length + 3 := by
  have hsum : ∀ l : List (Option (List Violation)),
      (l.map fun t => 1 + taskCost t).sum ≤ 4 * l.length := by
    intro l
    induction l with
    | nil => simp
    | cons t l ih =>
      simp only [List.map_cons, List.sum_cons, List.length_cons]
      have : taskCost t ≤ 3 := by
        cases t <;> simp [taskCost]
      omega
  have := hsum tasks
  simp only [FanIn.init, FanIn.measure, List.map_nil, List.sum_nil, List.length_nil,
    Bool.false_eq_true, if_false]
  omega

theorem FanIn_progress (tasks : List (Option (List Violation))) (s : FanIn)
    (hinv : FanIn.Inv tasks s) (hret : s.returned = false) :
    ∃ a s1, FanIn.step a s = some s1 := by
  obtain ⟨hwg, hwaiter, hclosed, _, _⟩ := hinv
  obtain ⟨unspawned, running, wg, waiter, buffer, closed, violations, returned⟩ := s
  simp only at hwg hwaiter hclosed hret
  subst hret
  cases unspawned with
  | cons t rest => exact ⟨.spawn, _, rfl⟩
  | nil =>
    cases waiter with
    | false => exact ⟨.startWaiter, _, by simp [FanIn.step]; rfl⟩
    | true =>
      cases buffer with
      | cons vs rest => exact ⟨.receive, _, by simp [FanIn.step]; rfl⟩
      | nil =>
        cases running with
        | cons t rest =>
          cases t with
          | some vs => exact ⟨.send 0, _, by simp [FanIn.step, chanCap]; rfl⟩
          | none => exact ⟨.done 0, _, by simp [FanIn.step]; rfl⟩
        | nil =>
          simp only [List.length_nil] at hwg
          subst hwg
          cases closed with
          | false => exact ⟨.close, _, by simp [FanIn.step]; rfl⟩
          | true => exact ⟨.finish, _, by simp [FanIn.step]; rfl⟩

theorem FanIn_completes (tasks : List (Option (List Violation))) (k : Nat) :
    ∀ s : FanIn, s.measure ≤ k → FanIn.Inv tasks s →
      ∃ acts s1, FanIn.run acts s = some s1 ∧ s1.returned = true := by
  induction k with
  | zero =>
    intro s hk _
    cases hr : s.returned with
    | true => exact ⟨[], s, rfl, hr⟩
    | false =>
      simp [FanIn.measure, hr] at hk
  | succ k ih =>
    intro s hk hinv
    cases hr : s.returned with
    | true => exact ⟨[], s, rfl, hr⟩
    | false =>
      obtain ⟨a, s1, hstep⟩ := FanIn_progress tasks s hinv hr
      obtain ⟨hinv1, hm⟩ := FanIn_step_inv tasks a s s1 hstep hinv
      obtain ⟨acts, s2, hrun, hret⟩ := ih s1 (by omega) hinv1
      exact ⟨a :: acts, s2, by simp [FanIn.run, hstep, hrun], hret⟩

theorem FanIn_result (tasks : List (Option (List Violation))) (acts : List FanInAction)
    (s : FanIn) (hrun : FanIn.run acts (FanIn.init tasks) = some s)
    (hret : s.returned = true) :
    s.violations.Perm (tasks.flatMap payload) := by
  obtain ⟨⟨_, hwaiter, hclosed, hreturned, hperm⟩, _⟩ :=
    FanIn_run_inv tasks acts _ s hrun (FanIn_init_inv tasks)
  obtain ⟨hc, hbuf⟩ := hreturned hret
  obtain ⟨hw, hrunning⟩ := hclosed hc
  have hun := hwaiter hw
  rw [hbuf, hrunning, hun] at hperm
  simpa using hperm

theorem deliveryOrder_perm {α : Type} (n : Nat) :
    ∀ (sched : List Nat) (pending : List α), pending.length = n →
      (deliveryOrder n sched pending).Perm pending := by
  induction n with
  | zero =>
    intro sched pending hlen
    rw [List.length_eq_zero.1 hlen]
    simp [deliveryOrder]
  | succ n ih =>
    intro sched pending hlen
    have hlt : sched.headD 0 % pending.length < pending.length :=
      Nat.mod_lt _ (by omega)
    simp only [deliveryOrder]
    rw [List.getElem?_eq_getElem hlt]
    simp only
    obtain ⟨l1, l2, hl, hl1⟩ := getElem?_split pending _ _ (List.getElem?_eq_getElem hlt)
    have herase : pending.eraseIdx (sched.headD 0 % pending.length) = l1 ++ l2 := by
      rw [← hl1]
      conv => lhs; rw [hl]
      exact eraseIdx_split l1 l2 _
    rw [herase]
    have hlen2 : (l1 ++ l2).length = n := by
      rw [hl] at hlen
      simp only [List.length_append, List.length_cons] at hlen ⊢
      omega
    have := ih sched.tail (l1 ++ l2) hlen2
    conv => rhs; rw [hl]
    exact (List.Perm.cons _ this).trans List.perm_middle.symm

theorem flatten_filterMap_id (tasks : List (Option (List Violation))) :
    (tasks.filterMap fun task => task).flatten = tasks.flatMap payload := by
  induction tasks with
  | nil => rfl
  | cons t rest ih =>
    cases t with
    | none => simpa [payload] using ih
    | some vs => simp [payload, ih]

/-- C23: for the tasks `analyzeDirectory` spawns, under every interleaving of
the tasks, the waiting goroutine and the draining loop: once the channel is
closed no task is left unspawned or running, the counter is zero and every
slice sent is in the channel or already received; the caller returns only on a
closed and empty channel, and what it returns is, in some order, all that the
tasks send; no interleaving takes more than four steps per task and three
more; a state that has not returned always has a next step, whatever the
number of pending slices; some interleaving reaches the return; and the
function `analyzeDirectory` returns, under every schedule, such a collection. -/
theorem fanIn_barrier (fe : Frontend) (registry : Registry) (pkgs : List Package)
    (tasks : List (Option (List Violation)))
    (htasks : allTasks fe registry pkgs = .ok tasks) :
    (∀ acts s, FanIn.run acts (FanIn.init tasks) = some s → s.closed = true →
      s.unspawned = [] ∧ s.running = [] ∧ s.wg = 0 ∧
      (s.violations ++ s.buffer.flatten).Perm (tasks.flatMap payload)) ∧
    (∀ acts s, FanIn.run acts (FanIn.init tasks) = some s → s.returned = true →
      s.closed = true ∧ s.buffer = [] ∧ s.violations.Perm (tasks.flatMap payload)) ∧
    (∀ acts s, FanIn.run acts (FanIn.init tasks) = some s →
      acts.length ≤ 4 * tasks.length + 3) ∧
    (∀ acts s, FanIn.run acts (FanIn.init tasks) = some s → s.returned = false →
      ∃ a s1, FanIn.step a s = some s1) ∧
    (∃ acts s, FanIn.run acts (FanIn.init tasks) = some s ∧ s.returned = true) ∧
    (∀ dir sched, fe.Load dir = .ok pkgs → pkgs ≠ [] →
      ∃ vs, analyzeDirectory fe registry dir sched = .ok vs ∧
        vs.Perm (tasks.flatMap payload)) := by
  refine ⟨?_, ?_, ?_, ?_, ?_, ?_⟩
  · intro acts s hrun hc
    obtain ⟨⟨hwg, hwaiter, hclosed, _, hperm⟩, _⟩ :=
      FanIn_run_inv tasks acts _ s hrun (FanIn_init_inv tasks)
    obtain ⟨hw, hrunning⟩ := hclosed hc
    have hun := hwaiter hw
    rw [hrunning, hun] at hperm
    rw [hrunning] at hwg
    exact ⟨hun, hrunning, hwg, by simpa using hperm⟩
  · intro acts s hrun hret
    obtain ⟨⟨_, _, _, hreturned, _⟩, _⟩ :=
      FanIn_run_inv tasks acts _ s hrun (FanIn_init_inv tasks)
    exact ⟨(hreturned hret).1, (hreturned hret).2, FanIn_result tasks acts s hrun hret⟩
  · intro acts s hrun
    obtain ⟨_, hm⟩ := FanIn_run_inv tasks acts _ s hrun (FanIn_init_inv tasks)
    have := FanIn_init_measure tasks
    omega
  · intro acts s hrun hret
    exact FanIn_progress tasks s
      (FanIn_run_inv tasks acts _ s hrun (FanIn_init_inv tasks)).1 hret
  · exact FanIn_completes tasks (FanIn.init tasks).measure (FanIn.init tasks) (Nat.le_refl _)
      (FanIn_init_inv tasks)
  · intro dir sched hload hne
    have hlen : (pkgs.length == 0) = false := by
      cases pkgs with
      | nil => exact absurd rfl hne
      | cons p ps => rfl
    refine ⟨(deliveryOrder (tasks.filterMap fun task => task).length sched
      (tasks.filterMap fun task => task)).flatten, ?_, ?_⟩
    · simp only [analyzeDirectory, hload, hlen, htasks]
      rfl
    · rw [← flatten_filterMap_id]
      exact (deliveryOrder_perm _ sched _ rfl).flatten

/-- C23 on the directory `proj` whose package reports an error: the
interleaving `projRun` returns the one violation of `good.go`; the channel
cannot be closed while a task is running; and the caller cannot leave its loop
before the channel is closed. -/
theorem fanIn_barrier_witness :
    allTasks (scenarioD (.ok [brokenPackage])) mainRegistry [brokenPackage] = .ok projTasks ∧
    (FanIn.run projRun (FanIn.init projTasks)).map (fun s => (s.returned, s.violations)) =
      some (true, projTasks.flatMap payload) ∧
    (FanIn.run [.spawn, .spawn, .startWaiter, .done 0, .close] (FanIn.init projTasks)).isNone =
      true ∧
    (FanIn.run [.spawn, .spawn, .startWaiter, .done 0, .send 0, .receive, .finish]
      (FanIn.init projTasks)).isNone = true ∧
    (∀ acts s, FanIn.run acts (FanIn.init projTasks) = some s → s.returned = true →
      s.closed = true ∧ s.buffer = [] ∧ s.violations.Perm (projTasks.flatMap payload)) :=
  ⟨by decide, by decide, by decide, by decide,
    (fanIn_barrier (scenarioD (.ok [brokenPackage])) mainRegistry [brokenPackage] projTasks
      (by decide)).2.1⟩

/-! ## The JUnit report -/

theorem mapAppend_keys (m : List (String × List Violation)) (v : Violation) :
    (mapAppend m v).map Prod.fst =
      if v.File ∈ m.map Prod.fst then m.map Prod.fst else m.map Prod.fst ++ [v.File] := by
  induction m with
  | nil => simp [mapAppend]
  | cons e rest ih =>
    obtain ⟨k, vs⟩ := e
    by_cases hk : k = v.File
    · simp [mapAppend, hk]
    · have hk2 : ¬ v.File = k := fun h => hk h.symm
      simp only [mapAppend, beq_iff_eq, hk, if_false, List.map_cons, ih, List.mem_cons, hk2,
        false_or]
      split <;> simp

theorem mapAppend_sum (m : List (String × List Violation)) (v : Violation) :
    ((mapAppend m v).map fun e => e.2.length).sum = (m.map fun e => e.2.length).sum + 1 := by
  induction m with
  | nil => simp [mapAppend]
  | cons e rest ih =>
    obtain ⟨k, vs⟩ := e
    by_cases hk : k = v.File
    · simp [mapAppend, hk]
      omega
    · simp only [mapAppend, beq_iff_eq, hk, if_false, List.map_cons, List.sum_cons, ih]
      omega

theorem mapAppend_mem (m : List (String × List Violation)) (v : Violation)
    (hnd : (m.map Prod.fst).Nodup) (e : String × List Violation) (he : e ∈ mapAppend m v) :
    (e ∈ m ∧ e.1 ≠ v.File) ∨
    (e.1 = v.File ∧ ((∃ l, (v.File, l) ∈ m ∧ e.2 = l ++ [v]) ∨
      (v.File ∉ m.map Prod.fst ∧ e.2 = [v]))) := by
  induction m with
  | nil =>
    simp only [mapAppend, List.mem_singleton] at he
    subst he
    exact Or.inr ⟨rfl, Or.inr ⟨by simp, rfl⟩⟩
  | cons e0 rest ih =>
    obtain ⟨k, vs⟩ := e0
    simp only [List.map_cons, List.nodup_cons] at hnd
    obtain ⟨hk0, hnd2⟩ := hnd
    by_cases hk : k = v.File
    · simp only [mapAppend, beq_iff_eq, hk, if_true, List.mem_cons] at he
      rcases he with he | he
      · subst he
        exact Or.inr ⟨rfl, Or.inl ⟨vs, by simp [hk], rfl⟩⟩
      · refine Or.inl ⟨List.mem_cons_of_mem _ he, ?_⟩
        intro h
        apply hk0
        rw [hk, ← h]
        exact List.mem_map_of_mem _ he
    · simp only [mapAppend, beq_iff_eq, hk, if_false, List.mem_cons] at he
      rcases he with he | he
      · subst he
        exact Or.inl ⟨List.mem_cons_self _ _, hk⟩
      · rcases ih hnd2 he with ⟨hm, hne⟩ | ⟨hf, hcase⟩
        · exact Or.inl ⟨List.mem_cons_of_mem _ hm, hne⟩
        · refine Or.inr ⟨hf, ?_⟩
          rcases hcase with ⟨l, hl, h2⟩ | ⟨hnot, h2⟩
          · exact Or.inl ⟨l, List.mem_cons_of_mem _ hl, h2⟩
          · refine Or.inr ⟨?_, h2⟩
            simp only [List.map_cons, List.mem_cons, not_or]
            exact ⟨fun h => hk h.symm, hnot⟩

theorem Grouped_mapAppend (m : List (String × List Violation)) (vs : List Violation)
    (v : Violation) (h : Grouped m vs) : Grouped (mapAppend m v) (vs ++ [v]) := by
  obtain ⟨hnd, hkeys, hval, hsum⟩ := h
  refine ⟨?_, ?_, ?_, ?_⟩
  · rw [mapAppend_keys]
    split
    · exact hnd
    · rename_i hnot
      rw [List.nodup_append]
      refine ⟨hnd, by simp, ?_⟩
      intro a ha hb
      simp only [List.mem_singleton] at hb
      subst hb
      exact hnot ha
  · intro k
    rw [mapAppend_keys]
    simp only [List.map_append, List.map_cons, List.map_nil, List.mem_append,
      List.mem_singleton]
    split
    · rename_i hin
      constructor
      · intro hk
        exact Or.inl ((hkeys k).1 hk)
      · rintro (hk | hk)
        · exact (hkeys k).2 hk
        · rw [hk]
          exact hin
    · simp only [List.mem_append, List.mem_singleton]
      constructor
      · rintro (hk | hk)
        · exact Or.inl ((hkeys k).1 hk)
        · exact Or.inr hk
      · rintro (hk | hk)
        · exact Or.inl ((hkeys k).2 hk)
        · exact Or.inr hk
  · intro e he
    rcases mapAppend_mem m v hnd e he with ⟨hm, hne⟩ | ⟨hf, ⟨l, hl, h2⟩ | ⟨hnot, h2⟩⟩
    · have hne2 : (v.File == e.1) = false := by
        simp only [beq_eq_false_iff_ne, ne_eq]
        exact fun h => hne h.symm
      simp only [List.filter_append, List.filter_cons, List.filter_nil, hne2,
        Bool.false_eq_true, if_false, List.append_nil]
      exact hval e hm
    · have heq : (v.File == e.1) = true := by
        simp [hf]
      simp only [List.filter_append, List.filter_cons, List.filter_nil, heq, if_true]
      have hl2 : l = vs.filter fun w => w.File == v.File := hval _ hl
      rw [h2, hf, ← hl2]
    · have heq : (v.File == e.1) = true := by
        simp [hf]
      have hnil : (vs.filter fun w => w.File == e.1) = [] := by
        rw [List.filter_eq_nil_iff]
        intro w hw hwe
        apply hnot
        rw [hkeys]
        simp only [beq_iff_eq] at hwe
        rw [← hf, ← hwe]
        exact List.mem_map_of_mem _ hw
      simp only [List.filter_append, List.filter_cons, List.filter_nil, heq, if_true, hnil,
        List.nil_append]
      exact h2
  · rw [mapAppend_sum, hsum]
    simp

theorem Grouped_foldl (ws : List Violation) :
    ∀ (m : List (String × List Violation)) (pre : List Violation),
      Grouped m pre → Grouped (ws.foldl mapAppend m) (pre ++ ws) := by
  induction ws with
  | nil =>
    intro m pre h
    simpa using h
  | cons w ws ih =>
    intro m pre h
    have := ih (mapAppend m w) (pre ++ [w]) (Grouped_mapAppend m pre w h)
    simpa using this

theorem Grouped_groupByFile (violations : List Violation) :
    Grouped (groupByFile violations) violations := by
  have h0 : Grouped [] [] := by
    refine ⟨by simp, by simp, ?_, by simp⟩
    intro e he
    simp at he
  simpa [groupByFile] using Grouped_foldl violations [] [] h0

theorem mapRange_perm {α : Type} (order : List Nat) (m : List α) :
    (mapRange order m).Perm m :=
  deliveryOrder_perm m.length order m rfl

/-- C30: whatever the iteration order of the map, the report that
`JUnitFormatter.Format` builds for a non-empty list has no two suites of the
same name, and the suite names are the `File` values of the violations; each
suite has `Tests` and `Failures` equal to its number of cases and `Errors`
zero; its cases are the test cases of the violations of its file, in input
order, each with a failure whose `Message` and `Type` are the `Message` and
`Rule` of the violation; and the `Tests` counts add up to the number of
violations.  For the empty list the report is the one suite "goasted" with
one case, without a failure, and `Failures` zero. -/
theorem JUnit_report (order : List Nat) (violations : List Violation) :
    (violations ≠ [] →
      ((JUnitFormatter.Format order violations).Suites.map fun s => s.Name).Nodup ∧
      (∀ file, (file ∈ (JUnitFormatter.Format order violations).Suites.map fun s => s.Name) ↔
        file ∈ violations.map fun v => v.File) ∧
      (∀ suite ∈ (JUnitFormatter.Format order violations).Suites,
        suite.Tests = suite.Cases.length ∧ suite.Failures = suite.Cases.length ∧
        suite.Errors = 0 ∧
        suite.Cases =
          (violations.filter fun v => v.File == suite.Name).map (testCase suite.Name) ∧
        suite.Cases.map (fun c => c.Failure.map fun f => (f.Message, f.Type_)) =
          (violations.filter fun v => v.File == suite.Name).map
            fun v => some (v.Message, v.Rule)) ∧
      ((JUnitFormatter.Format order violations).Suites.map fun s => s.Tests).sum =
        violations.length) ∧
    (violations = [] →
      (JUnitFormatter.Format order violations).Suites = [passingSuite] ∧
      passingSuite.Name = "goasted" ∧ passingSuite.Tests = 1 ∧ passingSuite.Failures = 0 ∧
      passingSuite.Cases.map (fun c => c.Failure) = [none]) := by
  obtain ⟨hnd, hkeys, hval, hsum⟩ := Grouped_groupByFile violations
  have hperm := mapRange_perm order (groupByFile violations)
  constructor
  · intro hne
    have hlen : (violations.length == 0) = false := by
      cases violations with
      | nil => exact absurd rfl hne
      | cons v vs => rfl
    have hsuites : (JUnitFormatter.Format order violations).Suites =
        (mapRange order (groupByFile violations)).map fun entry => testSuite entry.1 entry.2 := by
      simp [JUnitFormatter.Format, hlen]
    have hnames : ((JUnitFormatter.Format order violations).Suites.map fun s => s.Name) =
        (mapRange order (groupByFile violations)).map Prod.fst := by
      rw [hsuites, List.map_map]
      rfl
    have htests : ((JUnitFormatter.Format order violations).Suites.map fun s => s.Tests) =
        (mapRange order (groupByFile violations)).map fun e => e.2.length := by
      rw [hsuites, List.map_map]
      rfl
    refine ⟨?_, ?_, ?_, ?_⟩
    · rw [hnames]
      exact ((hperm.map Prod.fst).nodup_iff).2 hnd
    · intro file
      rw [hnames, (hperm.map Prod.fst).mem_iff]
      exact hkeys file
    · intro suite hs
      rw [hsuites, List.mem_map] at hs
      obtain ⟨e, he, hse⟩ := hs
      subst hse
      have hv := hval e (hperm.mem_iff.1 he)
      refine ⟨by simp [testSuite], by simp [testSuite], rfl, ?_, ?_⟩
      · simp only [testSuite]
        rw [← hv]
      · simp only [testSuite]
        rw [← hv, List.map_map]
        rfl
    · rw [htests, (hperm.map fun e => e.2.length).sum_eq]
      exact hsum
  · intro he
    subst he
    refine ⟨?_, rfl, rfl, rfl, rfl⟩
    simp [JUnitFormatter.Format, groupByFile, mapRange, deliveryOrder]

/-- C30 on three violations over the files b.go, a.go, b.go, with the map
visited in the order a.go, b.go: two suites, the one of b.go with its two
cases in input order, and three tests in all. -/
theorem JUnit_report_witness :
    reportInput ≠ [] ∧
    (JUnitFormatter.Format [1] reportInput).Suites.map
        (fun s => (s.Name, s.Tests, s.Failures, s.Errors, s.Cases.map fun c => c.Name)) =
      [("a.go", 1, 1, 0, ["sql-context (line 7)"]),
       ("b.go", 2, 2, 0, ["gokit-usage (line 3)", "sql-context (line 9)"])] ∧
    ((JUnitFormatter.Format [1] reportInput).Suites.map fun s => s.Tests).sum =
      reportInput.length :=
  ⟨by decide, by decide, ((JUnit_report [1] reportInput).1 (by decide)).2.2.2⟩

/-! ## Member accesses outside the recognized names -/

theorem testifyPkgs_iff (name : String) :
    testifyPkgs name = true ↔ name ∈ ["assert", "require", "suite", "mock"] := by
  simp [testifyPkgs, or_assoc]

/-- C10: in every test-scoped file, at a member access `x.member` whose left
identifier is not one of assert, require, suite, mock, `selectorInspector`
leaves the slice of violations as it is, whatever the imports bind `x` to;
`TestifyRule.Check` is what the accesses on the four recognized names give (one
copy per import binding the name), followed by the import violations, so the
other accesses add nothing wherever they stand; every usage-phase violation
belongs to an access on one of the four names; and when no access of the file
is on one of the four names and exactly one import is a testify import, the
result is that import's violation alone, with message
"Test file imports testify package: " followed by the path. -/
theorem TestifyRule_Check_unrecognized (ctx : Context)
    (hfile : HasSuffix ctx.Filename "_test.go" = true) :
    (∀ (x Sel : Ident) (violations : List Violation),
      x.Name ∉ ["assert", "require", "suite", "mock"] →
      TestifyRule.selectorInspector ctx (some (.SelectorExpr (.Ident x) Sel)) violations =
        (violations, true)) ∧
    TestifyRule.Check ctx =
      ((memberAccessesOf ctx.File.toNode).filter
          fun a => decide (a.1.Name ∈ ["assert", "require", "suite", "mock"])).flatMap
        (fun a =>
          List.replicate (ctx.File.Imports.countP fun imp => testifyBinds imp a.1.Name)
            ⟨ctx.Filename, (ctx.FileSet a.1.NamePos).Line, (ctx.FileSet a.1.NamePos).Column,
              "testify-usage",
              "Test code calls testify method: " ++ a.1.Name ++ "." ++ a.2.Name⟩) ++
      (importSpecsOf ctx.File.toNode).filterMap (testifyImportViolation? ctx) ∧
    (∀ v ∈ TestifyRule.usagePhase ctx, ∃ a ∈ memberAccessesOf ctx.File.toNode,
      a.1.Name ∈ ["assert", "require", "suite", "mock"] ∧
      v = ⟨ctx.Filename, (ctx.FileSet a.1.NamePos).Line, (ctx.FileSet a.1.NamePos).Column,
        "testify-usage", "Test code calls testify method: " ++ a.1.Name ++ "." ++ a.2.Name⟩) ∧
    ((∀ a ∈ memberAccessesOf ctx.File.toNode,
        a.1.Name ∉ ["assert", "require", "suite", "mock"]) →
      ∀ s, (importSpecsOf ctx.File.toNode).filter
          (fun t => t.pathStartsWith "github.com/stretchr/testify") = [s] →
        TestifyRule.Check ctx =
          [⟨ctx.Filename, (ctx.FileSet s.Pos).Line, (ctx.FileSet s.Pos).Column, "testify-usage",
            "Test file imports testify package: " ++ s.pathText⟩]) := by
  have hcheck : TestifyRule.Check ctx =
      TestifyRule.usagePhase ctx ++
        (importSpecsOf ctx.File.toNode).filterMap (testifyImportViolation? ctx) := by
    simp [TestifyRule.Check, hfile, importPhase_eq]
  have husage : TestifyRule.usagePhase ctx =
      ((memberAccessesOf ctx.File.toNode).filter
          fun a => decide (a.1.Name ∈ ["assert", "require", "suite", "mock"])).flatMap
        (fun a =>
          List.replicate (ctx.File.Imports.countP fun imp => testifyBinds imp a.1.Name)
            ⟨ctx.Filename, (ctx.FileSet a.1.NamePos).Line, (ctx.FileSet a.1.NamePos).Column,
              "testify-usage",
              "Test code calls testify method: " ++ a.1.Name ++ "." ++ a.2.Name⟩) := by
    rw [usagePhase_eq]
    rw [flatMap_filter_of_nil
      (fun a : Ident × Ident => decide (a.1.Name ∈ ["assert", "require", "suite", "mock"]))
      (fun a : Ident × Ident => testifyUsageViolations ctx a.1 a.2)]
    · apply flatMap_congr_mem
      intro a ha
      have hin := (List.mem_filter.1 ha).2
      simp only [decide_eq_true_eq] at hin
      simp only [testifyUsageViolations, (testifyPkgs_iff a.1.Name).2 hin, if_true]
    · intro a ha
      simp only [decide_eq_false_iff_not] at ha
      have hp : testifyPkgs a.1.Name = false := by
        cases h : testifyPkgs a.1.Name with
        | false => rfl
        | true => exact absurd ((testifyPkgs_iff a.1.Name).1 h) ha
      simp [testifyUsageViolations, hp]
  refine ⟨?_, ?_, ?_, ?_⟩
  · intro x Sel violations hx
    have hp : testifyPkgs x.Name = false := by
      cases h : testifyPkgs x.Name with
      | false => rfl
      | true => exact absurd ((testifyPkgs_iff x.Name).1 h) hx
    simp [TestifyRule.selectorInspector, hp]
  · rw [hcheck, husage]
  · intro v hv
    rw [husage, List.mem_flatMap] at hv
    obtain ⟨a, ha, hva⟩ := hv
    have hin := (List.mem_filter.1 ha).2
    simp only [decide_eq_true_eq] at hin
    exact ⟨a, (List.mem_filter.1 ha).1, hin, (List.mem_replicate.1 hva).2⟩
  · intro hacc s hs
    have hnil : TestifyRule.usagePhase ctx = [] := by
      rw [husage, List.flatMap_eq_nil_iff]
      intro a ha
      have hin := (List.mem_filter.1 ha).2
      simp only [decide_eq_true_eq] at hin
      exact absurd hin (hacc a (List.mem_filter.1 ha).1)
    rw [hcheck, hnil, testifyImport_filterMap, hs]
    rfl

/-- C10 on `mixed_test.go`, where `a` is the explicit alias of testify's
`assert`: the access `a.Equal` leaves the slice empty, and the file gives the
usage violation of `require.Equal` and the two import violations only; and on
the file of `TestTestifyRule_DetectsAliasedImport`, whose accesses are
`testing.T` and `a.Equal`, the one violation is the import violation. -/
theorem TestifyRule_Check_unrecognized_witness :
    testifyBinds (namedImport 502 "a" "github.com/stretchr/testify/assert") "a" = true ∧
    memberAccessesOf mixedCtx.File.toNode =
      [(⟨923, "testing"⟩, ⟨931, "T"⟩), (⟨1002, "a"⟩, ⟨1004, "Equal"⟩),
       (⟨1102, "require"⟩, ⟨1110, "Equal"⟩)] ∧
    TestifyRule.selectorInspector mixedCtx
        (some (.SelectorExpr (.Ident ⟨1002, "a"⟩) ⟨1004, "Equal"⟩)) [] = ([], true) ∧
    TestifyRule.Check mixedCtx =
      [⟨"mixed_test.go", 11, 2, "testify-usage", "Test code calls testify method: require.Equal"⟩,
       ⟨"mixed_test.go", 5, 2, "testify-usage",
         "Test file imports testify package: github.com/stretchr/testify/assert"⟩,
       ⟨"mixed_test.go", 6, 2, "testify-usage",
         "Test file imports testify package: github.com/stretchr/testify/require"⟩] ∧
    memberAccessesOf aliasedCtx.File.toNode =
      [(⟨823, "testing"⟩, ⟨831, "T"⟩), (⟨902, "a"⟩, ⟨904, "Equal"⟩)] ∧
    TestifyRule.Check aliasedCtx =
      [⟨"alias_test.go", 5, 2, "testify-usage",
        "Test file imports testify package: github.com/stretchr/testify/assert"⟩] :=
  ⟨by decide, by decide,
   (TestifyRule_Check_unrecognized mixedCtx (by decide)).1 ⟨1002, "a"⟩ ⟨1004, "Equal"⟩ []
     (by decide),
   by decide, by decide,
   (TestifyRule_Check_unrecognized aliasedCtx (by decide)).2.2.2 (by decide)
     (namedImport 502 "a" "github.com/stretchr/testify/assert") (by decide)⟩

end Goasted
